import Mathlib

/-!
go-stress-testing: a shallow embedding of the execution engine.

The definitions below follow the Go sources of the repository
(`statistics/collector.go`, `statistics/realtime_server.go`,
`executor/dependency.go`, `executor/api_selector.go`, `executor/worker.go`,
`executor/middleware.go`, `executor/executor.go`, `executor/scheduler.go`,
`executor/extractor.go`, `protocol/http_verify.go`, `verify/builtin.go`,
`verify/registry.go`, `config/config.go`, `config/loader.go`, `main.go`).

Conventions of the embedding

* `uint64` values are natural numbers kept below `2 ^ 64`; every increment is
  reduced modulo `2 ^ 64` (`atomic.AddUint64` wraps).
* `int` and `time.Duration` values are integers; additions of `int` values are
  wrapped into the signed 64-bit range by `wrapInt64`.
* Go strings are Lean strings (texts are taken to be valid UTF-8, where the
  byte-wise search of `strings.ReplaceAll` and a search on characters agree).
* A Go `map[string]V` that is only read by key is a function
  `String → Option V` (or `String → Bool` for `map[string]bool`, whose missing
  keys read as `false`).  The order in which `range` walks a map is not
  specified by Go, so every loop over a map takes the order as an argument.
* `float64` fields (sizes, rates) and wall-clock timestamps are left out.  Where
  a `float64` computation decides a property (the ramp-up delay, the text of a
  JSON number) it is modelled by the exact operation on rationals.
* A handler of the middleware chain is a function on an explicit state; the
  functions of libraries outside the repository (circuit breaker, retry
  runner, JSON, JSON path, regular expressions, templates) are parameters.
  The state machine of the circuit breaker, whose code is not in the
  repository, is given in addition as `specCircuit`, modelled from the
  specification.
* A call that panics has the result `none`: nothing in the repository recovers
  from a panic, so a handler that panics ends the worker that called it.
-/

set_option autoImplicit false

/-! ## Machine integers -/

/-- The number of values of a 64-bit word. -/
def uint64Size : Nat := 2 ^ 64

/-- Addition on `uint64` as performed by `atomic.AddUint64` and `++`. -/
def addUint64 (a b : Nat) : Nat := (a + b) % uint64Size

/-- Reduction of an integer into the range of Go's 64-bit `int`. -/
def wrapInt64 (x : Int) : Int := (x + 2 ^ 63) % 2 ^ 64 - 2 ^ 63

/-- Addition on Go's `int`. -/
def addInt64 (a b : Int) : Int := wrapInt64 (a + b)

/-! ## package types / config -/

/-- The dynamic value of an `interface{}` field filled by the YAML or JSON
decoder (or by a Go literal): `yaml.v3` decodes an integer as `int` and
`encoding/json` decodes every number as `float64`. -/
inductive ExpectValue where
  | null
  | int (n : Int)
  | float64 (x : Rat)
  | str (s : String)
  | bool (b : Bool)
  | other
  deriving DecidableEq, Repr

/-- The type `config.VerifyConfig`; the field `Type` is named `Kind` here. -/
structure VerifyConfig where
  Kind : String
  JSONPath : String
  Custom : String
  Expect : ExpectValue
  deriving DecidableEq, Repr

/-- The type `config.ExtractorConfig`; the field `Type` is named `Kind` here. -/
structure ExtractorConfig where
  Name : String
  Kind : String
  JSONPath : String
  Regex : String
  Header : String
  Default : String
  deriving DecidableEq, Repr

/-- The type `config.APIConfig`. -/
structure APIConfig where
  Name : String
  Host : String
  Path : String
  URL : String
  Method : String
  Headers : List (String × String)
  Body : String
  Weight : Int
  Verify : List VerifyConfig
  DependsOn : List String
  Extractors : List ExtractorConfig
  deriving DecidableEq, Repr

/-- The fields of `config.GRPCConfig` read by the validation. -/
structure GRPCConfig where
  UseReflection : Bool
  Service : String
  Method : String
  ProtoFile : String
  deriving DecidableEq, Repr

/-- The fields of `config.AdvancedConfig` read by the executor, with the two
retry settings that it declares; durations are in nanoseconds. -/
structure AdvancedConfig where
  EnableBreaker : Bool
  MaxFailures : Int
  ResetTimeout : Int
  EnableRetry : Bool
  MaxRetries : Int
  RetryInterval : Int
  RampUp : Int
  deriving DecidableEq, Repr

/-- The fields of `config.Config` read by the selectors, the validation, the
loader and the executor; the defaults are those of `DefaultConfig`. -/
structure Config where
  URL : String
  Method : String
  Headers : List (String × String)
  Body : String
  Verify : Option VerifyConfig
  APIs : List APIConfig
  Protocol : String := "http"
  Concurrency : Nat := 1
  Requests : Nat := 1
  Duration : Int := 0
  GRPC : Option GRPCConfig :=
    some { UseReflection := false, Service := "", Method := "", ProtoFile := "" }
  Host : String := ""
  Advanced : Option AdvancedConfig :=
    some { EnableBreaker := false, MaxFailures := 5, ResetTimeout := 30000000000,
           EnableRetry := false, MaxRetries := 3, RetryInterval := 1000000000, RampUp := 0 }
  deriving DecidableEq, Repr

/-- The type `types.VerificationResult`; the field `Type` is named `Kind` here. -/
structure VerificationResult where
  Kind : String
  Success : Bool
  Message : String
  Expect : String
  Actual : String
  deriving DecidableEq, Repr

/-- The type `types.RequestResult`; `Error` is the text of the error, if any. -/
structure RequestResult where
  Success : Bool
  StatusCode : Int
  Duration : Int
  Error : Option String
  URL : String
  Method : String
  Verifications : List VerificationResult := []
  deriving DecidableEq, Repr

/-! ## package statistics -/

/-- The type `statistics.RequestDetail`. -/
structure RequestDetail where
  ID : Nat
  Duration : Int
  StatusCode : Int
  Success : Bool
  Error : String
  URL : String
  Method : String
  Verifications : List VerificationResult := []
  deriving DecidableEq, Repr

/-- The statement `m[k]++` on a `map[K]uint64`, the map kept as a list of
entries with distinct keys. -/
def mapIncr {K : Type} [DecidableEq K] : List (K × Nat) → K → List (K × Nat)
  | [], k => [(k, 1)]
  | (k0, v) :: rest, k =>
    if k0 = k then (k0, addUint64 v 1) :: rest else (k0, v) :: mapIncr rest k

/-- The type `statistics.Collector`. -/
structure Collector where
  totalRequests : Nat
  successRequests : Nat
  failedRequests : Nat
  totalDuration : Int
  minDuration : Int
  maxDuration : Int
  durations : List Int
  errors : List (String × Nat)
  statusCodes : List (Int × Nat)
  requestDetails : List RequestDetail
  maxDetails : Nat
  deriving DecidableEq, Repr

/-- The value of `time.Hour` in nanoseconds. -/
def timeHour : Int := 3600000000000

/-- The constructor `NewCollector`. -/
def NewCollector : Collector :=
  { totalRequests := 0, successRequests := 0, failedRequests := 0,
    totalDuration := 0, minDuration := timeHour, maxDuration := 0,
    durations := [], errors := [], statusCodes := [],
    requestDetails := [], maxDetails := 10000 }

/-- The method `Collector.Collect`. -/
def Collector.Collect (c : Collector) (result : RequestResult) : Collector :=
  let total := addUint64 c.totalRequests 1
  let success := if result.Success then addUint64 c.successRequests 1 else c.successRequests
  let failed := if result.Success then c.failedRequests else addUint64 c.failedRequests 1
  let errors :=
    if result.Success then c.errors
    else match result.Error with
      | some msg => mapIncr c.errors msg
      | none => c.errors
  let detail : RequestDetail :=
    { ID := total, Duration := result.Duration, StatusCode := result.StatusCode,
      Success := result.Success, Error := result.Error.getD "",
      URL := result.URL, Method := result.Method, Verifications := result.Verifications }
  let kept :=
    if c.requestDetails.length ≥ c.maxDetails then c.requestDetails.drop 1000
    else c.requestDetails
  { totalRequests := total,
    successRequests := success,
    failedRequests := failed,
    totalDuration := addInt64 c.totalDuration result.Duration,
    minDuration := if result.Duration < c.minDuration then result.Duration else c.minDuration,
    maxDuration := if result.Duration > c.maxDuration then result.Duration else c.maxDuration,
    durations := c.durations ++ [result.Duration],
    errors := errors,
    statusCodes :=
      if result.StatusCode > 0 then mapIncr c.statusCodes result.StatusCode else c.statusCodes,
    requestDetails := kept ++ [detail],
    maxDetails := c.maxDetails }

/-- The type `statistics.Snapshot`. -/
structure Snapshot where
  TotalRequests : Nat
  SuccessRequests : Nat
  FailedRequests : Nat
  MinDuration : Int
  MaxDuration : Int
  AvgDuration : Int
  deriving DecidableEq, Repr

/-- The method `Collector.GetSnapshot`. -/
def Collector.GetSnapshot (c : Collector) : Snapshot :=
  { TotalRequests := c.totalRequests,
    SuccessRequests := c.successRequests,
    FailedRequests := c.failedRequests,
    MinDuration := c.minDuration,
    MaxDuration := c.maxDuration,
    AvgDuration :=
      if c.totalRequests > 0 then Int.tdiv c.totalDuration (wrapInt64 c.totalRequests) else 0 }

/-- The type `statistics.Report`. -/
structure Report where
  TotalRequests : Nat
  SuccessRequests : Nat
  FailedRequests : Nat
  TotalTime : Int
  MinDuration : Int
  MaxDuration : Int
  AvgDuration : Int
  P50 : Int
  P90 : Int
  P95 : Int
  P99 : Int
  Errors : List (String × Nat)
  StatusCodes : List (Int × Nat)
  RequestDetails : List RequestDetail
  deriving DecidableEq, Repr

/-- The method `Collector.percentile` on the (already sorted) durations; the
fraction `p` is given in hundredths and the index `int(float64(n-1) * p)` is
its exact value `⌊(n-1)·p⌋`. -/
def Collector.percentile (c : Collector) (hundredths : Nat) : Int :=
  if c.durations.length = 0 then 0
  else c.durations.getD ((c.durations.length - 1) * hundredths / 100) 0

/-- The method `Collector.GenerateReport`: it sorts `c.durations` in place, so
the collector after the call is returned next to the report. -/
def Collector.GenerateReport (c : Collector) (totalTime : Int) : Report × Collector :=
  let c1 : Collector := { c with durations := c.durations.insertionSort (fun a b => a ≤ b) }
  let report : Report :=
    { TotalRequests := c1.totalRequests,
      SuccessRequests := c1.successRequests,
      FailedRequests := c1.failedRequests,
      TotalTime := totalTime,
      MinDuration := c1.minDuration,
      MaxDuration := c1.maxDuration,
      AvgDuration :=
        if c1.totalRequests > 0 then Int.tdiv c1.totalDuration (wrapInt64 c1.totalRequests) else 0,
      P50 := if c1.durations.length > 0 then c1.percentile 50 else 0,
      P90 := if c1.durations.length > 0 then c1.percentile 90 else 0,
      P95 := if c1.durations.length > 0 then c1.percentile 95 else 0,
      P99 := if c1.durations.length > 0 then c1.percentile 99 else 0,
      Errors := c1.errors,
      StatusCodes := c1.statusCodes,
      RequestDetails := c1.requestDetails }
  (report, c1)

/-- The collector after the results of `rs` have been passed to `Collect`,
one at a time, starting from a fresh collector. -/
def collectAll (rs : List RequestResult) : Collector :=
  rs.foldl Collector.Collect NewCollector

/-- The method `Collector.GetStatusCodes`: a copy of the status-code histogram. -/
def Collector.GetStatusCodes (c : Collector) : List (Int × Nat) := c.statusCodes

/-- The sum of the counts of a histogram. -/
def histogramTotal (m : List (Int × Nat)) : Nat := (m.map Prod.snd).sum

/-- The slice expression `s[low:high]` on a slice with `high` at most the
length of `s`; `none` is the run-time panic "slice bounds out of range", which
Go raises unless `0 ≤ low ≤ high ≤ cap(s)`. -/
def goSlice {α : Type} (s : List α) (low high : Int) : Option (List α) :=
  if 0 ≤ low ∧ low ≤ high ∧ high ≤ s.length then
    some ((s.take high.toNat).drop low.toNat)
  else none

/-- The list `filtered` built by `Collector.GetRequestDetails`: the retained
details from the newest to the oldest, the failed ones only when `onlyErrors`
is set. -/
def Collector.filteredDetails (c : Collector) (onlyErrors : Bool) : List RequestDetail :=
  if onlyErrors then c.requestDetails.reverse.filter (fun d => !d.Success)
  else c.requestDetails.reverse

/-- The method `Collector.GetRequestDetails`; `offset` and `limit` are Go
`int`s and `none` is a slice-bounds panic.  The upper bound `end` never exceeds
the length of `filtered`, so its capacity plays no part. -/
def Collector.GetRequestDetails (c : Collector) (offset limit : Int) (onlyErrors : Bool) :
    Option (List RequestDetail) :=
  let filtered := c.filteredDetails onlyErrors
  if offset ≥ filtered.length then some []
  else
    let end0 := addInt64 offset limit
    let end1 := if end0 > filtered.length then (filtered.length : Int) else end0
    goSlice filtered offset end1

/-- The method `Collector.GetRequestDetailsCount`. -/
def Collector.GetRequestDetailsCount (c : Collector) (onlyErrors : Bool) : Nat :=
  if !onlyErrors then c.requestDetails.length
  else (c.requestDetails.filter (fun d => !d.Success)).length

/-- The field `RecentDurations` computed by `RealtimeServer.collectData`: the
last twenty entries of `collector.durations`, in milliseconds. -/
def recentDurations (c : Collector) : List Int :=
  (c.durations.drop (c.durations.length - 20)).map (fun d => Int.tdiv d 1000000)

/-- The detail that `Collect` records for the result `r` when the counter
`totalRequests` has reached `id`. -/
def detailOf (id : Nat) (r : RequestResult) : RequestDetail :=
  { ID := id, Duration := r.Duration, StatusCode := r.StatusCode, Success := r.Success,
    Error := r.Error.getD "", URL := r.URL, Method := r.Method,
    Verifications := r.Verifications }

/-- The details of the results `rs` in arrival order, the first of them being
the result number `i + 1` of the run. -/
def detailsFrom : Nat → List RequestResult → List RequestDetail
  | _, [] => []
  | i, r :: rs => detailOf ((i + 1) % uint64Size) r :: detailsFrom (i + 1) rs

/-- A result with a status code and a duration. -/
def mkResult (ok : Bool) (code : Int) (duration : Int) : RequestResult :=
  { Success := ok, StatusCode := code, Duration := duration,
    Error := if ok then none else some "failed", URL := "u", Method := "GET" }

/-- Three results with durations of 9, 5 and 2 milliseconds, the second failed. -/
def threeResults : List RequestResult :=
  [mkResult true 200 9000000, mkResult false 500 5000000, mkResult true 200 2000000]

/-! ## package executor: dependency resolver -/

/-- The assignment `m[k] = v` on a map that is read by key. -/
def mapSet {V : Type} (m : String → V) (k : String) (v : V) : String → V :=
  fun x => if x = k then v else m x

/-- The two errors returned by `resolveDependencies`: a cycle detected at
`name`, or a `name` that is no key of `apiMap`. -/
inductive ResolveError where
  | cyclic (name : String)
  | unknownAPI (name : String)
  deriving DecidableEq, Repr

/-- The name given to a blank API at (0-based) position `i`:
`fmt.Sprintf("api_%d", i+1)`. -/
def autoName (i : Nat) : String := "api_" ++ toString (i + 1)

/-- The renaming done by the first loop of `NewDependencyResolver`, from
position `i` on; the loop writes through `&apis[i]`, so the caller's slice is
renamed as well. -/
def assignNamesFrom : Nat → List APIConfig → List APIConfig
  | _, [] => []
  | i, api :: rest =>
    (if api.Name = "" then { api with Name := autoName i } else api)
      :: assignNamesFrom (i + 1) rest

/-- The API list after the first loop of `NewDependencyResolver`. -/
def assignNames (apis : List APIConfig) : List APIConfig := assignNamesFrom 0 apis

/-- The assignments `resolver.apiMap[api.Name] = api` for the APIs of `l`, in
order, on an empty map: a later API replaces an earlier one of the same name. -/
def apiMapOf (l : List APIConfig) : String → Option APIConfig :=
  l.foldl (fun m api => mapSet m api.Name (some api)) (fun _ => none)

/-- The map `apiMap` built by the first loop of `NewDependencyResolver`. -/
def buildAPIMap (apis : List APIConfig) : String → Option APIConfig :=
  apiMapOf (assignNames apis)

/-- The local variables `visited`, `visiting` and `order` of
`resolveDependencies`. -/
structure VisitState where
  visited : String → Bool
  visiting : String → Bool
  order : List String

/-- A loop `for _, x := range xs { if err := v(x); err != nil { return err } }`
threading the state; `none` is reserved for a run that was cut short by the
recursion bound of `visit`. -/
def visitAll (v : String → VisitState → Option (Except ResolveError VisitState)) :
    List String → VisitState → Option (Except ResolveError VisitState)
  | [], st => some (.ok st)
  | x :: xs, st =>
    match v x st with
    | some (.ok st1) => visitAll v xs st1
    | some (.error e) => some (.error e)
    | none => none

/-- The closure `visit` of `resolveDependencies`.  The first argument bounds
the depth of the recursion; `none` means that the bound was reached. -/
def visit (apiMap : String → Option APIConfig) :
    Nat → String → VisitState → Option (Except ResolveError VisitState)
  | 0, _, _ => none
  | fuel + 1, name, st =>
    if st.visited name then some (.ok st)
    else if st.visiting name then some (.error (.cyclic name))
    else
      let st1 : VisitState := { st with visiting := mapSet st.visiting name true }
      match apiMap name with
      | none => some (.error (.unknownAPI name))
      | some api =>
        match visitAll (visit apiMap fuel) api.DependsOn st1 with
        | some (.ok st2) =>
          some (.ok { visited := mapSet st2.visited name true,
                      visiting := mapSet st2.visiting name false,
                      order := st2.order ++ [name] })
        | some (.error e) => some (.error e)
        | none => none

/-- The method `resolveDependencies`; `keys` is the order in which
`for name := range r.apiMap` walks the keys.  The depth of the recursion is
bounded by the number of keys plus one. -/
def resolveDependencies (apiMap : String → Option APIConfig) (keys : List String) :
    Option (Except ResolveError (List String)) :=
  match visitAll (visit apiMap (keys.length + 1)) keys
      { visited := fun _ => false, visiting := fun _ => false, order := [] } with
  | some (.ok st) => some (.ok st.order)
  | some (.error e) => some (.error e)
  | none => none

/-- The type `DependencyResolver`. -/
structure DependencyResolver where
  apiConfigs : List APIConfig
  apiMap : String → Option APIConfig
  executionOrder : List String
  extractedVars : List (String × String)

/-- The constructor `NewDependencyResolver`; `keys` is the order in which the
keys of `apiMap` are walked. -/
def NewDependencyResolver (apis : List APIConfig) (keys : List String) :
    Option (Except ResolveError DependencyResolver) :=
  match resolveDependencies (buildAPIMap apis) keys with
  | some (.ok order) =>
    some (.ok { apiConfigs := assignNames apis, apiMap := buildAPIMap apis,
                executionOrder := order, extractedVars := [] })
  | some (.error e) => some (.error e)
  | none => none

/-- The method `DependencyResolver.GetExecutionOrder`. -/
def DependencyResolver.GetExecutionOrder (r : DependencyResolver) : List String :=
  r.executionOrder

/-- The method `DependencyResolver.GetAPI`. -/
def DependencyResolver.GetAPI (r : DependencyResolver) (name : String) : Option APIConfig :=
  r.apiMap name

/-- The names of the APIs after the renaming of blank names. -/
def apiNames (apis : List APIConfig) : List String := (assignNames apis).map (fun a => a.Name)

/-- A list `keys` is an order in which Go may walk the keys of `apiMap`: every
distinct API name once. -/
def RangeOrder (apis : List APIConfig) (keys : List String) : Prop :=
  keys.Perm (apiNames apis).dedup

instance (apis : List APIConfig) (keys : List String) : Decidable (RangeOrder apis keys) := by
  unfold RangeOrder; infer_instance

/-- The edge `x → y` of the graph seen by the resolver: the API registered under
`x` lists `y` in `DependsOn`. -/
def DependsEdge (apiMap : String → Option APIConfig) (x y : String) : Prop :=
  ∃ api, apiMap x = some api ∧ y ∈ api.DependsOn

/-- The graph of the registered APIs has a cycle. -/
def MapHasCycle (apiMap : String → Option APIConfig) : Prop :=
  ∃ n, Relation.TransGen (DependsEdge apiMap) n n

/-- Some registered API depends on a name that is no key of the map. -/
def MapHasMissing (apiMap : String → Option APIConfig) : Prop :=
  ∃ p d, DependsEdge apiMap p d ∧ apiMap d = none

/-- The edge `x → y` of the graph of the whole list: some API named `x` lists
`y` in `DependsOn`. -/
def ListEdge (apis : List APIConfig) (x y : String) : Prop :=
  ∃ a ∈ assignNames apis, a.Name = x ∧ y ∈ a.DependsOn

/-- The `depends_on` graph of the list has a cycle. -/
def ListHasCycle (apis : List APIConfig) : Prop :=
  ∃ n, Relation.TransGen (ListEdge apis) n n

/-- Some `DependsOn` entry of the list names no API of the list. -/
def ListHasMissing (apis : List APIConfig) : Prop :=
  ∃ a ∈ assignNames apis, ∃ d ∈ a.DependsOn, d ∉ apiNames apis

/-- The name `d` stands at an earlier position of `l` than the name `n`. -/
def Precedes (l : List String) (d n : String) : Prop :=
  ∃ i j : Nat, i < j ∧ l[i]? = some d ∧ l[j]? = some n

/-- An API with only a name and a dependency list. -/
def mkAPI (name : String) (deps : List String) : APIConfig :=
  { Name := name, Host := "", Path := "", URL := "", Method := "", Headers := [], Body := "",
    Weight := 0, Verify := [], DependsOn := deps, Extractors := [] }

/-- The dependent flow of the specification: `me` depends on `login`. -/
def loginFlow : List APIConfig := [mkAPI "me" ["login"], mkAPI "login" []]

/-- The resolver built from `loginFlow`. -/
def loginResolver : DependencyResolver :=
  { apiConfigs := assignNames loginFlow, apiMap := buildAPIMap loginFlow,
    executionOrder := ["login", "me"], extractedVars := [] }

/-- Two APIs that carry the same name. -/
def twinAPIs : List APIConfig := [mkAPI "a" [], mkAPI "a" []]

/-- An API named `api_2` followed by a blank API, which is auto-named `api_2`. -/
def collideAPIs : List APIConfig := [mkAPI "api_2" [], mkAPI "" []]

/-- Two APIs of the same name, the first of which depends on a name that no API
carries. -/
def shadowAPIs : List APIConfig := [mkAPI "a" ["zzz"], mkAPI "a" []]

/-- An API named `api_2` that depends on a name that no API carries, followed
by a blank API, which is auto-named `api_2`. -/
def shadowBlankAPIs : List APIConfig := [mkAPI "api_2" ["zzz"], mkAPI "" []]

/-- A blank API that depends on `api_1`, the name it is given. -/
def blankCycleAPIs : List APIConfig := [mkAPI "" ["api_1"]]

/-- Two APIs that depend on each other. -/
def cycleAPIs : List APIConfig := [mkAPI "a" ["b"], mkAPI "b" ["a"]]

/-! ## package executor: API selectors -/

/-- Subtraction on `uint64`. -/
def subUint64 (a b : Nat) : Nat := (a + uint64Size - b % uint64Size) % uint64Size

/-- The type `APIRequestConfig`. -/
structure APIRequestConfig where
  Name : String
  URL : String
  Method : String
  Headers : List (String × String)
  Body : String
  Verify : List VerifyConfig
  Extractors : List ExtractorConfig
  deriving DecidableEq, Repr

/-- The literal `&APIRequestConfig{Name: api.Name, ...}` that every selector
builds from the API it has chosen. -/
def APIConfig.toRequestConfig (api : APIConfig) : APIRequestConfig :=
  { Name := api.Name, URL := api.URL, Method := api.Method, Headers := api.Headers,
    Body := api.Body, Verify := api.Verify, Extractors := api.Extractors }

/-- The type `roundRobinSelector`. -/
structure roundRobinSelector where
  apis : List APIConfig
  counter : Nat
  deriving DecidableEq, Repr

/-- The constructor `NewRoundRobinSelector`. -/
def NewRoundRobinSelector (apis : List APIConfig) : roundRobinSelector :=
  { apis := apis, counter := 0 }

/-- The list position read by `roundRobinSelector.Next`:
`(atomic.AddUint64(&s.counter, 1) - 1) % uint64(len(s.apis))`. -/
def roundRobinSelector.position (s : roundRobinSelector) : Nat :=
  subUint64 (addUint64 s.counter 1) 1 % s.apis.length

/-- The method `roundRobinSelector.Next`: the value returned and the selector
after the call. -/
def roundRobinSelector.Next (s : roundRobinSelector) :
    Option APIRequestConfig × roundRobinSelector :=
  if s.apis.length = 0 then (none, s)
  else
    ((s.apis[s.position]?).map APIConfig.toRequestConfig,
      { s with counter := addUint64 s.counter 1 })

/-- The first `n` calls of `roundRobinSelector.Next`: for each call the list
position that was read and the value returned. -/
def roundRobinSelector.trace :
    Nat → roundRobinSelector → List (Nat × Option APIRequestConfig)
  | 0, _ => []
  | n + 1, s => (s.position, s.Next.1) :: roundRobinSelector.trace n s.Next.2

/-- The type `weightedSelector`. -/
structure weightedSelector where
  apis : List APIConfig
  weights : List Int
  total : Int
  deriving DecidableEq, Repr

/-- The weight used for an API by `NewWeightedSelector`. -/
def effectiveWeight (api : APIConfig) : Int := if api.Weight ≤ 0 then 1 else api.Weight

/-- The constructor `NewWeightedSelector`. -/
def NewWeightedSelector (apis : List APIConfig) : weightedSelector :=
  { apis := apis,
    weights := apis.map effectiveWeight,
    total := (apis.map effectiveWeight).foldl addInt64 0 }

/-- The loop `for i, weight := range s.weights` of `weightedSelector.Next`, from
position `i` on with the running `sum`: the index at which `r < sum` first
holds, or `none` when the loop ends without returning. -/
def weightedPick (r : Int) : List Int → Int → Nat → Option Nat
  | [], _, _ => none
  | w :: ws, sum, i =>
    if r < addInt64 sum w then some i else weightedPick r ws (addInt64 sum w) (i + 1)

/-- The method `weightedSelector.Next`; `r` is the value of `rand.Intn(s.total)`,
a number with `0 ≤ r < s.total`.  `rand.Intn` panics when its argument is not
positive, which is the result `Except.error`. -/
def weightedSelector.Next (s : weightedSelector) (r : Int) :
    Except String (Option APIRequestConfig) :=
  if s.apis.length = 0 then .ok none
  else if s.total ≤ 0 then .error "invalid argument to Intn"
  else
    match weightedPick r s.weights 0 0 with
    | some i => .ok ((s.apis[i]?).map APIConfig.toRequestConfig)
    | none => .ok ((s.apis[0]?).map APIConfig.toRequestConfig)

/-- The type `singleAPISelector`. -/
structure singleAPISelector where
  config : APIRequestConfig
  deriving DecidableEq, Repr

/-- The constructor `NewSingleAPISelector`. -/
def NewSingleAPISelector (cfg : Config) : singleAPISelector :=
  { config :=
      { Name := "default", URL := cfg.URL, Method := cfg.Method, Headers := cfg.Headers,
        Body := cfg.Body,
        Verify := match cfg.Verify with
          | some v => [v]
          | none => [],
        Extractors := [] } }

/-- The method `singleAPISelector.Next`. -/
def singleAPISelector.Next (s : singleAPISelector) : Option APIRequestConfig := some s.config

/-- The type `dependencySelector`. -/
structure dependencySelector where
  resolver : DependencyResolver
  order : List String
  current : Nat

/-- The constructor `NewDependencySelector`. -/
def NewDependencySelector (apis : List APIConfig) (keys : List String) :
    Option (Except ResolveError dependencySelector) :=
  match NewDependencyResolver apis keys with
  | some (.ok resolver) =>
    some (.ok { resolver := resolver, order := resolver.GetExecutionOrder, current := 0 })
  | some (.error e) => some (.error e)
  | none => none

/-- The method `dependencySelector.Next`: the value returned and the selector
after the call. -/
def dependencySelector.Next (s : dependencySelector) :
    Option APIRequestConfig × dependencySelector :=
  if s.order.length = 0 then (none, s)
  else
    let idx := subUint64 (addUint64 s.current 1) 1
    let s1 : dependencySelector := { s with current := addUint64 s.current 1 }
    match s.order[idx % s.order.length]? with
    | none => (none, s1)
    | some apiName =>
      match s.resolver.GetAPI apiName with
      | none => (none, s1)
      | some api => (some api.toRequestConfig, s1)

/-- The values returned by the first `n` calls of `dependencySelector.Next`. -/
def dependencySelector.run : Nat → dependencySelector → List (Option APIRequestConfig)
  | 0, _ => []
  | n + 1, s => s.Next.1 :: dependencySelector.run n s.Next.2

/-- The four implementations of the interface `APISelector`. -/
inductive APISelector where
  | single (s : singleAPISelector)
  | roundRobin (s : roundRobinSelector)
  | weighted (s : weightedSelector)
  | dependency (s : dependencySelector)

/-- The first test of `CreateAPISelector`: some API has a non-empty `DependsOn`
or a non-empty `Extractors`. -/
def hasDeps (apis : List APIConfig) : Bool :=
  apis.any (fun api => decide (api.DependsOn.length > 0) || decide (api.Extractors.length > 0))

/-- The second test of `CreateAPISelector`: some API has a weight above one. -/
def hasWeight (apis : List APIConfig) : Bool :=
  apis.any (fun api => decide (api.Weight > 1))

/-- The function `CreateAPISelector`; `keys` is the order in which the resolver
walks its map.  When `NewDependencySelector` fails the error is logged and the
round-robin selector is returned over `cfg.APIs`, whose blank names the
resolver has already filled in.  The result `none` stands for a resolver that
was cut short by its recursion bound. -/
def CreateAPISelector (cfg : Config) (keys : List String) : Option APISelector :=
  if cfg.APIs.length = 0 then some (.single (NewSingleAPISelector cfg))
  else if hasDeps cfg.APIs then
    match NewDependencySelector cfg.APIs keys with
    | some (.ok selector) => some (.dependency selector)
    | some (.error _) => some (.roundRobin (NewRoundRobinSelector (assignNames cfg.APIs)))
    | none => none
  else if hasWeight cfg.APIs then some (.weighted (NewWeightedSelector cfg.APIs))
  else some (.roundRobin (NewRoundRobinSelector cfg.APIs))

/-- The part of the type `Executor` (and of the scheduler it holds) that
depends on the selector: the configuration, the API selector of the multi-API
mode, and whether the request builder of the single-API mode was created. -/
structure Executor where
  config : Config
  apiSelector : Option APISelector
  hasReqBuilder : Bool

/-- The configuration behind the pointer `cfg` after `CreateAPISelector(cfg)`:
when some API has dependencies or extractors, `NewDependencyResolver` is called
on the slice `cfg.APIs` and gives its blank names their names in place, whether
it succeeds or not. -/
def configAfterSelector (cfg : Config) : Config :=
  if cfg.APIs.length = 0 then cfg
  else if hasDeps cfg.APIs then { cfg with APIs := assignNames cfg.APIs }
  else cfg

/-- The constructor `NewExecutor`; `chain` is the result of
`buildMiddlewareChain`, the only step of the constructor that can fail, and
`keys` is the order in which the resolver walks its map.  The executor keeps
the pointer `cfg`, whose API names the selector construction may have filled
in. -/
def NewExecutor (cfg : Config) (keys : List String) (chain : Except String Unit) :
    Option (Except String Executor) :=
  match chain with
  | .error err => some (.error ("构建中间件链失败: " ++ err))
  | .ok _ =>
    if cfg.APIs.length > 0 then
      match CreateAPISelector cfg keys with
      | some sel =>
        some (.ok { config := configAfterSelector cfg, apiSelector := some sel,
                    hasReqBuilder := false })
      | none => none
    else some (.ok { config := cfg, apiSelector := none, hasReqBuilder := true })

/-- The kind of a selector. -/
inductive SelectorKind where
  | single
  | roundRobin
  | weighted
  | dependency
  deriving DecidableEq, Repr

/-- The kind of the selector `s`. -/
def APISelector.kind : APISelector → SelectorKind
  | .single _ => .single
  | .roundRobin _ => .roundRobin
  | .weighted _ => .weighted
  | .dependency _ => .dependency

/-- A configuration made of a list of APIs only. -/
def mkConfig (apis : List APIConfig) : Config :=
  { URL := "", Method := "", Headers := [], Body := "", Verify := none, APIs := apis }

/-- The value that `dependencySelector.Next` returns when the counter read is
`idx`: the configuration of the API registered under the name at position
`idx % len(s.order)`. -/
def dependencySelector.configAt (s : dependencySelector) (idx : Nat) :
    Option APIRequestConfig :=
  (s.order[idx % s.order.length]?).bind
    (fun apiName => (s.resolver.GetAPI apiName).map APIConfig.toRequestConfig)

/-- The dependency selector built from `loginFlow`. -/
def loginSelector : dependencySelector :=
  { resolver := loginResolver, order := ["login", "me"], current := 0 }

/-- An API depending on a name that no API carries, next to an independent one. -/
def ghostAPIs : List APIConfig := [mkAPI "a" ["ghost"], mkAPI "b" []]

/-- Three independent APIs. -/
def threeAPIs : List APIConfig := [mkAPI "a" [], mkAPI "b" [], mkAPI "c" []]

/-- The sum `w_0 + … + w_(i-1)` of the effective weights of the first `i` APIs. -/
def cumWeight (apis : List APIConfig) (i : Nat) : Int :=
  ((apis.take i).map effectiveWeight).sum

/-- An API with only a name and a weight. -/
def mkWeighted (name : String) (w : Int) : APIConfig :=
  { Name := name, Host := "", Path := "", URL := "", Method := "", Headers := [], Body := "",
    Weight := w, Verify := [], DependsOn := [], Extractors := [] }

/-- Two APIs of weight `2 ^ 62` each. -/
def hugeAPIs : List APIConfig :=
  [mkWeighted "a" 4611686018427387904, mkWeighted "b" 4611686018427387904]

/-- The two APIs of the weighted scenario of the specification, weights 1 and 3. -/
def oneThreeAPIs : List APIConfig := [mkWeighted "a" 1, mkWeighted "b" 3]

/-! ## package protocol and package verify: verifiers -/

/-- The type `types.Response`; `Error` is the text of the error, if any, and a
`nil` list of verifications is the empty list. -/
structure Response where
  StatusCode : Int
  Headers : List (String × String)
  Body : String
  RequestURL : String
  RequestMethod : String
  RequestHeaders : List (String × String)
  RequestBody : String
  RequestQuery : String
  Duration : Int
  Error : Option String
  Verifications : List VerificationResult
  deriving DecidableEq, Repr

/-- What the verifiers take from libraries outside the repository, `J` being
the type of decoded JSON values: the texts of `fmt.Sprintf("%v", x)` and
`fmt.Sprintf("%d", x)` for a configured value, `json.Unmarshal`,
`jsonpath.JsonPathLookup`, the text of `fmt.Sprintf("%v", value)` for a JSON
value, and `stringx.Contains`. -/
structure VerifyEnv (J : Type) where
  sprintV : ExpectValue → String
  sprintD : ExpectValue → String
  unmarshal : String → Except String J
  lookup : J → String → Except String J
  sprintJ : J → String
  contains : String → String → Bool

/-- The constant `VerifyTypeStatusCode`. -/
def VerifyTypeStatusCode : String := "STATUS_CODE"

/-- The constant `VerifyTypeJSONPath`. -/
def VerifyTypeJSONPath : String := "JSONPATH"

/-- The constant `VerifyTypeContains`. -/
def VerifyTypeContains : String := "CONTAINS"

/-- The constant `VerifyTypeRegex`. -/
def VerifyTypeRegex : String := "REGEX"

/-- The constant `VerifyTypeCustom`. -/
def VerifyTypeCustom : String := "CUSTOM"

/-- The type `HTTPVerifier`. -/
structure HTTPVerifier where
  config : VerifyConfig
  deriving DecidableEq, Repr

/-- The constructor `NewHTTPVerifier`; `none` is the `nil` configuration. -/
def NewHTTPVerifier (cfg : Option VerifyConfig) : HTTPVerifier :=
  match cfg with
  | none =>
    { config := { Kind := VerifyTypeStatusCode, JSONPath := "", Custom := "",
                  Expect := .int 200 } }
  | some c => { config := c }

/-- The results `(bool, error)` of a verifier together with the response after
the call, whose list of verifications the verifier may have extended. -/
structure VerifyOutcome where
  ok : Bool
  err : Option String
  resp : Response
  deriving DecidableEq, Repr

/-- The method `HTTPVerifier.verifyStatusCode`.  The comparisons
`expectedCode == 0` and `resp.StatusCode == expectedCode` compare an
`interface{}` with an `int`: they hold only for a dynamic value of type `int`. -/
def HTTPVerifier.verifyStatusCode {J : Type} (env : VerifyEnv J) (v : HTTPVerifier)
    (resp : Response) : VerifyOutcome :=
  let expectedCode := if v.config.Expect = ExpectValue.int 0 then ExpectValue.int 200
    else v.config.Expect
  let success := decide (ExpectValue.int resp.StatusCode = expectedCode)
  let message :=
    if !success then
      "状态码不匹配: 期望 " ++ env.sprintD expectedCode ++ ", 实际 " ++ toString resp.StatusCode
    else "状态码验证通过"
  let result : VerificationResult :=
    { Kind := v.config.Kind, Success := success, Message := message,
      Expect := env.sprintV expectedCode, Actual := toString resp.StatusCode }
  let resp1 : Response := { resp with Verifications := resp.Verifications ++ [result] }
  if !success then { ok := false, err := some message, resp := resp1 }
  else { ok := true, err := none, resp := resp1 }

/-- The method `HTTPVerifier.verifyJSONPath`. -/
def HTTPVerifier.verifyJSONPath {J : Type} (env : VerifyEnv J) (v : HTTPVerifier)
    (resp : Response) : VerifyOutcome :=
  let st := v.verifyStatusCode env resp
  if !st.ok then { ok := false, err := some "状态码验证失败", resp := st.resp }
  else
    match env.unmarshal st.resp.Body with
    | .error e =>
      let result : VerificationResult :=
        { Kind := v.config.Kind, Success := false, Message := "解析JSON失败: " ++ e,
          Expect := v.config.JSONPath, Actual := "解析失败" }
      { ok := false, err := some ("解析JSON失败: " ++ result.Message),
        resp := { st.resp with Verifications := st.resp.Verifications ++ [result] } }
    | .ok data =>
      match env.lookup data v.config.JSONPath with
      | .error e =>
        let result : VerificationResult :=
          { Kind := v.config.Kind, Success := false, Message := "JSON路径查询失败: " ++ e,
            Expect := v.config.JSONPath, Actual := "查询失败" }
        { ok := false, err := some ("JSON路径查询失败: " ++ result.Message),
          resp := { st.resp with Verifications := st.resp.Verifications ++ [result] } }
      | .ok value =>
        let result : VerificationResult :=
          { Kind := v.config.Kind, Success := true, Message := "JSON路径验证通过",
            Expect := v.config.JSONPath, Actual := env.sprintJ value }
        { ok := true, err := none,
          resp := { st.resp with Verifications := st.resp.Verifications ++ [result] } }

/-- The method `HTTPVerifier.verifyContains`. -/
def HTTPVerifier.verifyContains {J : Type} (env : VerifyEnv J) (v : HTTPVerifier)
    (resp : Response) : VerifyOutcome :=
  let st := v.verifyStatusCode env resp
  if !st.ok then { ok := false, err := some "状态码验证失败", resp := st.resp }
  else
    match v.config.Expect with
    | .str containsStr =>
      let success := env.contains st.resp.Body containsStr
      let message :=
        if !success then "响应不包含期望的字符串: " ++ containsStr else "包含字符串验证通过"
      let result : VerificationResult :=
        { Kind := v.config.Kind, Success := success, Message := message,
          Expect := containsStr, Actual := st.resp.Body }
      let resp2 : Response :=
        { st.resp with Verifications := st.resp.Verifications ++ [result] }
      if !success then { ok := false, err := some message, resp := resp2 }
      else { ok := true, err := none, resp := resp2 }
    | value =>
      let result : VerificationResult :=
        { Kind := v.config.Kind, Success := false,
          Message := "contains 验证需要字符串类型的 expect 值",
          Expect := env.sprintV value, Actual := "类型错误" }
      { ok := false, err := some ("类型错误: " ++ result.Message),
        resp := { st.resp with Verifications := st.resp.Verifications ++ [result] } }

/-- The method `HTTPVerifier.Verify`. -/
def HTTPVerifier.Verify {J : Type} (env : VerifyEnv J) (v : HTTPVerifier) (resp : Response) :
    VerifyOutcome :=
  match resp.Error with
  | some e => { ok := false, err := some e, resp := resp }
  | none =>
    if v.config.Kind = VerifyTypeStatusCode then v.verifyStatusCode env resp
    else if v.config.Kind = VerifyTypeJSONPath then v.verifyJSONPath env resp
    else if v.config.Kind = VerifyTypeContains then v.verifyContains env resp
    else { ok := true, err := none, resp := resp }

/-- The type `verify.StatusCodeVerifier`. -/
structure StatusCodeVerifier where
  ExpectedCode : Int
  deriving DecidableEq, Repr

/-- The method `StatusCodeVerifier.Verify`: its results, the response (which it
only reads) and the verifier after the call, whose `ExpectedCode` it sets to
200 when it was 0. -/
def StatusCodeVerifier.Verify (v : StatusCodeVerifier) (resp : Response) :
    VerifyOutcome × StatusCodeVerifier :=
  let v1 : StatusCodeVerifier := if v.ExpectedCode = 0 then { ExpectedCode := 200 } else v
  ({ ok := decide (resp.StatusCode = v1.ExpectedCode), err := none, resp := resp }, v1)

/-! ## package executor: worker -/

/-- The scan of `strings.ReplaceAll(s, old, new)` for a non-empty `old`, from
left to right over the characters of `s`; `skip` counts the characters of a
match that are still to be passed over. -/
def replaceAllAux (old new : List Char) : Nat → List Char → List Char
  | _, [] => []
  | skip + 1, _ :: cs => replaceAllAux old new skip cs
  | 0, c :: cs =>
    if old.isPrefixOf (c :: cs) then new ++ replaceAllAux old new (old.length - 1) cs
    else c :: replaceAllAux old new 0 cs

/-- The function `strings.ReplaceAll`: every non-overlapping occurrence of
`old` in `s`, from the left, is replaced by `new`; for an empty `old` a copy of
`new` is put before every character and at the end. -/
def stringsReplaceAll (s old new : String) : String :=
  if old.data = [] then ⟨s.data.foldr (fun c acc => new.data ++ c :: acc) new.data⟩
  else ⟨replaceAllAux old.data new.data 0 s.data⟩

/-- The function `strings.Contains`. -/
def stringsContains (s sub : String) : Bool :=
  s.data.tails.any (fun t => sub.data.isPrefixOf t)

/-- The placeholder of a key, `"\x7b\x7b." + key + "\x7d\x7d"`. -/
def placeholder (key : String) : String := "\x7b\x7b." ++ key ++ "\x7d\x7d"

/-- The function `replaceVars`; `vars` lists the entries of the map in the
order in which `for key, value := range vars` walks them. -/
def replaceVars (text : String) (vars : List (String × String)) : String :=
  vars.foldl (fun result kv => stringsReplaceAll result (placeholder kv.1) kv.2) text

/-- A binding whose value contains its own placeholder. -/
def selfVars : List (String × String) := [("a.v", "<" ++ placeholder "a.v" ++ ">")]

/-- The binding of the dependent flow of the specification. -/
def tokenVars : List (String × String) := [("login.token", "T")]

/-- The type `types.Request` without its metadata. -/
structure Request where
  URL : String
  Method : String
  Headers : List (String × String)
  Body : String
  deriving DecidableEq, Repr

/-- The type `RequestBuilder`. -/
structure RequestBuilder where
  url : String
  method : String
  headers : List (String × String)
  body : String
  deriving DecidableEq, Repr

/-- The constructor `NewRequestBuilder`. -/
def NewRequestBuilder (url method : String) (headers : List (String × String))
    (body : String) : RequestBuilder :=
  { url := url, method := method, headers := headers, body := body }

/-- The method `RequestBuilder.Build`. -/
def RequestBuilder.Build (rb : RequestBuilder) : Request :=
  { URL := rb.url, Method := rb.method, Headers := rb.headers, Body := rb.body }

/-- The function `BuildRequest`. -/
def BuildRequest (apiCfg : APIRequestConfig) : Request :=
  { URL := apiCfg.URL, Method := apiCfg.Method, Headers := apiCfg.Headers,
    Body := apiCfg.Body }

/-- The function `BuildRequestResult`; `none` is the `nil` response, the `nil`
error. -/
def BuildRequestResult (resp : Option Response) (err : Option String) : RequestResult :=
  match resp with
  | none =>
    { Success := err.isNone, StatusCode := 0, Duration := 0, Error := err, URL := "",
      Method := "", Verifications := [] }
  | some r =>
    { Success := err.isNone, StatusCode := r.StatusCode, Duration := r.Duration, Error := err,
      URL := r.RequestURL, Method := r.RequestMethod, Verifications := r.Verifications }

/-- The method `Worker.replaceExtractedVars`, `extractedVars` being the value of
`resolver.GetAllExtractedVars()`. -/
def replaceExtractedVars (apiCfg : APIRequestConfig) (extractedVars : List (String × String)) :
    APIRequestConfig :=
  if extractedVars.length = 0 then apiCfg
  else
    { Name := apiCfg.Name,
      URL := replaceVars apiCfg.URL extractedVars,
      Method := apiCfg.Method,
      Headers := apiCfg.Headers.map (fun kv => (kv.1, replaceVars kv.2 extractedVars)),
      Body := replaceVars apiCfg.Body extractedVars,
      Verify := apiCfg.Verify,
      Extractors := apiCfg.Extractors }

/-- The method `Worker.executeVerifications`: the error returned, if any, and
the response after the verifiers that were run. -/
def executeVerifications {J : Type} (env : VerifyEnv J) :
    List VerifyConfig → Response → Option String × Response
  | [], resp => (none, resp)
  | verifyCfg :: rest, resp =>
    let out := (NewHTTPVerifier (some verifyCfg)).Verify env resp
    if !out.ok then
      match out.err with
      | some verifyErr => (some ("响应验证失败: " ++ verifyErr), out.resp)
      | none => (some "响应验证失败", out.resp)
    else executeVerifications env rest out.resp

/-- The surroundings of one worker: the library functions of the verifiers, the
result of `client.Connect`, whether `ctx.Done()` is closed when iteration `i`
starts, the error `ctx.Err()`, the value returned by `apiSelector.Next()` at
iteration `i`, the bindings `GetAllExtractedVars()` of the resolver at
iteration `i` (`none` when the selector has no dependencies or no resolver),
and the results `(resp, err)` of the handler at iteration `i`, `none` being a
call of the handler that panics (the handler sends through the client that
`buildMiddlewareChain` created and never connected, and nothing in the
repository recovers a panic). -/
structure WorkerEnv (J : Type) where
  verify : VerifyEnv J
  connect : Option String
  done : Nat → Bool
  ctxErr : String
  next : Nat → Option APIRequestConfig
  resolverVars : Nat → Option (List (String × String))
  handler : Nat → Request → Option (Option Response × Option String)

/-- The fields of the type `Worker` that `Run` reads; `hasSelector` tells
whether `apiSelector` is not `nil`, and `none` is the `nil` request builder. -/
structure Worker where
  id : Nat
  reqCount : Nat
  reqBuilder : Option RequestBuilder
  hasSelector : Bool
  deriving DecidableEq, Repr

/-- What one call of `Worker.executeRequest` does: it passes a result to
`collector.Collect`, or it returns before that (no request could be built), or
the handler panics. -/
inductive RequestOutcome where
  | collected (result : RequestResult)
  | skipped
  | panicked

/-- The second half of `Worker.executeRequest`, from the call of the handler to
`BuildRequestResult`: the result that is passed to `collector.Collect`, or
`none` when the handler panics.  The extraction of variables that goes before
`BuildRequestResult` writes to the resolver only. -/
def executeRequestWith {J : Type} (env : WorkerEnv J) (i : Nat)
    (apiCfg : Option APIRequestConfig) (req : Request) : Option RequestResult :=
  match env.handler i req with
  | none => none
  | some out =>
    match apiCfg, out with
    | some cfg, (some resp, none) =>
      if cfg.Verify.length > 0 then
        let checked := executeVerifications env.verify cfg.Verify resp
        some (BuildRequestResult (some checked.2) checked.1)
      else some (BuildRequestResult (some resp) none)
    | _, (resp, err) => some (BuildRequestResult resp err)

/-- The method `Worker.executeRequest` at iteration `i`. -/
def Worker.executeRequest {J : Type} (w : Worker) (env : WorkerEnv J) (i : Nat) :
    RequestOutcome :=
  if w.hasSelector then
    match env.next i with
    | none => .skipped
    | some apiCfg =>
      let apiCfg1 :=
        match env.resolverVars i with
        | some extractedVars => replaceExtractedVars apiCfg extractedVars
        | none => apiCfg
      match executeRequestWith env i (some apiCfg1) (BuildRequest apiCfg1) with
      | some result => .collected result
      | none => .panicked
  else
    match w.reqBuilder with
    | some rb =>
      match executeRequestWith env i none rb.Build with
      | some result => .collected result
      | none => .panicked
    | none => .skipped

/-- The loop of `Worker.Run` with `remaining` iterations left, `i` being the
loop variable: the error returned and the collector after the loop; `none` is
a loop that ends in the panic of the handler. -/
def Worker.loop {J : Type} (w : Worker) (env : WorkerEnv J) :
    Nat → Nat → Collector → Option (Option String × Collector)
  | 0, _, c => some (none, c)
  | remaining + 1, i, c =>
    if env.done i then some (some env.ctxErr, c)
    else
      match w.executeRequest env i with
      | .collected result => Worker.loop w env remaining (i + 1) (c.Collect result)
      | .skipped => Worker.loop w env remaining (i + 1) c
      | .panicked => none

/-- The method `Worker.Run`: the error returned and the collector after it;
`none` is a run that ends in the panic of the handler. -/
def Worker.Run {J : Type} (w : Worker) (env : WorkerEnv J) (c : Collector) :
    Option (Option String × Collector) :=
  match env.connect with
  | some err => some (some err, c)
  | none => w.loop env w.reqCount 0 c

/-- The method `Loader.validate`: the error returned, if any. -/
def Loader.validate (config : Config) : Option String :=
  if config.APIs.length = 0 ∧ config.URL = "" then some "URL不能为空"
  else if config.Concurrency = 0 then some "并发数必须大于0"
  else if config.Requests = 0 ∧ config.Duration = 0 then some "请求数和持续时间至少要设置一个"
  else if config.Protocol = "grpc" then
    match config.GRPC with
    | none => some "gRPC配置不能为空"
    | some grpc =>
      if !grpc.UseReflection ∧ grpc.ProtoFile = "" then some "未启用反射时必须指定proto文件"
      else if grpc.Service = "" ∨ grpc.Method = "" then some "gRPC服务名和方法名不能为空"
      else none
  else none

/-- The function `validateConfig` of `main.go`: the error returned, if any. -/
def validateConfig (cfg : Config) : Option String :=
  if cfg.APIs.length = 0 ∧ cfg.URL = "" then some "URL不能为空"
  else if cfg.Concurrency = 0 then some "并发数不能为0"
  else if cfg.Requests = 0 then some "请求数不能为0"
  else if cfg.Protocol = "grpc" then
    match cfg.GRPC with
    | none => some "gRPC配置不能为空"
    | some grpc =>
      if grpc.UseReflection ∧ grpc.Service = "" then some "gRPC服务名不能为空"
      else if grpc.UseReflection ∧ grpc.Method = "" then some "gRPC方法名不能为空"
      else none
  else none

/-- The worker that `Scheduler.runWorker` creates for the scheduler built by
`NewExecutor` from `cfg`: its budget is `cfg.Requests`, and it has the API
selector when the configuration lists APIs and the request builder otherwise. -/
def schedulerWorker (cfg : Config) (workerID : Nat) : Worker :=
  { id := workerID,
    reqCount := cfg.Requests,
    reqBuilder :=
      if cfg.APIs.length > 0 then none
      else some (NewRequestBuilder cfg.URL cfg.Method cfg.Headers cfg.Body),
    hasSelector := decide (cfg.APIs.length > 0) }

/-- A sample of the library functions, for the evaluation of examples: JSON
values are kept as their text and every path finds the whole document. -/
def sampleEnv : VerifyEnv String :=
  { sprintV := fun e => match e with
      | .int n => toString n
      | .str s => s
      | .bool b => toString b
      | _ => "?",
    sprintD := fun e => match e with
      | .int n => toString n
      | _ => "?",
    unmarshal := fun body => .ok body,
    lookup := fun data _ => .ok data,
    sprintJ := fun value => value,
    contains := stringsContains }

/-- A response with a status code and a body, and no verification yet. -/
def mkResponse (code : Int) (body : String) : Response :=
  { StatusCode := code, Headers := [], Body := body, RequestURL := "u", RequestMethod := "GET",
    RequestHeaders := [], RequestBody := "", RequestQuery := "", Duration := 1000000,
    Error := none, Verifications := [] }

/-- A verification rule of a kind with an expected value. -/
def mkVerify (kind : String) (expect : ExpectValue) : VerifyConfig :=
  { Kind := kind, JSONPath := "$", Custom := "", Expect := expect }

/-- Two status-code rules, the first of which fails on a response with the
status code 200. -/
def twoRules : List VerifyConfig :=
  [mkVerify VerifyTypeStatusCode (.int 201), mkVerify VerifyTypeStatusCode (.int 200)]

/-- The surroundings of a worker whose client connects, whose context is never
cancelled and whose handler answers every request with the status code 200. -/
def calmEnv : WorkerEnv String :=
  { verify := sampleEnv, connect := none, done := fun _ => false,
    ctxErr := "context canceled", next := fun _ => none, resolverVars := fun _ => none,
    handler := fun _ _ => some (some (mkResponse 200 "body"), none) }

/-- The same surroundings with a client whose `Connect` returns an error, as
the gRPC client does when `grpc.NewClient` rejects the target. -/
def refusedEnv : WorkerEnv String :=
  { verify := sampleEnv, connect := some "gRPC连接失败", done := fun _ => false,
    ctxErr := "context canceled", next := fun _ => none, resolverVars := fun _ => none,
    handler := fun _ _ => some (some (mkResponse 200 "body"), none) }

/-- The surroundings of a worker whose client connects and whose handler
panics, as the handler over the gRPC client with reflection does: its `Send`
calls the reflection client of a client that was never connected. -/
def panicEnv : WorkerEnv String :=
  { verify := sampleEnv, connect := none, done := fun _ => false,
    ctxErr := "context canceled", next := fun _ => none, resolverVars := fun _ => none,
    handler := fun _ _ => none }

/-- A gRPC configuration with reflection, a valid target, `concurrency = 1`
and `requests = 1`. -/
def reflectionConfig : Config :=
  { URL := "localhost:50051", Method := "", Headers := [], Body := "\x7b\x7d", Verify := none,
    APIs := [], Protocol := "grpc", Concurrency := 1, Requests := 1,
    GRPC := some { UseReflection := true, Service := "svc", Method := "Ping", ProtoFile := "" } }

/-- A configuration of one URL with `concurrency = 1` and `requests = 1`. -/
def oneShotConfig : Config :=
  { URL := "http://localhost/ping", Method := "GET", Headers := [], Body := "",
    Verify := none, APIs := [], Concurrency := 1, Requests := 1 }

/-- A gRPC configuration with `concurrency = 1` and `requests = 1` whose target
is not a valid address. -/
def badTargetConfig : Config :=
  { URL := "%zz", Method := "", Headers := [], Body := "", Verify := none, APIs := [],
    Protocol := "grpc", Concurrency := 1, Requests := 1,
    GRPC := some { UseReflection := true, Service := "svc", Method := "Ping", ProtoFile := "" } }

/-- A configuration of one URL with `requests = 0` and a duration of ten
seconds. -/
def durationOnlyConfig : Config :=
  { URL := "http://localhost/ping", Method := "GET", Headers := [], Body := "",
    Verify := none, APIs := [], Concurrency := 1, Requests := 0, Duration := 10000000000 }

/-- The method `RealtimeServer.handleDetails` from the parsed query parameters
`offset` and `limit` on: the limit is capped at 1000 and the page is read from
the collector; `none` is the panic of `GetRequestDetails`. -/
def handleDetails (c : Collector) (offset limit : Int) (onlyErrors : Bool) :
    Option (List RequestDetail) :=
  let limit1 := if limit > 1000 then 1000 else limit
  c.GetRequestDetails offset limit1 onlyErrors

/-! ## package executor: middleware -/

/-- The type `types.RequestHandler`.  `W` is the state of everything a handler
can change (the network, the clock, the circuit); the context is part of it.
A handler maps a request and a state to its results `(resp, err)` and the new
state; `none` is a call that panics. -/
def RequestHandler (W : Type) : Type :=
  Request → W → Option ((Option Response × Option String) × W)

/-- The type `types.Middleware`. -/
def Middleware (W : Type) : Type := RequestHandler W → RequestHandler W

/-- The type `MiddlewareChain`. -/
structure MiddlewareChain (W : Type) where
  middlewares : List (Middleware W)

/-- The constructor `NewMiddlewareChain`. -/
def NewMiddlewareChain (W : Type) : MiddlewareChain W := { middlewares := [] }

/-- The method `MiddlewareChain.Use`: the chain after the call. -/
def MiddlewareChain.Use {W : Type} (mc : MiddlewareChain W) (m : Middleware W) :
    MiddlewareChain W :=
  { middlewares := mc.middlewares ++ [m] }

/-- The loop of `MiddlewareChain.Build` with `j` rounds left, the loop variable
being `i = j - 1`: it runs while `i >= 0` and wraps `handler` in
`mc.middlewares[i]`.  `Build` enters it with the length of the slice, so the
index is always within the slice. -/
def MiddlewareChain.buildLoop {W : Type} (mc : MiddlewareChain W) :
    Nat → RequestHandler W → RequestHandler W
  | 0, handler => handler
  | i + 1, handler =>
    match mc.middlewares.get? i with
    | some m => mc.buildLoop i (m handler)
    | none => mc.buildLoop i handler

/-- The method `MiddlewareChain.Build`. -/
def MiddlewareChain.Build {W : Type} (mc : MiddlewareChain W) (handler : RequestHandler W) :
    RequestHandler W :=
  mc.buildLoop mc.middlewares.length handler

/-- The method `Execute` of a `breaker.Circuit` of the library go-toolbox, which
is not part of the repository: from a callback that works on the state and on
the variables `L` it captures, the error returned and the state and variables
after the call. -/
structure Circuit (W : Type) where
  Execute : (L : Type) → (W × L → Option (Option String × (W × L))) → W × L →
    Option (Option String × (W × L))

/-- The method `Run` of a `retry.Runner[error]` of the library go-toolbox: from
a callback that returns `(result, err)`, the pair `(result, err)` returned. -/
structure Runner (W : Type) where
  Run : (L : Type) → (W × L → Option ((Option String × Option String) × (W × L))) → W × L →
    Option ((Option String × Option String) × (W × L))

/-- The function `BreakerMiddleware`; the callback assigns the captured
variables `resp` and `err`. -/
def BreakerMiddleware {W : Type} (circuit : Circuit W) : Middleware W :=
  fun next req w =>
    match circuit.Execute (Option Response × Option String)
        (fun s =>
          match next req s.1 with
          | none => none
          | some out => some (out.1.2, (out.2, out.1)))
        (w, (none, none)) with
    | none => none
    | some (some breakerErr, s) => some ((none, some ("熔断器拦截: " ++ breakerErr)), s.1)
    | some (none, s) => some (s.2, s.1)

/-- The function `RetryMiddleware`; the callback assigns the captured variables
`resp` and `err` and returns `err, err`. -/
def RetryMiddleware {W : Type} (retrier : Runner W) : Middleware W :=
  fun next req w =>
    match retrier.Run (Option Response × Option String)
        (fun s =>
          match next req s.1 with
          | none => none
          | some out => some ((out.1.2, out.1.2), (out.2, out.1)))
        (w, (none, none)) with
    | none => none
    | some ((_, some retryErr), s) => some ((s.2.1, some retryErr), s.1)
    | some ((_, none), s) => some (s.2, s.1)

/-- The results of `Verify` of the interface `verify.Verifier`: `(bool, error)`
and the response after the call. -/
structure VerifierResult where
  isValid : Bool
  err : Option String
  resp : Option Response
  deriving DecidableEq, Repr

/-- The interface `verify.Verifier`: the method `Verify` on a pointer to a
response, `none` being `nil`; the result `none` is a call that panics. -/
def Verifier : Type := Option Response → Option VerifierResult

/-- The function `VerifyMiddleware`. -/
def VerifyMiddleware {W : Type} (verifier : Verifier) : Middleware W :=
  fun next req w =>
    match next req w with
    | none => none
    | some ((resp, some err), w1) => some ((resp, some err), w1)
    | some ((resp, none), w1) =>
      match verifier resp with
      | none => none
      | some r =>
        if !r.isValid then
          match r.err with
          | some verifyErr => some ((r.resp, some ("响应验证失败: " ++ verifyErr)), w1)
          | none => some ((r.resp, some "响应验证失败"), w1)
        else some ((r.resp, none), w1)

/-- The function `ClientMiddleware`; `send` is the method `Send` of the
client. -/
def ClientMiddleware {W : Type} (send : RequestHandler W) : RequestHandler W :=
  fun req w => send req w

/-- The function `verify.Get`; `registry` is the map `globalRegistry.verifiers`. -/
def verify.Get (registry : String → Option Verifier) (vType : String) : Except String Verifier :=
  match registry vType with
  | some verifier => .ok verifier
  | none => .error ("验证器不存在: " ++ vType)

/-- The type `breaker.Config` of the library. -/
structure BreakerConfig where
  MaxFailures : Int
  ResetTimeout : Int
  HalfOpenSuccesses : Int
  deriving DecidableEq, Repr

/-- What `buildMiddlewareChain` takes from outside: `breaker.New`,
`retry.NewRunner[error]()` and the registry of verifiers. -/
structure MiddlewareLibs (W : Type) where
  breakerNew : String → BreakerConfig → Circuit W
  retryNewRunner : Runner W
  registry : String → Option Verifier

/-- The function `buildMiddlewareChain`; `factory` is the result of the call
`factory()`, the `Send` of the client or an error. -/
def buildMiddlewareChain {W : Type} (libs : MiddlewareLibs W) (cfg : Config)
    (factory : Except String (RequestHandler W)) : Except String (RequestHandler W) :=
  match factory with
  | .error err => .error ("创建客户端失败: " ++ err)
  | .ok client =>
    let chain := NewMiddlewareChain W
    let chain1 :=
      match cfg.Advanced with
      | some adv =>
        if adv.EnableBreaker then
          chain.Use (BreakerMiddleware (libs.breakerNew "stress-test"
            { MaxFailures := adv.MaxFailures, ResetTimeout := adv.ResetTimeout,
              HalfOpenSuccesses := 2 }))
        else chain
      | none => chain
    let chain2 :=
      match cfg.Advanced with
      | some adv =>
        if adv.EnableRetry then chain1.Use (RetryMiddleware libs.retryNewRunner) else chain1
      | none => chain1
    match cfg.Verify with
    | some v =>
      if v.Kind ≠ "" then
        match verify.Get libs.registry v.Kind with
        | .error err => .error ("获取验证器失败: " ++ err)
        | .ok verifier => .ok ((chain2.Use (VerifyMiddleware verifier)).Build (ClientMiddleware client))
      else .ok (chain2.Build (ClientMiddleware client))
    | none => .ok (chain2.Build (ClientMiddleware client))

/-- A state for examples: the number of calls the transport has received and
the number of failures the circuit has counted. -/
structure SampleWorld where
  calls : Nat
  failures : Int
  deriving DecidableEq, Repr

/-- A transport that counts its calls and fails every time. -/
def failingSend : RequestHandler SampleWorld :=
  fun _ w => some ((none, some "connection refused"), { w with calls := w.calls + 1 })

/-- A transport that counts its calls and answers with the status code 200. -/
def okSend : RequestHandler SampleWorld :=
  fun _ w => some ((some (mkResponse 200 "body"), none), { w with calls := w.calls + 1 })

/-- How the circuit of the examples records the error of a callback. -/
def sampleRecord (w : SampleWorld) (err : Option String) : SampleWorld :=
  match err with
  | some _ => { w with failures := w.failures + 1 }
  | none => { w with failures := 0 }

/-- A circuit for examples: it refuses the call once it has counted
`MaxFailures` failures and otherwise runs the callback once. -/
def sampleCircuit (cfg : BreakerConfig) : Circuit SampleWorld :=
  { Execute := fun _ fn s =>
      if s.1.failures ≥ cfg.MaxFailures then some (some "circuit is open", s)
      else
        match fn s with
        | none => none
        | some (err, s1) => some (err, (sampleRecord s1.1 err, s1.2)) }

/-- A runner for examples: it runs the callback until it succeeds, three times
at most. -/
def sampleRunner : Runner SampleWorld :=
  { Run := fun _ fn s =>
      match fn s with
      | none => none
      | some ((r, none), s1) => some ((r, none), s1)
      | some ((_, some _), s1) =>
        match fn s1 with
        | none => none
        | some ((r, none), s2) => some ((r, none), s2)
        | some ((_, some _), s2) => fn s2 }

/-- The verifier registered for `STATUS_CODE` by the package `verify`. -/
def registeredStatusCode : Verifier :=
  fun resp =>
    match resp with
    | none => none
    | some r =>
      let out := (StatusCodeVerifier.Verify { ExpectedCode := 0 } r).1
      some { isValid := out.ok, err := out.err, resp := some out.resp }

/-- A registry for examples, with the entry for `STATUS_CODE` only. -/
def sampleRegistry : String → Option Verifier :=
  fun vType => if vType = VerifyTypeStatusCode then some registeredStatusCode else none

/-- The libraries of the examples. -/
def sampleLibs : MiddlewareLibs SampleWorld :=
  { breakerNew := fun _ cfg => sampleCircuit cfg, retryNewRunner := sampleRunner,
    registry := sampleRegistry }

/-- A request of the examples. -/
def pingRequest : Request := { URL := "http://localhost/ping", Method := "GET", Headers := [], Body := "" }

/-- A configuration with the retry enabled and the given `max_retries` and
`retry_interval`, without breaker and without verifier. -/
def retryConfig (maxRetries retryInterval : Int) : Config :=
  { URL := "http://localhost/ping", Method := "GET", Headers := [], Body := "",
    Verify := none, APIs := [],
    Advanced := some { EnableBreaker := false, MaxFailures := 5, ResetTimeout := 30000000000,
                       EnableRetry := true, MaxRetries := maxRetries,
                       RetryInterval := retryInterval, RampUp := 0 } }

/-- The number of calls that reach a transport that always fails when one
request is sent through the chain built from `cfg`. -/
def transportCalls (libs : MiddlewareLibs SampleWorld) (cfg : Config) : Option Nat :=
  match buildMiddlewareChain libs cfg (.ok failingSend) with
  | .error _ => none
  | .ok handler =>
    match handler pingRequest { calls := 0, failures := 0 } with
    | none => none
    | some out => some out.2.calls

/-! ## package executor: scheduler -/

/-- The conversion `time.Duration(f)` of a `float64` to nanoseconds: the
fraction is cut off. -/
def floatToDuration (q : Rat) : Int := if q < 0 then -⌊-q⌋ else ⌊q⌋

/-- The value `delay` of `Scheduler.Run` for the worker `i`,
`time.Duration(float64(rampUpDuration) / float64(workerCount) * float64(i))`.
The `float64` operations are modelled by the exact operations on rationals,
with which they agree whenever the operands, the quotient and the product are
integers below `2 ^ 53`, as in every example below. -/
def rampDelay (rampUpDuration : Int) (workerCount : Nat) (i : Nat) : Int :=
  floatToDuration ((rampUpDuration : Rat) / (workerCount : Rat) * (i : Rat))

/-- The loop of `Scheduler.Run` that starts the workers, with `remaining`
workers to start, `i` the loop variable and `slept` the time spent in
`time.Sleep` so far: the time spent in `time.Sleep` before each `go` statement,
in the order of the workers.  `time.Sleep` returns at once for a delay that is
not positive. -/
def Scheduler.launchLoop (rampUpDuration : Int) (workerCount : Nat) :
    Nat → Nat → Int → List Int
  | 0, _, _ => []
  | remaining + 1, i, slept =>
    let slept1 :=
      if rampUpDuration > 0 then slept + max (rampDelay rampUpDuration workerCount i) 0
      else slept
    slept1 :: Scheduler.launchLoop rampUpDuration workerCount remaining (i + 1) slept1

/-- The time slept by `Scheduler.Run` before it starts each of its workers. -/
def Scheduler.launchTimes (rampUpDuration : Int) (workerCount : Nat) : List Int :=
  Scheduler.launchLoop rampUpDuration workerCount workerCount 0 0

/-! ## package config: loader -/

/-- The block of the loop body of `Loader.mergeAPIsWithCommon` that builds the
URL of one API: the value of `api.URL` after it. -/
def mergeURL (config : Config) (api : APIConfig) : String :=
  if api.URL = "" then
    let host := if api.Host = "" ∧ config.Host ≠ "" then config.Host else api.Host
    if host ≠ "" ∧ api.Path ≠ "" then host ++ api.Path
    else if host ≠ "" then host
    else if api.Path ≠ "" then api.Path
    else if config.URL ≠ "" then config.URL
    else api.URL
  else api.URL

/-- The last loop of the body of `mergeAPIsWithCommon`: the variables of the
header values are resolved, in the order in which the headers are walked. -/
def resolveHeaders (resolve : String → Except String String) (apiName : String) :
    List (String × String) → Except String (List (String × String))
  | [] => .ok []
  | (k, v) :: rest =>
    match resolve v with
    | .error e => .error ("解析API Header变量失败 [" ++ apiName ++ "] " ++ k ++ ": " ++ e)
    | .ok resolved =>
      match resolveHeaders resolve apiName rest with
      | .error e => .error e
      | .ok others => .ok ((k, resolved) :: others)

/-- The body of the loop of `Loader.mergeAPIsWithCommon` for the API number `i`
(from 0): the merged API or the error returned; `none` is the panic of
`*config.Verify` on a `nil` pointer.  `resolve` is `l.varResolver.Resolve`, a
template engine of the standard library with the functions of
`NewVariableResolver`. -/
def mergeAPI (resolve : String → Except String String) (config : Config) (i : Nat)
    (api : APIConfig) : Option (Except String APIConfig) :=
  let url := mergeURL config api
  if url = "" then
    some (.error ("第" ++ toString (i + 1) ++ "个API [" ++ api.Name
      ++ "] 的URL不能为空（需要URL或Host+Path）"))
  else
    let method0 := if api.Method = "" ∧ config.Method ≠ "" then config.Method else api.Method
    let method := if method0 = "" then "GET" else method0
    let headers := api.Headers
      ++ config.Headers.filter (fun kv => !(api.Headers.any (fun h => h.1 == kv.1)))
    let body := if api.Body = "" ∧ config.Body ≠ "" then config.Body else api.Body
    match (if api.Verify.length = 0 then config.Verify.map (fun v => [v])
        else some api.Verify) with
    | none => none
    | some verify =>
      let weight := if api.Weight ≤ 0 then 1 else api.Weight
      match resolve url with
      | .error e => some (.error ("解析API URL变量失败 [" ++ api.Name ++ "]: " ++ e))
      | .ok url1 =>
        match (if body ≠ "" then resolve body else .ok body) with
        | .error e => some (.error ("解析API Body变量失败 [" ++ api.Name ++ "]: " ++ e))
        | .ok body1 =>
          match resolveHeaders resolve api.Name headers with
          | .error e => some (.error e)
          | .ok headers1 =>
            some (.ok { api with URL := url1, Method := method, Headers := headers1,
                                 Body := body1, Verify := verify, Weight := weight })

/-- The loop of `Loader.mergeAPIsWithCommon` from the API number `i` on. -/
def mergeLoop (resolve : String → Except String String) (config : Config) :
    Nat → List APIConfig → Option (Except String (List APIConfig))
  | _, [] => some (.ok [])
  | i, api :: rest =>
    match mergeAPI resolve config i api with
    | none => none
    | some (.error e) => some (.error e)
    | some (.ok merged) =>
      match mergeLoop resolve config (i + 1) rest with
      | none => none
      | some (.error e) => some (.error e)
      | some (.ok others) => some (.ok (merged :: others))

/-- The method `Loader.mergeAPIsWithCommon`: the list `config.APIs` after the
call, or the error returned. -/
def mergeAPIsWithCommon (resolve : String → Except String String) (config : Config) :
    Option (Except String (List APIConfig)) :=
  if config.APIs.length = 0 then some (.ok config.APIs)
  else mergeLoop resolve config 0 config.APIs

/-- The effective URL as the specification words it: `api.url` if set, else
`api.host + api.path` when the API has a host and a path, else
`config.host + api.path` when the configuration has a host and the API a path,
else `config.url`; `none` when none of these yields a URL. -/
def specEffectiveURL (config : Config) (api : APIConfig) : Option String :=
  if api.URL ≠ "" then some api.URL
  else if api.Host ≠ "" ∧ api.Path ≠ "" then some (api.Host ++ api.Path)
  else if config.Host ≠ "" ∧ api.Path ≠ "" then some (config.Host ++ api.Path)
  else if config.URL ≠ "" then some config.URL
  else none

/-- An API with the given host, path and URL and nothing else. -/
def mkEndpoint (host path url : String) : APIConfig :=
  { Name := "a", Host := host, Path := path, URL := url, Method := "", Headers := [],
    Body := "", Weight := 0, Verify := [], DependsOn := [], Extractors := [] }

/-- A common configuration with the given host and URL and the verification of
`DefaultConfig`. -/
def mkCommon (host url : String) : Config :=
  { URL := url, Method := "GET", Headers := [], Body := "",
    Verify := some { Kind := VerifyTypeStatusCode, JSONPath := "", Custom := "",
                     Expect := .int 200 },
    APIs := [], Host := host }

/-! ## package executor: extractors -/

/-- The value returned by `jsonpath.JsonPathLookup`, by the cases of the type
switch of `JSONPathExtractor.Extract`: a `string`, a `float64` (a JSON number,
here a rational; the negative zero is left out), a `bool`, or any other value
(`nil`, an array, an object) of the type `C`. -/
inductive LookupValue (C : Type) where
  | str (s : String)
  | float64 (x : Rat)
  | bool (b : Bool)
  | other (c : C)

/-- What the extractors take from libraries outside the repository:
`json.Unmarshal`, `jsonpath.JsonPathLookup`, `json.Marshal`, the error of
`regexp.Compile` if any, and `FindStringSubmatch` of the compiled pattern. -/
structure ExtractEnv (J C : Type) where
  unmarshal : String → Except String J
  lookup : J → String → Except String (LookupValue C)
  marshal : C → Except String String
  regexpCompile : String → Option String
  findStringSubmatch : String → String → List String

/-- The nearest integer of a rational, the even one of the two when it lies
half-way: the rounding of `strconv` for the precision 0. -/
def roundHalfEven (x : Rat) : Int :=
  if x - ⌊x⌋ < 1 / 2 then ⌊x⌋
  else if x - ⌊x⌋ > 1 / 2 then ⌊x⌋ + 1
  else if ⌊x⌋ % 2 = 0 then ⌊x⌋ else ⌊x⌋ + 1

/-- The text of `fmt.Sprintf("%.0f", v)`. -/
def sprintf0f (v : Rat) : String :=
  if v < 0 then "-" ++ toString (roundHalfEven (-v)).toNat
  else toString (roundHalfEven v).toNat

/-- The text of `fmt.Sprintf("%t", v)`. -/
def sprintfT (v : Bool) : String := if v then "true" else "false"

/-- The type `JSONPathExtractor`. -/
structure JSONPathExtractor where
  path : String
  deriving DecidableEq, Repr

/-- The constructor `NewJSONPathExtractor`. -/
def NewJSONPathExtractor (path : String) : JSONPathExtractor := { path := path }

/-- The method `JSONPathExtractor.Extract`; `none` is the `nil` response. -/
def JSONPathExtractor.Extract {J C : Type} (env : ExtractEnv J C) (e : JSONPathExtractor)
    (resp : Option Response) : Except String String :=
  match resp with
  | none => .error "响应体为空"
  | some r =>
    if r.Body = "" then .error "响应体为空"
    else
      match env.unmarshal r.Body with
      | .error err => .error ("解析JSON失败: " ++ err)
      | .ok data =>
        match env.lookup data e.path with
        | .error err => .error ("JSONPath提取失败 [" ++ e.path ++ "]: " ++ err)
        | .ok (.str v) => .ok v
        | .ok (.float64 v) => .ok (sprintf0f v)
        | .ok (.bool v) => .ok (sprintfT v)
        | .ok (.other v) =>
          match env.marshal v with
          | .error err => .error ("转换结果失败: " ++ err)
          | .ok bytes => .ok bytes

/-- The type `RegexExtractor`; the compiled pattern is kept as its source. -/
structure RegexExtractor where
  pattern : String
  deriving DecidableEq, Repr

/-- The constructor `NewRegexExtractor`. -/
def NewRegexExtractor {J C : Type} (env : ExtractEnv J C) (pattern : String) :
    Except String RegexExtractor :=
  match env.regexpCompile pattern with
  | some err => .error ("编译正则表达式失败: " ++ err)
  | none => .ok { pattern := pattern }

/-- The method `RegexExtractor.Extract`. -/
def RegexExtractor.Extract {J C : Type} (env : ExtractEnv J C) (e : RegexExtractor)
    (resp : Option Response) : Except String String :=
  match resp with
  | none => .error "响应体为空"
  | some r =>
    if r.Body = "" then .error "响应体为空"
    else
      match env.findStringSubmatch e.pattern r.Body with
      | _ :: group :: _ => .ok group
      | _ => .error "正则表达式未匹配到数据"

/-- The type `HeaderExtractor`. -/
structure HeaderExtractor where
  headerName : String
  deriving DecidableEq, Repr

/-- The constructor `NewHeaderExtractor`. -/
def NewHeaderExtractor (headerName : String) : HeaderExtractor := { headerName := headerName }

/-- The method `HeaderExtractor.Extract`; the empty list of headers stands for
the `nil` map. -/
def HeaderExtractor.Extract (e : HeaderExtractor) (resp : Option Response) :
    Except String String :=
  match resp with
  | none => .error "响应头为空"
  | some r =>
    if r.Headers = [] then .error "响应头为空"
    else
      match r.Headers.lookup e.headerName with
      | none => .error ("响应头 [" ++ e.headerName ++ "] 不存在")
      | some value => .ok value

/-- The implementations of the interface `Extractor`. -/
inductive Extractor where
  | jsonPath (e : JSONPathExtractor)
  | regex (e : RegexExtractor)
  | header (e : HeaderExtractor)
  deriving DecidableEq, Repr

/-- The method `Extract` of the interface `Extractor`. -/
def Extractor.Extract {J C : Type} (env : ExtractEnv J C) :
    Extractor → Option Response → Except String String
  | .jsonPath e, resp => e.Extract env resp
  | .regex e, resp => e.Extract env resp
  | .header e, resp => e.Extract resp

/-- The constant `ExtractorTypeJSONPath`. -/
def ExtractorTypeJSONPath : String := "JSONPATH"

/-- The constant `ExtractorTypeRegex`. -/
def ExtractorTypeRegex : String := "REGEX"

/-- The constant `ExtractorTypeHeader`. -/
def ExtractorTypeHeader : String := "HEADER"

/-- The function `createExtractor`. -/
def createExtractor {J C : Type} (env : ExtractEnv J C) (cfg : ExtractorConfig) :
    Except String Extractor :=
  let extractorType := if cfg.Kind = "" then ExtractorTypeJSONPath else cfg.Kind
  if extractorType = ExtractorTypeJSONPath then
    if cfg.JSONPath = "" then .error "JSONPath不能为空"
    else .ok (.jsonPath (NewJSONPathExtractor cfg.JSONPath))
  else if extractorType = ExtractorTypeRegex then
    if cfg.Regex = "" then .error "正则表达式不能为空"
    else
      match NewRegexExtractor env cfg.Regex with
      | .error err => .error err
      | .ok e => .ok (.regex e)
  else if extractorType = ExtractorTypeHeader then
    if cfg.Header = "" then .error "响应头名称不能为空"
    else .ok (.header (NewHeaderExtractor cfg.Header))
  else .error ("不支持的提取器类型: " ++ extractorType)

/-- The type `ExtractorManager`; the map `extractors` is read by key. -/
structure ExtractorManager where
  extractors : String → Option Extractor

/-- The loop of `NewExtractorManager` from a manager on. -/
def newExtractorManagerLoop {J C : Type} (env : ExtractEnv J C) :
    List ExtractorConfig → ExtractorManager → Except String ExtractorManager
  | [], manager => .ok manager
  | cfg :: rest, manager =>
    match createExtractor env cfg with
    | .error err => .error ("创建提取器 [" ++ cfg.Name ++ "] 失败: " ++ err)
    | .ok extractor =>
      newExtractorManagerLoop env rest
        { extractors := mapSet manager.extractors cfg.Name (some extractor) }

/-- The constructor `NewExtractorManager`. -/
def NewExtractorManager {J C : Type} (env : ExtractEnv J C) (configs : List ExtractorConfig) :
    Except String ExtractorManager :=
  newExtractorManagerLoop env configs { extractors := fun _ => none }

/-- The method `ExtractorManager.ExtractAll`; `keys` lists the names of the map
`m.extractors` in the order in which the `range` walks them, and the maps
`defaultValues` and `results` are read by key. -/
def ExtractorManager.ExtractAll {J C : Type} (env : ExtractEnv J C) (m : ExtractorManager)
    (keys : List String) (resp : Option Response) (defaultValues : String → Option String) :
    String → Option String :=
  keys.foldl
    (fun results name =>
      match m.extractors name with
      | none => results
      | some extractor =>
        match extractor.Extract env resp with
        | .error _ =>
          match defaultValues name with
          | some defaultVal => mapSet results name (some defaultVal)
          | none => results
        | .ok value => mapSet results name (some value))
    (fun _ => none)

/-- The map `defaultValues` built by `Worker.extractAndStoreVars`. -/
def defaultValuesOf (extractors : List ExtractorConfig) : String → Option String :=
  extractors.foldl
    (fun defaultValues extCfg =>
      if extCfg.Default ≠ "" then mapSet defaultValues extCfg.Name (some extCfg.Default)
      else defaultValues)
    (fun _ => none)

/-- Library functions for examples: the body is taken as the JSON text of one
value, which every path finds; no pattern matches. -/
def sampleExtractEnv : ExtractEnv String String :=
  { unmarshal := fun body => .ok body,
    lookup := fun data _ =>
      if data = "1.5" then .ok (.float64 (3 / 2))
      else if data = "200" then .ok (.float64 200)
      else if data = "true" then .ok (.bool true)
      else if data = "[1,2]" then .ok (.other data)
      else if data = "null" then .error "key error: token not found in object"
      else .ok (.str data),
    marshal := fun c => .ok c,
    regexpCompile := fun _ => none,
    findStringSubmatch := fun _ _ => [] }

/-- A rule that extracts `token` from the JSON path `$`, without default. -/
def tokenRule : ExtractorConfig :=
  { Name := "token", Kind := "", JSONPath := "$", Regex := "", Header := "", Default := "" }

/-- A rule that extracts `id` from the header `X-Id`, with the default `0`. -/
def idRule : ExtractorConfig :=
  { Name := "id", Kind := ExtractorTypeHeader, JSONPath := "", Regex := "", Header := "X-Id",
    Default := "0" }

/-- A rule that extracts `trace` from the header `X-Trace`, without default. -/
def traceRule : ExtractorConfig :=
  { Name := "trace", Kind := ExtractorTypeHeader, JSONPath := "", Regex := "",
    Header := "X-Trace", Default := "" }

/-- The three rules of the examples. -/
def sampleRules : List ExtractorConfig := [tokenRule, idRule, traceRule]

/-- The manager of the three rules `token`, `id` and `trace`. -/
def sampleManager : ExtractorManager :=
  { extractors :=
      mapSet (mapSet (mapSet (fun _ => none)
        "token" (some (.jsonPath (NewJSONPathExtractor "$"))))
        "id" (some (.header (NewHeaderExtractor "X-Id"))))
        "trace" (some (.header (NewHeaderExtractor "X-Trace"))) }

/-- Modelled from the spec: the states of the circuit breaker
(`breaker.Circuit` of the library go-toolbox, whose code is not under `src/`).
The specification gives it three states, closed, open and half-open; here a
closed circuit carries the number of consecutive failures, an open one the time
of the trip, a half-open one the number of consecutive successes. -/
inductive CircuitState where
  | closed (failures : Int)
  | opened (since : Int)
  | halfOpen (successes : Int)
  deriving DecidableEq, Repr

/-- A state for the circuit of the specification: the state of the circuit,
the clock (in nanoseconds), and the state `S` of everything else. -/
structure BreakerWorld (S : Type) where
  circuit : CircuitState
  now : Int
  inner : S

/-- Modelled from the spec: the state in which a call finds the circuit.  An
open circuit becomes half-open when `reset_timeout` has elapsed since the
trip. -/
def CircuitState.atTime (cfg : BreakerConfig) (now : Int) : CircuitState → CircuitState
  | .opened since => if now - since ≥ cfg.ResetTimeout then .halfOpen 0 else .opened since
  | st => st

/-- Modelled from the spec: the state of the circuit after a call that went
through, from the state in which the call found it, the error returned by
`next` and the time.  Closed becomes open when the consecutive failures reach
`max_failures`; half-open becomes closed after `half_open_successes`
consecutive successes and open on any failure. -/
def CircuitState.record (cfg : BreakerConfig) (now : Int) (st : CircuitState)
    (err : Option String) : CircuitState :=
  match st, err with
  | .closed failures, some _ =>
    if failures + 1 ≥ cfg.MaxFailures then .opened now else .closed (failures + 1)
  | .closed _, none => .closed 0
  | .halfOpen _, some _ => .opened now
  | .halfOpen successes, none =>
    if successes + 1 ≥ cfg.HalfOpenSuccesses then .closed 0 else .halfOpen (successes + 1)
  | .opened since, _ => .opened since

/-- Modelled from the spec: the method `Execute` of the circuit breaker
`breaker.Circuit` of the library go-toolbox, which `breaker.New` creates and
whose code is not under `src/`.  In the open state the call returns
`BreakerOpenError` at once without running the callback; in the other states
the callback is run once, its error is the signal of success or failure and is
returned. -/
def specCircuit {S : Type} (cfg : BreakerConfig) : Circuit (BreakerWorld S) :=
  { Execute := fun _ fn s =>
      match s.1.circuit.atTime cfg s.1.now with
      | .opened _ => some (some "BreakerOpenError", s)
      | st =>
        match fn s with
        | none => none
        | some (err, s1) =>
          some (err, ({ s1.1 with circuit := st.record cfg s1.1.now err }, s1.2)) }

/-- The libraries with the circuit of the specification. -/
def specLibs {S : Type} (runner : Runner (BreakerWorld S))
    (registry : String → Option Verifier) : MiddlewareLibs (BreakerWorld S) :=
  { breakerNew := fun _ cfg => specCircuit cfg, retryNewRunner := runner, registry := registry }

/-- A transport that fails every time, counts its calls and takes five
nanoseconds. -/
def slowFailingSend : RequestHandler (BreakerWorld Nat) :=
  fun _ w =>
    some ((none, some "connection refused"),
      { w with now := w.now + 5, inner := w.inner + 1 })

/-- A runner for examples on the state of the circuit of the specification: it
runs the callback once. -/
def onceRunner : Runner (BreakerWorld Nat) := { Run := fun _ fn s => fn s }

/-- Library functions for examples that decode the one body `"abc"` (a JSON
string, quotes included) and reject every other body as `encoding/json` rejects
a text that is not JSON. -/
def jsonExtractEnv : ExtractEnv String String :=
  { unmarshal := fun body =>
      if body = "\"abc\"" then .ok body
      else .error "invalid character looking for beginning of value",
    lookup := fun data _ =>
      if data = "\"abc\"" then .ok (.str "abc") else .error "key error",
    marshal := fun c => .ok c,
    regexpCompile := fun _ => none,
    findStringSubmatch := fun _ _ => [] }

/-- Two rules of the name `v`: the first reads the header `X-A` and has the
default `d1`, the second reads the header `X-B` and has no default. -/
def dupRules : List ExtractorConfig :=
  [ { Name := "v", Kind := ExtractorTypeHeader, JSONPath := "", Regex := "", Header := "X-A",
      Default := "d1" },
    { Name := "v", Kind := ExtractorTypeHeader, JSONPath := "", Regex := "", Header := "X-B",
      Default := "" } ]

/-! ## Auxiliary notions used in the proofs -/

/-- The sequence of three results used to instantiate C1. -/
def sampleResults : List RequestResult :=
  [ { Success := true, StatusCode := 200, Duration := 5, Error := none, URL := "u", Method := "GET" },
    { Success := false, StatusCode := 500, Duration := 9, Error := some "boom", URL := "u",
      Method := "GET" },
    { Success := true, StatusCode := 200, Duration := 2, Error := none, URL := "u", Method := "GET" } ]

/-- What a successful call of `visit` does to the state: the `visiting` marks
are restored, `order` is extended at its end, visited names stay visited, and
a name that is still being visited is not completed. -/
structure VisitStep (st st2 : VisitState) : Prop where
  visiting_eq : st2.visiting = st.visiting
  order_ext : ∃ ext, st2.order = st.order ++ ext
  visited_mono : ∀ m, st.visited m = true → st2.visited m = true
  open_kept : ∀ m, st.visiting m = true → st.visited m = false → st2.visited m = false

/-- The invariant of `resolveDependencies`: `visited` is the set of names of
`order`, no name occurs twice in `order`, and every name of `order` is
registered and stands after each of its dependencies. -/
structure VisitInv (apiMap : String → Option APIConfig) (st : VisitState) : Prop where
  visited_iff : ∀ n, st.visited n = true ↔ n ∈ st.order
  nodup : st.order.Nodup
  deps_before : ∀ n ∈ st.order, ∃ api, apiMap n = some api ∧
    ∀ d ∈ api.DependsOn, Precedes st.order d n

/-- The number of keys that are not marked `visiting`. -/
def keysLeft (keys : List String) (visiting : String → Bool) : Nat :=
  (keys.filter (fun k => !visiting k)).length

/-- What an error of `resolveDependencies` reports: `cyclic x` for a name `x`
on a cycle, `unknownAPI x` for a dependency `x` that is no key of the map. -/
def ErrSound (apiMap : String → Option APIConfig) : ResolveError → Prop
  | .cyclic x => Relation.TransGen (DependsEdge apiMap) x x
  | .unknownAPI x => apiMap x = none ∧ ∃ p, DependsEdge apiMap p x

/-- In the state `w` the circuit refuses a call: `Execute` returns the error `e`
without running the callback, whatever the callback is, and leaves the state
`w1`. -/
def CircuitRefuses {W : Type} (circuit : Circuit W) (w : W) (e : String) (w1 : W) : Prop :=
  ∀ (L : Type) (fn : W × L → Option (Option String × (W × L))) (l : L),
    circuit.Execute L fn (w, l) = some (some e, (w1, l))

/-- The binding that `ExtractAll` gives to a name of the manager: the value
extracted, or the default of the name when the extraction fails. -/
def ExtractorManager.bindingOf {J C : Type} (env : ExtractEnv J C) (m : ExtractorManager)
    (resp : Option Response) (defaultValues : String → Option String) (name : String) :
    Option String :=
  match m.extractors name with
  | none => none
  | some extractor =>
    match extractor.Extract env resp with
    | .ok value => some value
    | .error _ => defaultValues name

/-- The result that an outcome passes to the collector, if any. -/
def RequestOutcome.result? : RequestOutcome → Option RequestResult
  | .collected result => some result
  | _ => none

/-- The response after every verifier of `cfgs` has been run on it, one after
the other, whether it passes or not. -/
def verifyAll {J : Type} (env : VerifyEnv J) (cfgs : List VerifyConfig) (resp : Response) :
    Response :=
  cfgs.foldl (fun r cfg => ((NewHTTPVerifier (some cfg)).Verify env r).resp) resp

/-- The last rule of `configs` that carries the name `name`. -/
def lastRule (configs : List ExtractorConfig) (name : String) : Option ExtractorConfig :=
  configs.reverse.find? (fun cfg => decide (cfg.Name = name))

/-- The last default that is not empty among the rules of `configs` that carry
the name `name`. -/
def lastDefault (configs : List ExtractorConfig) (name : String) : Option String :=
  (configs.reverse.find? (fun cfg => decide (cfg.Name = name ∧ cfg.Default ≠ ""))).map
    (fun cfg => cfg.Default)

/-! ## Theorems -/

theorem collectAll_snoc (rs : List RequestResult) (r : RequestResult) :
    collectAll (rs ++ [r]) = (collectAll rs).Collect r := by
  simp [collectAll, List.foldl_append]

theorem collectAll_total (rs : List RequestResult) :
    (collectAll rs).totalRequests = rs.length % uint64Size := by
  induction rs using List.reverseRecOn with
  | nil => simp [collectAll, NewCollector, uint64Size]
  | append_singleton rs r ih =>
    rw [collectAll_snoc]
    simp only [Collector.Collect, addUint64, ih, List.length_append, List.length_singleton,
      uint64Size]
    omega

theorem collectAll_success (rs : List RequestResult) :
    (collectAll rs).successRequests = (rs.filter (fun r => r.Success)).length % uint64Size := by
  induction rs using List.reverseRecOn with
  | nil => simp [collectAll, NewCollector, uint64Size]
  | append_singleton rs r ih =>
    rw [collectAll_snoc]
    cases hr : r.Success <;>
      simp [Collector.Collect, addUint64, ih, hr, List.filter_append]

theorem collectAll_failed (rs : List RequestResult) :
    (collectAll rs).failedRequests = (rs.filter (fun r => !r.Success)).length % uint64Size := by
  induction rs using List.reverseRecOn with
  | nil => simp [collectAll, NewCollector, uint64Size]
  | append_singleton rs r ih =>
    rw [collectAll_snoc]
    cases hr : r.Success <;>
      simp [Collector.Collect, addUint64, ih, hr, List.filter_append]

theorem length_filter_add_not (rs : List RequestResult) :
    (rs.filter (fun r => r.Success)).length + (rs.filter (fun r => !r.Success)).length
      = rs.length := by
  induction rs with
  | nil => rfl
  | cons r rs ih =>
    cases hr : r.Success <;> simp [List.filter_cons, hr] <;> omega

theorem collectAll_balance_mod (rs : List RequestResult) :
    (collectAll rs).totalRequests
      = addUint64 (collectAll rs).successRequests (collectAll rs).failedRequests := by
  rw [collectAll_total, collectAll_success, collectAll_failed, addUint64, ← Nat.add_mod,
    length_filter_add_not]

theorem collectAll_balance_exact (rs : List RequestResult) (h : rs.length < uint64Size) :
    (collectAll rs).totalRequests
      = (collectAll rs).successRequests + (collectAll rs).failedRequests := by
  have hsum := length_filter_add_not rs
  rw [collectAll_total, collectAll_success, collectAll_failed,
    Nat.mod_eq_of_lt h, Nat.mod_eq_of_lt (by omega), Nat.mod_eq_of_lt (by omega)]
  exact hsum.symm

/-- C1: after each call of `Collect` on a fresh collector (that is, for every
prefix `rs.take n` of every sequence of results), `totalRequests` is the sum of
`successRequests` and `failedRequests`, and so are the counters returned by
`GetSnapshot` and by `GenerateReport`.  The sum is the `uint64` sum of the
Go fields; it is the sum of natural numbers as long as fewer than `2 ^ 64`
results were collected. -/
theorem collect_total_eq_success_add_failed (rs : List RequestResult) (n : Nat)
    (totalTime : Int) :
    ((collectAll (rs.take n)).totalRequests
        = addUint64 (collectAll (rs.take n)).successRequests
            (collectAll (rs.take n)).failedRequests
      ∧ (collectAll (rs.take n)).GetSnapshot.TotalRequests
        = addUint64 (collectAll (rs.take n)).GetSnapshot.SuccessRequests
            (collectAll (rs.take n)).GetSnapshot.FailedRequests
      ∧ ((collectAll (rs.take n)).GenerateReport totalTime).1.TotalRequests
        = addUint64 ((collectAll (rs.take n)).GenerateReport totalTime).1.SuccessRequests
            ((collectAll (rs.take n)).GenerateReport totalTime).1.FailedRequests)
    ∧ (rs.length < uint64Size →
        (collectAll (rs.take n)).totalRequests
          = (collectAll (rs.take n)).successRequests + (collectAll (rs.take n)).failedRequests
        ∧ (collectAll (rs.take n)).GetSnapshot.TotalRequests
          = (collectAll (rs.take n)).GetSnapshot.SuccessRequests
            + (collectAll (rs.take n)).GetSnapshot.FailedRequests
        ∧ ((collectAll (rs.take n)).GenerateReport totalTime).1.TotalRequests
          = ((collectAll (rs.take n)).GenerateReport totalTime).1.SuccessRequests
            + ((collectAll (rs.take n)).GenerateReport totalTime).1.FailedRequests) := by
  have hmod := collectAll_balance_mod (rs.take n)
  refine ⟨⟨hmod, hmod, hmod⟩, fun h => ?_⟩
  have hlen : (rs.take n).length < uint64Size := by
    have := List.length_take_le n rs
    rw [List.length_take]
    omega
  have hex := collectAll_balance_exact (rs.take n) hlen
  exact ⟨hex, hex, hex⟩

/-- C1 at a concrete run: three results, two of them successful. -/
theorem collect_total_eq_success_add_failed_witness :
    (collectAll sampleResults).totalRequests = 3
      ∧ (collectAll sampleResults).successRequests = 2
      ∧ (collectAll sampleResults).failedRequests = 1
      ∧ (collectAll (sampleResults.take 3)).totalRequests
          = (collectAll (sampleResults.take 3)).successRequests
            + (collectAll (sampleResults.take 3)).failedRequests :=
  ⟨by decide, by decide, by decide,
    ((collect_total_eq_success_add_failed sampleResults 3 0).2 (by decide)).1⟩

/-! ### The map built by `NewDependencyResolver` -/

theorem mapSet_same {V : Type} (m : String → V) (k : String) (v : V) : mapSet m k v k = v := by
  simp [mapSet]

theorem mapSet_other {V : Type} (m : String → V) {k x : String} (v : V) (h : x ≠ k) :
    mapSet m k v x = m x := by
  simp [mapSet, h]

theorem apiMapOf_snoc (l : List APIConfig) (a : APIConfig) :
    apiMapOf (l ++ [a]) = mapSet (apiMapOf l) a.Name (some a) := by
  simp [apiMapOf, List.foldl_append]

theorem apiMapOf_some (l : List APIConfig) (n : String) (api : APIConfig)
    (h : apiMapOf l n = some api) : api ∈ l ∧ api.Name = n := by
  induction l using List.reverseRecOn with
  | nil => simp [apiMapOf] at h
  | append_singleton l a ih =>
    rw [apiMapOf_snoc] at h
    by_cases hn : n = a.Name
    · subst hn
      rw [mapSet_same] at h
      cases h
      simp
    · rw [mapSet_other _ _ hn] at h
      exact ⟨List.mem_append_left _ (ih h).1, (ih h).2⟩

theorem apiMapOf_isSome (l : List APIConfig) (n : String) :
    (apiMapOf l n).isSome = true ↔ n ∈ l.map (fun a => a.Name) := by
  induction l using List.reverseRecOn with
  | nil => simp [apiMapOf]
  | append_singleton l a ih =>
    rw [apiMapOf_snoc]
    by_cases hn : n = a.Name
    · subst hn
      simp [mapSet_same]
    · rw [mapSet_other _ _ hn, ih]
      simp only [List.map_append, List.mem_append, List.map_cons, List.map_nil,
        List.mem_singleton]
      tauto

theorem apiMapOf_of_nodup (l : List APIConfig) (hnd : (l.map (fun a => a.Name)).Nodup)
    (a : APIConfig) (ha : a ∈ l) : apiMapOf l a.Name = some a := by
  induction l using List.reverseRecOn with
  | nil => simp at ha
  | append_singleton l a0 ih =>
    rw [apiMapOf_snoc]
    rw [List.map_append, List.nodup_append] at hnd
    obtain ⟨hl, -, hdis⟩ := hnd
    rcases List.mem_append.1 ha with h | h
    · have hne : a.Name ≠ a0.Name := by
        intro heq
        exact hdis (List.mem_map_of_mem (fun a => a.Name) h) (by simp [heq])
      rw [mapSet_other _ _ hne]
      exact ih hl h
    · have : a = a0 := by simpa using h
      subst this
      exact mapSet_same _ _ _

theorem assignNamesFrom_length (i : Nat) (l : List APIConfig) :
    (assignNamesFrom i l).length = l.length := by
  induction l generalizing i with
  | nil => rfl
  | cons a l ih => simp [assignNamesFrom, ih]

theorem apiNames_length (apis : List APIConfig) : (apiNames apis).length = apis.length := by
  simp [apiNames, assignNames, assignNamesFrom_length]

theorem buildAPIMap_isSome (apis : List APIConfig) (n : String) :
    (buildAPIMap apis n).isSome = true ↔ n ∈ apiNames apis :=
  apiMapOf_isSome _ _

theorem rangeOrder_mem {apis : List APIConfig} {keys : List String} (hk : RangeOrder apis keys)
    (n : String) : n ∈ keys ↔ (buildAPIMap apis n).isSome = true := by
  rw [buildAPIMap_isSome, hk.mem_iff, List.mem_dedup]

theorem rangeOrder_nodup {apis : List APIConfig} {keys : List String}
    (hk : RangeOrder apis keys) : keys.Nodup :=
  hk.nodup_iff.2 (List.nodup_dedup _)

/-! ### Positions in the execution order -/

theorem precedes_append {l : List String} {d n : String} (h : Precedes l d n)
    (l2 : List String) : Precedes (l ++ l2) d n := by
  obtain ⟨i, j, hij, hi, hj⟩ := h
  have hil : i < l.length := (List.getElem?_eq_some.1 hi).1
  have hjl : j < l.length := (List.getElem?_eq_some.1 hj).1
  exact ⟨i, j, hij, by rw [List.getElem?_append_left hil]; exact hi,
    by rw [List.getElem?_append_left hjl]; exact hj⟩

theorem precedes_snoc {l : List String} {d : String} (h : d ∈ l) (n : String) :
    Precedes (l ++ [n]) d n := by
  obtain ⟨i, hi⟩ := List.mem_iff_getElem?.1 h
  have hil : i < l.length := (List.getElem?_eq_some.1 hi).1
  refine ⟨i, l.length, hil, by rw [List.getElem?_append_left hil]; exact hi, ?_⟩
  rw [List.getElem?_append_right (le_refl _)]
  simp

theorem precedes_mem_left {l : List String} {d n : String} (h : Precedes l d n) : d ∈ l := by
  obtain ⟨i, j, -, hi, -⟩ := h
  exact List.mem_iff_getElem?.2 ⟨i, hi⟩

theorem precedes_trans {l : List String} (hnd : l.Nodup) {a b c : String}
    (h1 : Precedes l a b) (h2 : Precedes l b c) : Precedes l a c := by
  obtain ⟨i, j, hij, hi, hj⟩ := h1
  obtain ⟨i2, j2, hij2, hi2, hj2⟩ := h2
  have hjl : j < l.length := (List.getElem?_eq_some.1 hj).1
  have : j = i2 := List.getElem?_inj hjl hnd (by rw [hj, hi2])
  exact ⟨i, j2, by omega, hi, hj2⟩

theorem precedes_irrefl {l : List String} (hnd : l.Nodup) {a : String} (h : Precedes l a a) :
    False := by
  obtain ⟨i, j, hij, hi, hj⟩ := h
  have hil : i < l.length := (List.getElem?_eq_some.1 hi).1
  have : i = j := List.getElem?_inj hil hnd (by rw [hi, hj])
  omega

/-! ### Successful visits -/

theorem visitStep_refl (st : VisitState) : VisitStep st st :=
  ⟨rfl, ⟨[], by simp⟩, fun _ h => h, fun _ _ h => h⟩

theorem visitStep_trans {a b c : VisitState} (h1 : VisitStep a b) (h2 : VisitStep b c) :
    VisitStep a c := by
  obtain ⟨e1, he1⟩ := h1.order_ext
  obtain ⟨e2, he2⟩ := h2.order_ext
  refine ⟨h2.visiting_eq.trans h1.visiting_eq, ⟨e1 ++ e2, by rw [he2, he1, List.append_assoc]⟩,
    fun m hm => h2.visited_mono m (h1.visited_mono m hm), fun m hv hn => ?_⟩
  apply h2.open_kept m
  · rw [h1.visiting_eq]; exact hv
  · exact h1.open_kept m hv hn

theorem visitAll_ok {apiMap : String → Option APIConfig}
    {v : String → VisitState → Option (Except ResolveError VisitState)}
    (hv : ∀ x st st2, VisitInv apiMap st → v x st = some (.ok st2) →
      VisitStep st st2 ∧ VisitInv apiMap st2 ∧ st2.visited x = true) :
    ∀ xs st st2, VisitInv apiMap st → visitAll v xs st = some (.ok st2) →
      VisitStep st st2 ∧ VisitInv apiMap st2 ∧ ∀ x ∈ xs, st2.visited x = true := by
  intro xs
  induction xs with
  | nil =>
    intro st st2 hinv h
    simp only [visitAll, Option.some.injEq, Except.ok.injEq] at h
    subst h
    exact ⟨visitStep_refl _, hinv, by simp⟩
  | cons x xs ih =>
    intro st st2 hinv h
    cases hvx : v x st with
    | none => simp [visitAll, hvx] at h
    | some r =>
      cases r with
      | error e => simp [visitAll, hvx] at h
      | ok st1 =>
        simp only [visitAll, hvx] at h
        obtain ⟨hs1, hi1, hx1⟩ := hv x st st1 hinv hvx
        obtain ⟨hs2, hi2, hx2⟩ := ih st1 st2 hi1 h
        refine ⟨visitStep_trans hs1 hs2, hi2, ?_⟩
        intro y hy
        rcases List.mem_cons.1 hy with rfl | hy
        · exact hs2.visited_mono _ hx1
        · exact hx2 y hy

theorem visit_ok (apiMap : String → Option APIConfig) :
    ∀ fuel name st st2, VisitInv apiMap st → visit apiMap fuel name st = some (.ok st2) →
      VisitStep st st2 ∧ VisitInv apiMap st2 ∧ st2.visited name = true := by
  intro fuel
  induction fuel with
  | zero => intro name st st2 _ h; simp [visit] at h
  | succ fuel ih =>
    intro name st st2 hinv h
    rw [visit] at h
    by_cases hvis : st.visited name = true
    · simp only [hvis, if_true, Option.some.injEq, Except.ok.injEq] at h
      subst h
      exact ⟨visitStep_refl _, hinv, hvis⟩
    · by_cases hing : st.visiting name = true
      · simp [hvis, hing] at h
      · simp only [hvis, hing, if_false, Bool.false_eq_true] at h
        cases hm : apiMap name with
        | none => simp [hm] at h
        | some api =>
          simp only [hm] at h
          have hinv1 : VisitInv apiMap
              { st with visiting := mapSet st.visiting name true } :=
            ⟨hinv.visited_iff, hinv.nodup, hinv.deps_before⟩
          cases hdeps : visitAll (visit apiMap fuel) api.DependsOn
              { st with visiting := mapSet st.visiting name true } with
          | none => simp [hdeps] at h
          | some r =>
            cases r with
            | error e => simp [hdeps] at h
            | ok st1 =>
              simp only [hdeps, Option.some.injEq, Except.ok.injEq] at h
              obtain ⟨hs, hi, hd⟩ := visitAll_ok (ih) api.DependsOn _ st1 hinv1 hdeps
              have hvisF : st.visited name = false := by simpa using hvis
              have hingF : st.visiting name = false := by simpa using hing
              have hname1 : st1.visited name = false :=
                hs.open_kept name (by simp [mapSet]) hvisF
              have hnotin : name ∉ st1.order := by
                intro hmem
                have := (hi.visited_iff name).2 hmem
                rw [hname1] at this
                exact Bool.false_ne_true this
              obtain ⟨ext, hext⟩ := hs.order_ext
              subst h
              refine ⟨⟨?_, ⟨ext ++ [name], ?_⟩, ?_, ?_⟩, ⟨?_, ?_, ?_⟩, ?_⟩
              · funext m
                show mapSet st1.visiting name false m = st.visiting m
                rw [hs.visiting_eq]
                by_cases hmn : m = name
                · subst hmn; rw [mapSet_same]; exact hingF.symm
                · rw [mapSet_other _ _ hmn]
                  exact mapSet_other _ _ hmn
              · show st1.order ++ [name] = st.order ++ (ext ++ [name])
                rw [hext, List.append_assoc]
              · intro m hm
                show mapSet st1.visited name true m = true
                by_cases hmn : m = name
                · subst hmn; exact mapSet_same _ _ _
                · rw [mapSet_other _ _ hmn]; exact hs.visited_mono m hm
              · intro m hmv hmn
                show mapSet st1.visited name true m = false
                have hne : m ≠ name := by
                  intro heq; subst heq; rw [hingF] at hmv; exact Bool.false_ne_true hmv
                rw [mapSet_other _ _ hne]
                exact hs.open_kept m (by simp [mapSet, hne, hmv]) hmn
              · intro n
                show mapSet st1.visited name true n = true ↔ n ∈ st1.order ++ [name]
                by_cases hnn : n = name
                · subst hnn; simp [mapSet_same]
                · rw [mapSet_other _ _ hnn, hi.visited_iff]
                  simp [hnn]
              · show (st1.order ++ [name]).Nodup
                rw [List.nodup_append]
                refine ⟨hi.nodup, by simp, ?_⟩
                intro a ha hb
                have : a = name := by simpa using hb
                subst this
                exact hnotin ha
              · intro n hn
                show ∃ api, apiMap n = some api ∧
                  ∀ d ∈ api.DependsOn, Precedes (st1.order ++ [name]) d n
                rcases List.mem_append.1 hn with hn | hn
                · obtain ⟨a, ha, hpre⟩ := hi.deps_before n hn
                  exact ⟨a, ha, fun d hd => precedes_append (hpre d hd) _⟩
                · have : n = name := by simpa using hn
                  subst this
                  exact ⟨api, hm, fun d hdm =>
                    precedes_snoc ((hi.visited_iff d).1 (hd d hdm)) _⟩
              · show mapSet st1.visited name true name = true
                exact mapSet_same _ _ _

/-! ### The recursion bound is never reached -/

theorem keysLeft_le (keys : List String) (vis : String → Bool) (name : String) :
    keysLeft keys (mapSet vis name true) ≤ keysLeft keys vis := by
  induction keys with
  | nil => simp [keysLeft]
  | cons k ks ih =>
    unfold keysLeft at ih ⊢
    by_cases hk : k = name
    · subst hk
      rw [List.filter_cons, List.filter_cons]
      simp only [mapSet_same, Bool.not_true, Bool.false_eq_true, if_false]
      split <;> (try simp only [List.length_cons]) <;> omega
    · rw [List.filter_cons, List.filter_cons, mapSet_other _ _ hk]
      split <;> (try simp only [List.length_cons]) <;> omega

theorem keysLeft_lt (keys : List String) (vis : String → Bool) (name : String)
    (hmem : name ∈ keys) (hf : vis name = false) :
    keysLeft keys (mapSet vis name true) < keysLeft keys vis := by
  induction keys with
  | nil => simp at hmem
  | cons k ks ih =>
    have hle := keysLeft_le ks vis name
    unfold keysLeft at ih hle ⊢
    by_cases hk : k = name
    · subst hk
      rw [List.filter_cons, List.filter_cons]
      simp only [mapSet_same, hf, Bool.not_true, Bool.not_false, Bool.false_eq_true, if_false,
        if_true, List.length_cons]
      omega
    · have hmem2 : name ∈ ks := by
        rcases List.mem_cons.1 hmem with h | h
        · exact absurd h.symm hk
        · exact h
      have := ih hmem2
      rw [List.filter_cons, List.filter_cons, mapSet_other _ _ hk]
      split <;> (try simp only [List.length_cons]) <;> omega

theorem visitAll_ne_none {v : String → VisitState → Option (Except ResolveError VisitState)}
    {P : VisitState → Prop}
    (hstep : ∀ x st st2, P st → v x st = some (.ok st2) → P st2)
    (hv : ∀ x st, P st → v x st ≠ none) :
    ∀ xs st, P st → visitAll v xs st ≠ none := by
  intro xs
  induction xs with
  | nil => intro st _; simp [visitAll]
  | cons x xs ih =>
    intro st hP
    cases hvx : v x st with
    | none => exact absurd hvx (hv x st hP)
    | some r =>
      cases r with
      | error e => simp [visitAll, hvx]
      | ok st1 =>
        simp only [visitAll, hvx]
        exact ih st1 (hstep x st st1 hP hvx)

theorem visitAll_error {v : String → VisitState → Option (Except ResolveError VisitState)}
    {P : VisitState → Prop}
    (hstep : ∀ x st st2, P st → v x st = some (.ok st2) → P st2) :
    ∀ xs st e, P st → visitAll v xs st = some (.error e) →
      ∃ x ∈ xs, ∃ st1, P st1 ∧ v x st1 = some (.error e) := by
  intro xs
  induction xs with
  | nil => intro st e _ h; simp [visitAll] at h
  | cons x xs ih =>
    intro st e hP h
    cases hvx : v x st with
    | none => simp [visitAll, hvx] at h
    | some r =>
      cases r with
      | error e2 =>
        simp only [visitAll, hvx, Option.some.injEq, Except.error.injEq] at h
        subst h
        exact ⟨x, List.mem_cons_self _ _, st, hP, hvx⟩
      | ok st1 =>
        simp only [visitAll, hvx] at h
        obtain ⟨y, hy, st2, hP2, hv2⟩ := ih st1 e (hstep x st st1 hP hvx) h
        exact ⟨y, List.mem_cons_of_mem _ hy, st2, hP2, hv2⟩

theorem visit_ne_none (apiMap : String → Option APIConfig) (keys : List String)
    (hdom : ∀ n api, apiMap n = some api → n ∈ keys) :
    ∀ fuel name st, VisitInv apiMap st → keysLeft keys st.visiting < fuel →
      visit apiMap fuel name st ≠ none := by
  intro fuel
  induction fuel with
  | zero => intro name st _ h; omega
  | succ fuel ih =>
    intro name st hinv hfuel
    rw [visit]
    by_cases hvis : st.visited name = true
    · simp [hvis]
    · by_cases hing : st.visiting name = true
      · simp [hvis, hing]
      · simp only [hvis, hing, if_false, Bool.false_eq_true]
        cases hm : apiMap name with
        | none => simp
        | some api =>
          simp only
          have hingF : st.visiting name = false := by simpa using hing
          have hlt := keysLeft_lt keys st.visiting name (hdom name api hm) hingF
          have hinv1 : VisitInv apiMap
              { st with visiting := mapSet st.visiting name true } :=
            ⟨hinv.visited_iff, hinv.nodup, hinv.deps_before⟩
          have hne : visitAll (visit apiMap fuel) api.DependsOn
              { st with visiting := mapSet st.visiting name true } ≠ none := by
            apply visitAll_ne_none
              (P := fun s => VisitInv apiMap s ∧ keysLeft keys s.visiting < fuel)
            · intro x s s2 hP hx
              obtain ⟨hs, hi, -⟩ := visit_ok apiMap fuel x s s2 hP.1 hx
              exact ⟨hi, by rw [hs.visiting_eq]; exact hP.2⟩
            · intro x s hP
              exact ih x s hP.1 hP.2
            · exact ⟨hinv1, by show keysLeft keys (mapSet st.visiting name true) < fuel; omega⟩
          cases hdeps : visitAll (visit apiMap fuel) api.DependsOn
              { st with visiting := mapSet st.visiting name true } with
          | none => exact absurd hdeps hne
          | some r => cases r <;> simp

/-! ### Errors name a real defect of the graph -/

theorem visit_error_sound (apiMap : String → Option APIConfig) :
    ∀ fuel name st e, VisitInv apiMap st →
      (∀ m, st.visiting m = true → Relation.TransGen (DependsEdge apiMap) m name) →
      (apiMap name ≠ none ∨ ∃ p, DependsEdge apiMap p name) →
      visit apiMap fuel name st = some (.error e) → ErrSound apiMap e := by
  intro fuel
  induction fuel with
  | zero => intro name st e _ _ _ h; simp [visit] at h
  | succ fuel ih =>
    intro name st e hinv hpath hcalled h
    rw [visit] at h
    by_cases hvis : st.visited name = true
    · simp [hvis] at h
    · by_cases hing : st.visiting name = true
      · simp only [hvis, hing, if_true, if_false, Bool.false_eq_true, Option.some.injEq,
          Except.error.injEq] at h
        subst h
        exact hpath name hing
      · simp only [hvis, hing, if_false, Bool.false_eq_true] at h
        cases hm : apiMap name with
        | none =>
          simp only [hm, Option.some.injEq, Except.error.injEq] at h
          subst h
          rcases hcalled with hc | hc
          · exact absurd hm hc
          · exact ⟨hm, hc⟩
        | some api =>
          simp only [hm] at h
          have hinv1 : VisitInv apiMap
              { st with visiting := mapSet st.visiting name true } :=
            ⟨hinv.visited_iff, hinv.nodup, hinv.deps_before⟩
          cases hdeps : visitAll (visit apiMap fuel) api.DependsOn
              { st with visiting := mapSet st.visiting name true } with
          | none => simp [hdeps] at h
          | some r =>
            cases r with
            | ok st1 => simp [hdeps] at h
            | error e2 =>
              simp only [hdeps, Option.some.injEq, Except.error.injEq] at h
              subst h
              obtain ⟨d, hd, s, hP, hvd⟩ := visitAll_error
                (P := fun s => VisitInv apiMap s ∧ s.visiting = mapSet st.visiting name true)
                (fun x s s2 hP hx => by
                  obtain ⟨hs, hi, -⟩ := visit_ok apiMap fuel x s s2 hP.1 hx
                  exact ⟨hi, hs.visiting_eq.trans hP.2⟩)
                api.DependsOn _ e2 ⟨hinv1, rfl⟩ hdeps
              have hedge : DependsEdge apiMap name d := ⟨api, hm, hd⟩
              refine ih d s e2 hP.1 ?_ (Or.inr ⟨name, hedge⟩) hvd
              intro m hmv
              rw [hP.2] at hmv
              by_cases hmn : m = name
              · subst hmn
                exact Relation.TransGen.single hedge
              · rw [mapSet_other _ _ hmn] at hmv
                exact Relation.TransGen.tail (hpath m hmv) hedge

/-! ### `resolveDependencies` as a whole -/

theorem visitInv_init (apiMap : String → Option APIConfig) :
    VisitInv apiMap { visited := fun _ => false, visiting := fun _ => false, order := [] } :=
  ⟨by simp, by simp, by simp⟩

theorem resolve_ok_facts (apiMap : String → Option APIConfig) (keys order : List String)
    (h : resolveDependencies apiMap keys = some (.ok order)) :
    order.Nodup
      ∧ (∀ n ∈ order, ∃ api, apiMap n = some api ∧ ∀ d ∈ api.DependsOn, Precedes order d n)
      ∧ ∀ k ∈ keys, k ∈ order := by
  unfold resolveDependencies at h
  cases hrun : visitAll (visit apiMap (keys.length + 1)) keys
      { visited := fun _ => false, visiting := fun _ => false, order := [] } with
  | none => simp [hrun] at h
  | some r =>
    cases r with
    | error e => simp [hrun] at h
    | ok st =>
      simp only [hrun, Option.some.injEq, Except.ok.injEq] at h
      subst h
      obtain ⟨-, hi, hall⟩ := visitAll_ok (visit_ok apiMap (keys.length + 1)) keys _ st
        (visitInv_init apiMap) hrun
      exact ⟨hi.nodup, hi.deps_before, fun k hk => (hi.visited_iff k).1 (hall k hk)⟩

theorem resolve_ne_none (apiMap : String → Option APIConfig) (keys : List String)
    (hdom : ∀ n api, apiMap n = some api → n ∈ keys) :
    resolveDependencies apiMap keys ≠ none := by
  have hrun : visitAll (visit apiMap (keys.length + 1)) keys
      { visited := fun _ => false, visiting := fun _ => false, order := [] } ≠ none := by
    apply visitAll_ne_none
      (P := fun s => VisitInv apiMap s ∧ keysLeft keys s.visiting < keys.length + 1)
    · intro x s s2 hP hx
      obtain ⟨hs, hi, -⟩ := visit_ok apiMap _ x s s2 hP.1 hx
      exact ⟨hi, by rw [hs.visiting_eq]; exact hP.2⟩
    · intro x s hP
      exact visit_ne_none apiMap keys hdom _ x s hP.1 hP.2
    · refine ⟨visitInv_init apiMap, ?_⟩
      show (keys.filter (fun k => !(fun _ : String => false) k)).length < keys.length + 1
      have := List.length_filter_le (fun k => !(fun _ : String => false) k) keys
      omega
  unfold resolveDependencies
  cases hr : visitAll (visit apiMap (keys.length + 1)) keys
      { visited := fun _ => false, visiting := fun _ => false, order := [] } with
  | none => exact absurd hr hrun
  | some r => cases r <;> simp

theorem resolve_error_sound (apiMap : String → Option APIConfig) (keys : List String)
    (e : ResolveError) (hkeys : ∀ k ∈ keys, apiMap k ≠ none)
    (h : resolveDependencies apiMap keys = some (.error e)) : ErrSound apiMap e := by
  unfold resolveDependencies at h
  cases hrun : visitAll (visit apiMap (keys.length + 1)) keys
      { visited := fun _ => false, visiting := fun _ => false, order := [] } with
  | none => simp [hrun] at h
  | some r =>
    cases r with
    | ok st => simp [hrun] at h
    | error e2 =>
      simp only [hrun, Option.some.injEq, Except.error.injEq] at h
      subst h
      obtain ⟨k, hk, s, hP, hvk⟩ := visitAll_error
        (P := fun s => VisitInv apiMap s ∧ s.visiting = fun _ => false)
        (fun x s s2 hP hx => by
          obtain ⟨hs, hi, -⟩ := visit_ok apiMap _ x s s2 hP.1 hx
          exact ⟨hi, hs.visiting_eq.trans hP.2⟩)
        keys _ e2 ⟨visitInv_init apiMap, rfl⟩ hrun
      refine visit_error_sound apiMap _ k s e2 hP.1 ?_ (Or.inl (hkeys k hk)) hvk
      intro m hm
      rw [hP.2] at hm
      exact absurd hm Bool.false_ne_true

theorem errSound_defect {apiMap : String → Option APIConfig} {e : ResolveError}
    (h : ErrSound apiMap e) : MapHasCycle apiMap ∨ MapHasMissing apiMap := by
  cases e with
  | cyclic x => exact Or.inl ⟨x, h⟩
  | unknownAPI x =>
    obtain ⟨hnone, p, hp⟩ := h
    exact Or.inr ⟨p, x, hp, hnone⟩

theorem transGen_first_edge {apiMap : String → Option APIConfig} {x y : String}
    (h : Relation.TransGen (DependsEdge apiMap) x y) : ∃ z, DependsEdge apiMap x z := by
  induction h with
  | single hxy => exact ⟨_, hxy⟩
  | tail _ _ ih => exact ih

theorem resolve_ok_precedes (apiMap : String → Option APIConfig) (keys order : List String)
    (h : resolveDependencies apiMap keys = some (.ok order)) {x y : String}
    (hxy : Relation.TransGen (DependsEdge apiMap) x y) (hx : x ∈ order) :
    Precedes order y x := by
  obtain ⟨hnd, hdeps, -⟩ := resolve_ok_facts apiMap keys order h
  induction hxy with
  | single hedge =>
    obtain ⟨api, hapi, hmem⟩ := hedge
    obtain ⟨api2, hapi2, hpre⟩ := hdeps x hx
    rw [hapi] at hapi2
    cases hapi2
    exact hpre _ hmem
  | tail _ hedge ih =>
    obtain ⟨api, hapi, hmem⟩ := hedge
    obtain ⟨api2, hapi2, hpre⟩ := hdeps _ (precedes_mem_left ih)
    rw [hapi] at hapi2
    cases hapi2
    exact precedes_trans hnd (hpre _ hmem) ih

theorem resolve_ok_no_defect (apiMap : String → Option APIConfig) (keys order : List String)
    (hdom : ∀ n api, apiMap n = some api → n ∈ keys)
    (h : resolveDependencies apiMap keys = some (.ok order)) :
    ¬ MapHasCycle apiMap ∧ ¬ MapHasMissing apiMap := by
  obtain ⟨hnd, hdeps, hkeys⟩ := resolve_ok_facts apiMap keys order h
  constructor
  · rintro ⟨n, hn⟩
    obtain ⟨z, api, hapi, -⟩ := transGen_first_edge hn
    have hmem : n ∈ order := hkeys n (hdom n api hapi)
    exact precedes_irrefl hnd (resolve_ok_precedes apiMap keys order h hn hmem)
  · rintro ⟨p, d, hedge, hnone⟩
    have hmem : p ∈ order := by
      obtain ⟨api, hapi, -⟩ := hedge
      exact hkeys p (hdom p api hapi)
    have hd : d ∈ order :=
      precedes_mem_left
        (resolve_ok_precedes apiMap keys order h (Relation.TransGen.single hedge) hmem)
    obtain ⟨api, hapi, -⟩ := hdeps d hd
    rw [hnone] at hapi
    cases hapi

theorem rangeOrder_dom {apis : List APIConfig} {keys : List String} (hk : RangeOrder apis keys) :
    ∀ n api, buildAPIMap apis n = some api → n ∈ keys := by
  intro n api h
  rw [rangeOrder_mem hk, h]
  rfl

theorem rangeOrder_keys {apis : List APIConfig} {keys : List String}
    (hk : RangeOrder apis keys) : ∀ k ∈ keys, buildAPIMap apis k ≠ none := by
  intro k hmem hnone
  have := (rangeOrder_mem hk k).1 hmem
  rw [hnone] at this
  exact Bool.false_ne_true this

theorem newResolver_ok_iff (apis : List APIConfig) (keys : List String) (r : DependencyResolver) :
    NewDependencyResolver apis keys = some (.ok r) ↔
      resolveDependencies (buildAPIMap apis) keys = some (.ok r.executionOrder)
        ∧ r.apiConfigs = assignNames apis ∧ r.apiMap = buildAPIMap apis
        ∧ r.extractedVars = [] := by
  unfold NewDependencyResolver
  cases hres : resolveDependencies (buildAPIMap apis) keys with
  | none => simp
  | some x =>
    cases x with
    | error e => simp
    | ok order =>
      simp only [Option.some.injEq, Except.ok.injEq]
      constructor
      · rintro rfl
        exact ⟨rfl, rfl, rfl, rfl⟩
      · rintro ⟨h1, h2, h3, h4⟩
        cases r
        simp only at h1 h2 h3 h4
        subst h1 h2 h3 h4
        rfl

theorem newResolver_error_iff (apis : List APIConfig) (keys : List String) (e : ResolveError) :
    NewDependencyResolver apis keys = some (.error e) ↔
      resolveDependencies (buildAPIMap apis) keys = some (.error e) := by
  unfold NewDependencyResolver
  cases hres : resolveDependencies (buildAPIMap apis) keys with
  | none => simp
  | some x => cases x <;> simp

/-! ### The graph of the list and the graph of the map -/

theorem listEdge_eq_dependsEdge (apis : List APIConfig) (hnd : (apiNames apis).Nodup) :
    ListEdge apis = DependsEdge (buildAPIMap apis) := by
  funext x y
  apply propext
  constructor
  · rintro ⟨a, ha, rfl, hy⟩
    exact ⟨a, apiMapOf_of_nodup _ hnd a ha, hy⟩
  · rintro ⟨a, ha, hy⟩
    obtain ⟨hmem, hname⟩ := apiMapOf_some _ _ _ ha
    exact ⟨a, hmem, hname, hy⟩

theorem buildAPIMap_eq_none (apis : List APIConfig) (d : String) :
    buildAPIMap apis d = none ↔ d ∉ apiNames apis := by
  rw [← buildAPIMap_isSome]
  cases buildAPIMap apis d <;> simp

theorem listHasCycle_iff (apis : List APIConfig) (hnd : (apiNames apis).Nodup) :
    ListHasCycle apis ↔ MapHasCycle (buildAPIMap apis) := by
  unfold ListHasCycle MapHasCycle
  rw [listEdge_eq_dependsEdge apis hnd]

theorem listHasMissing_iff (apis : List APIConfig) (hnd : (apiNames apis).Nodup) :
    ListHasMissing apis ↔ MapHasMissing (buildAPIMap apis) := by
  constructor
  · rintro ⟨a, ha, d, hd, hnot⟩
    exact ⟨a.Name, d, ⟨a, apiMapOf_of_nodup _ hnd a ha, hd⟩,
      (buildAPIMap_eq_none apis d).2 hnot⟩
  · rintro ⟨p, d, ⟨a, ha, hd⟩, hnone⟩
    exact ⟨a, (apiMapOf_some _ _ _ ha).1, d, hd, (buildAPIMap_eq_none apis d).1 hnone⟩

theorem newResolver_cases (apis : List APIConfig) (keys : List String)
    (hk : RangeOrder apis keys) :
    (∃ r, NewDependencyResolver apis keys = some (.ok r))
      ∨ ∃ e, NewDependencyResolver apis keys = some (.error e) := by
  have hne := resolve_ne_none (buildAPIMap apis) keys (rangeOrder_dom hk)
  unfold NewDependencyResolver
  cases hres : resolveDependencies (buildAPIMap apis) keys with
  | none => exact absurd hres hne
  | some x =>
    cases x with
    | error e => exact Or.inr ⟨e, rfl⟩
    | ok order => exact Or.inl ⟨_, rfl⟩

theorem newResolver_error_defect (apis : List APIConfig) (keys : List String)
    (hk : RangeOrder apis keys) :
    (∃ e, NewDependencyResolver apis keys = some (.error e)) ↔
      MapHasCycle (buildAPIMap apis) ∨ MapHasMissing (buildAPIMap apis) := by
  constructor
  · rintro ⟨e, he⟩
    rw [newResolver_error_iff] at he
    exact errSound_defect (resolve_error_sound _ keys e (rangeOrder_keys hk) he)
  · intro hdef
    rcases newResolver_cases apis keys hk with ⟨r, hr⟩ | herr
    · rw [newResolver_ok_iff] at hr
      have := resolve_ok_no_defect _ keys _ (rangeOrder_dom hk) hr.1
      rcases hdef with h | h
      · exact absurd h this.1
      · exact absurd h this.2
    · exact herr

theorem resolver_ok_no_defect_aux (apis : List APIConfig) (keys : List String)
    (hk : RangeOrder apis keys) :
    (∃ r, NewDependencyResolver apis keys = some (.ok r)) ↔
      ¬ MapHasCycle (buildAPIMap apis) ∧ ¬ MapHasMissing (buildAPIMap apis) := by
  constructor
  · rintro ⟨r, hr⟩
    rw [newResolver_ok_iff] at hr
    exact resolve_ok_no_defect _ keys _ (rangeOrder_dom hk) hr.1
  · intro hno
    rcases newResolver_cases apis keys hk with hok | hbad
    · exact hok
    · rcases (newResolver_error_defect apis keys hk).1 hbad with h | h
      · exact absurd h hno.1
      · exact absurd h hno.2

/-! ### Claims on the dependency resolver -/

/-- C2 as stated fails: of two APIs named `a`, the first of which depends on
`zzz`, the resolver registers the second only and succeeds with the order `a`.
The first API is an API of the list, its name is in the order, and the name
`zzz` of its `DependsOn` is not in the order at all, so it does not stand
before `a`.  The same happens when the name given to a blank API is carried
by an earlier API that has a dependency. -/
theorem execution_order_topological_counterexample :
    (RangeOrder shadowAPIs ["a"]
      ∧ ∃ r, NewDependencyResolver shadowAPIs ["a"] = some (.ok r)
        ∧ r.GetExecutionOrder = ["a"]
        ∧ ∃ api ∈ shadowAPIs, api.Name ∈ r.GetExecutionOrder
            ∧ ∃ d ∈ api.DependsOn, d ∉ r.GetExecutionOrder
              ∧ ¬ Precedes r.GetExecutionOrder d api.Name)
      ∧ (RangeOrder shadowBlankAPIs ["api_2"]
        ∧ ∃ r, NewDependencyResolver shadowBlankAPIs ["api_2"] = some (.ok r)
          ∧ r.GetExecutionOrder = ["api_2"]
          ∧ ∃ api ∈ shadowBlankAPIs, api.Name ∈ r.GetExecutionOrder
              ∧ ∃ d ∈ api.DependsOn, d ∉ r.GetExecutionOrder
                ∧ ¬ Precedes r.GetExecutionOrder d api.Name) := by
  have hnot : ∀ (l : List String) (d n : String), d ∉ l → ¬ Precedes l d n := by
    rintro l d n hd ⟨i, j, -, hi, -⟩
    exact hd (List.mem_iff_getElem?.mpr ⟨i, hi⟩)
  refine ⟨⟨by decide, _, rfl, rfl, mkAPI "a" ["zzz"], by decide, by decide, "zzz", by decide,
      by decide, hnot _ _ _ (by decide)⟩,
    ⟨by decide, _, rfl, rfl, mkAPI "api_2" ["zzz"], by decide, by decide, "zzz", by decide,
      by decide, hnot _ _ _ (by decide)⟩⟩

/-- C2, amended: when `NewDependencyResolver` succeeds (whatever the order in
which the map was walked), `GetExecutionOrder()` is a topological order of the
`depends_on` graph of the registered APIs: no name occurs twice, and every name
of the order is registered and stands at a later position than each name listed
in the `DependsOn` of the API registered under it (the API that `GetAPI`
returns for the name, the last API of the list that carries it).  When the
names of the list are pairwise distinct this covers every API of the list: its
name is in the order, after all the names of its `DependsOn`. -/
theorem execution_order_topological (apis : List APIConfig) (keys : List String)
    (r : DependencyResolver) (h : NewDependencyResolver apis keys = some (.ok r)) :
    r.GetExecutionOrder.Nodup
      ∧ (∀ name ∈ r.GetExecutionOrder, ∃ api, r.GetAPI name = some api ∧
          ∀ d ∈ api.DependsOn, Precedes r.GetExecutionOrder d name)
      ∧ (RangeOrder apis keys → (apiNames apis).Nodup →
          ∀ api ∈ assignNames apis, api.Name ∈ r.GetExecutionOrder ∧
            ∀ d ∈ api.DependsOn, Precedes r.GetExecutionOrder d api.Name) := by
  rw [newResolver_ok_iff] at h
  obtain ⟨hres, -, hmap, -⟩ := h
  obtain ⟨hnd, hdeps, hkeys⟩ := resolve_ok_facts _ keys _ hres
  refine ⟨hnd, fun name hname => ?_, fun hk hnames api hapi => ?_⟩
  · obtain ⟨api, hapi, hpre⟩ := hdeps name hname
    exact ⟨api, by rw [DependencyResolver.GetAPI, hmap]; exact hapi, hpre⟩
  · have hreg : buildAPIMap apis api.Name = some api := apiMapOf_of_nodup _ hnames api hapi
    have hmem : api.Name ∈ r.executionOrder :=
      hkeys _ (rangeOrder_dom hk _ _ hreg)
    obtain ⟨api2, hapi2, hpre⟩ := hdeps _ hmem
    rw [hreg] at hapi2
    cases hapi2
    exact ⟨hmem, hpre⟩

theorem loginResolver_eq : NewDependencyResolver loginFlow ["me", "login"] = some (.ok loginResolver) :=
  rfl

/-- C2 (amended) on the flow `login`, `me`: the order is `login`, `me`, although
the map was walked from `me`. -/
theorem execution_order_topological_witness :
    NewDependencyResolver loginFlow ["me", "login"] = some (.ok loginResolver)
      ∧ loginResolver.GetExecutionOrder = ["login", "me"]
      ∧ Precedes loginResolver.GetExecutionOrder "login" "me" := by
  refine ⟨rfl, rfl, ?_⟩
  obtain ⟨api, hapi, hpre⟩ :=
    (execution_order_topological loginFlow ["me", "login"] loginResolver rfl).2.1 "me"
      (by decide)
  have h2 : loginResolver.GetAPI "me" = some (mkAPI "me" ["login"]) := rfl
  rw [h2] at hapi
  cases hapi
  exact hpre "login" (by decide)

/-- C3 as stated fails: for two APIs of the same name the resolver succeeds with
an execution order of length one; the same happens when the name given to a
blank API is already carried by another API. -/
theorem execution_order_length_counterexample :
    (RangeOrder twinAPIs ["a"] ∧
      ∃ r, NewDependencyResolver twinAPIs ["a"] = some (.ok r)
        ∧ r.GetExecutionOrder = ["a"]
        ∧ r.GetExecutionOrder.length ≠ twinAPIs.length)
      ∧ (RangeOrder collideAPIs ["api_2"] ∧
        ∃ r, NewDependencyResolver collideAPIs ["api_2"] = some (.ok r)
          ∧ r.GetExecutionOrder = ["api_2"]
          ∧ r.GetExecutionOrder.length ≠ collideAPIs.length) :=
  ⟨⟨by decide, _, rfl, rfl, by decide⟩, ⟨by decide, _, rfl, rfl, by decide⟩⟩

/-- C3, amended: when `NewDependencyResolver` succeeds, `GetExecutionOrder()`
lists every distinct API name (after blank names were auto-assigned) exactly
once; its length is the number of APIs when the names are pairwise distinct. -/
theorem execution_order_lists_names (apis : List APIConfig) (keys : List String)
    (r : DependencyResolver) (hk : RangeOrder apis keys)
    (h : NewDependencyResolver apis keys = some (.ok r)) :
    r.GetExecutionOrder.Perm (apiNames apis).dedup
      ∧ ((apiNames apis).Nodup →
          r.GetExecutionOrder.length = apis.length
            ∧ r.GetExecutionOrder.Perm (apiNames apis)) := by
  rw [newResolver_ok_iff] at h
  obtain ⟨hres, -, -, -⟩ := h
  obtain ⟨hnd, hdeps, hkeys⟩ := resolve_ok_facts _ keys _ hres
  have hperm : r.executionOrder.Perm keys := by
    rw [List.perm_ext_iff_of_nodup hnd (rangeOrder_nodup hk)]
    intro n
    constructor
    · intro hn
      obtain ⟨api, hapi, -⟩ := hdeps n hn
      exact rangeOrder_dom hk n api hapi
    · exact hkeys n
  have hperm2 : r.executionOrder.Perm (apiNames apis).dedup := hperm.trans hk
  refine ⟨hperm2, fun hnames => ?_⟩
  rw [List.Nodup.dedup hnames] at hperm2
  exact ⟨by rw [DependencyResolver.GetExecutionOrder, hperm2.length_eq, apiNames_length],
    hperm2⟩

/-- C3 (amended) on the flow `login`, `me`. -/
theorem execution_order_lists_names_witness :
    RangeOrder loginFlow ["me", "login"]
      ∧ loginResolver.GetExecutionOrder.Perm (apiNames loginFlow).dedup
      ∧ loginResolver.GetExecutionOrder.length = 2 :=
  ⟨by decide,
    (execution_order_lists_names loginFlow ["me", "login"] loginResolver (by decide) rfl).1,
    rfl⟩

/-- C4 as stated fails: the first of two APIs named `a` depends on a name that
no API of the list carries, and `NewDependencyResolver` succeeds. -/
theorem resolver_error_iff_counterexample :
    RangeOrder shadowAPIs ["a"]
      ∧ (∃ r, NewDependencyResolver shadowAPIs ["a"] = some (.ok r))
      ∧ ListHasMissing shadowAPIs :=
  ⟨by decide, ⟨_, rfl⟩, mkAPI "a" ["zzz"], by decide, "zzz", by decide, by decide⟩

/-- C4, amended: `NewDependencyResolver` returns an error exactly when the graph
of the registered APIs (under each name the last API of the list that carries
it, blank names auto-assigned) has a cycle or a `DependsOn` entry that names no
API, and it succeeds otherwise; when the names are pairwise distinct this is
the `depends_on` graph of the whole list. -/
theorem resolver_error_iff_defect (apis : List APIConfig) (keys : List String)
    (hk : RangeOrder apis keys) :
    ((∃ e, NewDependencyResolver apis keys = some (.error e)) ↔
        MapHasCycle (buildAPIMap apis) ∨ MapHasMissing (buildAPIMap apis))
      ∧ ((∃ r, NewDependencyResolver apis keys = some (.ok r)) ↔
        ¬ MapHasCycle (buildAPIMap apis) ∧ ¬ MapHasMissing (buildAPIMap apis))
      ∧ ((apiNames apis).Nodup →
          ((∃ e, NewDependencyResolver apis keys = some (.error e)) ↔
            ListHasCycle apis ∨ ListHasMissing apis)) := by
  have herr := newResolver_error_defect apis keys hk
  refine ⟨herr, resolver_ok_no_defect_aux apis keys hk, fun hnd => ?_⟩
  · rw [listHasCycle_iff apis hnd, listHasMissing_iff apis hnd]
    exact herr

/-- C4 (amended) on two APIs that depend on each other: the resolver fails. -/
theorem resolver_error_iff_defect_witness :
    RangeOrder cycleAPIs ["a", "b"]
      ∧ NewDependencyResolver cycleAPIs ["a", "b"] = some (.error (.cyclic "a"))
      ∧ (MapHasCycle (buildAPIMap cycleAPIs) ∨ MapHasMissing (buildAPIMap cycleAPIs)) :=
  ⟨by decide, rfl,
    (resolver_error_iff_defect cycleAPIs ["a", "b"] (by decide)).1.1 ⟨_, rfl⟩⟩

/-! ### The dependency selector -/

theorem subUint64_addUint64_one (c : Nat) (h : c < uint64Size) :
    subUint64 (addUint64 c 1) 1 = c := by
  unfold subUint64 addUint64 uint64Size at *
  omega

theorem addUint64_lt (a b : Nat) : addUint64 a b < uint64Size :=
  Nat.mod_lt _ (by unfold uint64Size; norm_num)

theorem depSel_configAt_empty (s : dependencySelector) (idx : Nat)
    (h : s.order.length = 0) : s.configAt idx = none := by
  have : s.order = [] := List.length_eq_zero.1 h
  simp [dependencySelector.configAt, this]

theorem depSel_next_fst (s : dependencySelector) (h : s.current < uint64Size) :
    s.Next.1 = s.configAt s.current := by
  unfold dependencySelector.Next
  by_cases hlen : s.order.length = 0
  · rw [if_pos hlen, depSel_configAt_empty s _ hlen]
  · rw [if_neg hlen]
    simp only [subUint64_addUint64_one _ h, dependencySelector.configAt]
    cases s.order[s.current % s.order.length]? with
    | none => rfl
    | some apiName =>
      simp only [Option.some_bind]
      cases s.resolver.GetAPI apiName <;> rfl

theorem depSel_next_snd (s : dependencySelector) :
    s.Next.2.resolver = s.resolver ∧ s.Next.2.order = s.order
      ∧ (s.order.length ≠ 0 → s.Next.2.current = addUint64 s.current 1)
      ∧ (s.order.length = 0 → s.Next.2.current = s.current) := by
  unfold dependencySelector.Next
  by_cases hlen : s.order.length = 0
  · rw [if_pos hlen]
    exact ⟨rfl, rfl, fun h => absurd hlen h, fun _ => rfl⟩
  · rw [if_neg hlen]
    simp only
    cases s.order[subUint64 (addUint64 s.current 1) 1 % s.order.length]? with
    | none => exact ⟨rfl, rfl, fun _ => rfl, fun h => absurd h hlen⟩
    | some apiName =>
      simp only
      cases s.resolver.GetAPI apiName <;>
        exact ⟨rfl, rfl, fun _ => rfl, fun h => absurd h hlen⟩

theorem depSel_configAt_congr (s t : dependencySelector)
    (hr : t.resolver = s.resolver) (ho : t.order = s.order) (idx : Nat) :
    t.configAt idx = s.configAt idx := by
  simp [dependencySelector.configAt, hr, ho]

theorem depSel_run_getElem :
    ∀ (n : Nat) (s : dependencySelector) (i : Nat), s.current < uint64Size → i < n →
      (dependencySelector.run n s)[i]? = some (s.configAt ((s.current + i) % uint64Size)) := by
  intro n
  induction n with
  | zero => intro s i _ hi; omega
  | succ n ih =>
    intro s i hc hi
    obtain ⟨hres, hord, hstep, hstay⟩ := depSel_next_snd s
    cases i with
    | zero =>
      simp only [dependencySelector.run, List.getElem?_cons_zero, Nat.add_zero,
        Nat.mod_eq_of_lt hc, depSel_next_fst s hc]
    | succ i =>
      simp only [dependencySelector.run, List.getElem?_cons_succ]
      by_cases hlen : s.order.length = 0
      · have hc2 : s.Next.2.current < uint64Size := by rw [hstay hlen]; exact hc
        rw [ih s.Next.2 i hc2 (by omega), depSel_configAt_congr s _ hres hord,
          depSel_configAt_empty s _ hlen, depSel_configAt_empty s _ hlen]
      · have hc2 : s.Next.2.current < uint64Size := by
          rw [hstep hlen]; exact addUint64_lt _ _
        rw [ih s.Next.2 i hc2 (by omega), depSel_configAt_congr s _ hres hord,
          hstep hlen]
        congr 2
        unfold addUint64 uint64Size
        omega

theorem newDependencySelector_ok (apis : List APIConfig) (keys : List String)
    (sel : dependencySelector) (h : NewDependencySelector apis keys = some (.ok sel)) :
    NewDependencyResolver apis keys = some (.ok sel.resolver)
      ∧ sel.order = sel.resolver.executionOrder ∧ sel.current = 0 := by
  unfold NewDependencySelector at h
  cases hres : NewDependencyResolver apis keys with
  | none => simp [hres] at h
  | some x =>
    cases x with
    | error e => simp [hres] at h
    | ok r =>
      simp only [hres, Option.some.injEq, Except.ok.injEq] at h
      subst h
      exact ⟨rfl, rfl, rfl⟩

theorem depSel_configAt_some (s : dependencySelector) (idx : Nat)
    (cfg : APIRequestConfig) (h : s.configAt idx = some cfg) :
    ∃ name api, s.order[idx % s.order.length]? = some name
      ∧ s.resolver.GetAPI name = some api ∧ cfg = api.toRequestConfig := by
  unfold dependencySelector.configAt at h
  cases hn : s.order[idx % s.order.length]? with
  | none => simp [hn] at h
  | some name =>
    rw [hn, Option.some_bind] at h
    cases ha : s.resolver.GetAPI name with
    | none => simp [ha] at h
    | some api =>
      rw [ha] at h
      exact ⟨name, api, rfl, ha, by simpa using h.symm⟩

/-- C6: for a dependency selector built from an API list accepted by
`NewDependencyResolver`, every configuration returned by a call of `Next` is
preceded, in the sequence of the configurations returned by the earlier calls,
by a configuration of each transitive dependency of its API; and as long as
the list is not empty every call returns a configuration. -/
theorem dependency_next_after_dependencies (apis : List APIConfig) (keys : List String)
    (sel : dependencySelector) (hk : RangeOrder apis keys)
    (h : NewDependencySelector apis keys = some (.ok sel)) (n : Nat) :
    (apis ≠ [] → ∀ i : Nat, i < n → ∃ cfg, (sel.run n)[i]? = some (some cfg))
      ∧ ∀ (i : Nat) (cfg : APIRequestConfig), (sel.run n)[i]? = some (some cfg) →
          ∀ d, Relation.TransGen (DependsEdge sel.resolver.GetAPI) cfg.Name d →
            ∃ (j : Nat) (cfgd : APIRequestConfig),
              j < i ∧ (sel.run n)[j]? = some (some cfgd) ∧ cfgd.Name = d := by
  obtain ⟨hres, hord, hcur⟩ := newDependencySelector_ok apis keys sel h
  have hres2 := (newResolver_ok_iff apis keys sel.resolver).1 hres
  obtain ⟨hrun, -, hmap, -⟩ := hres2
  have hget : sel.resolver.GetAPI = buildAPIMap apis := by
    funext x; rw [DependencyResolver.GetAPI, hmap]
  obtain ⟨hnd, hdeps, hkeys⟩ := resolve_ok_facts _ keys _ hrun
  rw [← hord] at hnd hdeps hkeys
  have hc0 : sel.current < uint64Size := by rw [hcur]; unfold uint64Size; norm_num
  -- the configuration read at a position of the order
  have hat : ∀ q name, sel.order[q]? = some name →
      ∃ c, sel.configAt q = some c ∧ c.Name = name := by
    intro q name hq
    have hql : q < sel.order.length := (List.getElem?_eq_some.1 hq).1
    obtain ⟨api, hapi, -⟩ := hdeps name (List.mem_iff_getElem?.2 ⟨q, hq⟩)
    refine ⟨api.toRequestConfig, ?_, (apiMapOf_some _ _ _ hapi).2⟩
    unfold dependencySelector.configAt
    rw [Nat.mod_eq_of_lt hql, hq, Option.some_bind, hget, hapi]
    rfl
  constructor
  · intro hne i hi
    rw [depSel_run_getElem n sel i hc0 hi, hcur, Nat.zero_add]
    have hlen : 0 < sel.order.length := by
      cases hka : keys with
      | nil =>
        exfalso
        have hperm : keys.Perm (apiNames apis).dedup := hk
        rw [hka] at hperm
        have hnil : (apiNames apis).dedup = [] := List.Perm.nil_eq hperm |>.symm
        have h0 : apiNames apis = [] := by
          cases hnames : apiNames apis with
          | nil => rfl
          | cons a l =>
            have : a ∈ (apiNames apis).dedup := List.mem_dedup.2 (by rw [hnames]; simp)
            rw [hnil] at this
            simp at this
        have := apiNames_length apis
        rw [h0] at this
        exact hne (List.length_eq_zero.1 this.symm)
      | cons k ks =>
        have : k ∈ sel.order := hkeys k (by rw [hka]; simp)
        exact List.length_pos_of_mem this
    have hpos : (i % uint64Size) % sel.order.length < sel.order.length := Nat.mod_lt _ hlen
    obtain ⟨c, hc, -⟩ := hat ((i % uint64Size) % sel.order.length) _
      (List.getElem?_eq_getElem hpos)
    refine ⟨c, ?_⟩
    rw [← hc]
    unfold dependencySelector.configAt
    rw [Nat.mod_mod]
  · intro i cfg hcfg d hd
    have hi : i < n := by
      have := (List.getElem?_eq_some.1 hcfg).1
      have hl : (sel.run n).length = n := by
        clear hcfg this
        generalize sel = s
        induction n generalizing s with
        | zero => rfl
        | succ n ih => simp [dependencySelector.run, ih]
      omega
    rw [depSel_run_getElem n sel i hc0 hi, hcur, Nat.zero_add] at hcfg
    obtain ⟨name, api, hname, hapi, hcfgeq⟩ :=
      depSel_configAt_some sel _ cfg (Option.some.inj hcfg)
    have hcn : cfg.Name = name := by
      rw [hcfgeq, hget] at *
      exact (apiMapOf_some _ _ _ hapi).2
    rw [hcn, hget] at hd
    have hmem : name ∈ sel.order := List.mem_iff_getElem?.2 ⟨_, hname⟩
    have hpre : Precedes sel.order d name := by
      rw [hord] at hmem ⊢
      exact resolve_ok_precedes _ keys _ hrun hd hmem
    obtain ⟨q, p2, hqp, hq, hp2⟩ := hpre
    have hp2l : p2 < sel.order.length := (List.getElem?_eq_some.1 hp2).1
    have hpeq : p2 = (i % uint64Size) % sel.order.length :=
      List.getElem?_inj hp2l hnd (by rw [hp2, hname])
    have hple : (i % uint64Size) % sel.order.length ≤ i :=
      le_trans (Nat.mod_le _ _) (Nat.mod_le _ _)
    have hq64 : q < uint64Size := by
      have h1 : (i % uint64Size) % sel.order.length ≤ i % uint64Size := Nat.mod_le _ _
      have h2 : i % uint64Size < uint64Size := Nat.mod_lt _ (by unfold uint64Size; norm_num)
      omega
    obtain ⟨c, hc, hcd⟩ := hat q d hq
    refine ⟨q, c, by omega, ?_, hcd⟩
    rw [depSel_run_getElem n sel q hc0 (by omega), hcur, Nat.zero_add,
      Nat.mod_eq_of_lt hq64, hc]

theorem loginSelector_eq :
    NewDependencySelector loginFlow ["me", "login"] = some (.ok loginSelector) :=
  rfl

/-- C6 on the flow `login`, `me`: in four calls of `Next` the second call
returns `me`, which depends on `login`, and `login` was returned before. -/
theorem dependency_next_after_dependencies_witness :
    ((loginSelector.run 4).map (Option.map (fun c => c.Name))
        = [some "login", some "me", some "login", some "me"])
      ∧ ∃ (j : Nat) (cfgd : APIRequestConfig),
          j < 1 ∧ (loginSelector.run 4)[j]? = some (some cfgd) ∧ cfgd.Name = "login" := by
  refine ⟨by decide, ?_⟩
  exact (dependency_next_after_dependencies loginFlow ["me", "login"] loginSelector
    (by decide) rfl 4).2 1 (mkAPI "me" ["login"]).toRequestConfig (by decide) "login"
    (Relation.TransGen.single ⟨mkAPI "me" ["login"], rfl, by decide⟩)

/-! ### Construction of the selector -/

theorem hasDeps_iff (apis : List APIConfig) :
    hasDeps apis = true ↔ ∃ api ∈ apis, api.DependsOn ≠ [] ∨ api.Extractors ≠ [] := by
  unfold hasDeps
  rw [List.any_eq_true]
  constructor
  · rintro ⟨api, hmem, h⟩
    refine ⟨api, hmem, ?_⟩
    simp only [Bool.or_eq_true, decide_eq_true_eq] at h
    rcases h with h | h
    · exact Or.inl (List.ne_nil_of_length_pos h)
    · exact Or.inr (List.ne_nil_of_length_pos h)
  · rintro ⟨api, hmem, h⟩
    refine ⟨api, hmem, ?_⟩
    simp only [Bool.or_eq_true, decide_eq_true_eq]
    rcases h with h | h
    · exact Or.inl (List.length_pos.2 h)
    · exact Or.inr (List.length_pos.2 h)

theorem hasWeight_iff (apis : List APIConfig) :
    hasWeight apis = true ↔ ∃ api ∈ apis, api.Weight > 1 := by
  unfold hasWeight
  rw [List.any_eq_true]
  simp

theorem assignNamesFrom_mem (i : Nat) (l : List APIConfig) (a : APIConfig)
    (h : a ∈ assignNamesFrom i l) : ∃ b ∈ l, a.DependsOn = b.DependsOn := by
  induction l generalizing i with
  | nil => simp [assignNamesFrom] at h
  | cons b l ih =>
    simp only [assignNamesFrom, List.mem_cons] at h
    rcases h with h | h
    · refine ⟨b, List.mem_cons_self _ _, ?_⟩
      subst h
      split <;> rfl
    · obtain ⟨c, hc, hcd⟩ := ih (i + 1) h
      exact ⟨c, List.mem_cons_of_mem _ hc, hcd⟩

theorem dependsEdge_hasDeps (apis : List APIConfig) {x y : String}
    (h : DependsEdge (buildAPIMap apis) x y) : hasDeps apis = true := by
  obtain ⟨api, hapi, hy⟩ := h
  obtain ⟨b, hb, hbd⟩ := assignNamesFrom_mem 0 apis api (apiMapOf_some _ _ _ hapi).1
  rw [hasDeps_iff]
  refine ⟨b, hb, Or.inl ?_⟩
  rw [← hbd]
  exact List.ne_nil_of_mem hy

theorem defect_hasDeps (apis : List APIConfig)
    (h : MapHasCycle (buildAPIMap apis) ∨ MapHasMissing (buildAPIMap apis)) :
    hasDeps apis = true := by
  rcases h with ⟨n, hn⟩ | ⟨p, d, hedge, -⟩
  · obtain ⟨z, hz⟩ := transGen_first_edge hn
    exact dependsEdge_hasDeps apis hz
  · exact dependsEdge_hasDeps apis hedge

theorem hasDeps_length (apis : List APIConfig) (h : hasDeps apis = true) :
    ¬ apis.length = 0 := by
  intro h0
  rw [List.length_eq_zero.1 h0] at h
  simp [hasDeps] at h

theorem newDependencySelector_error_iff (apis : List APIConfig) (keys : List String)
    (e : ResolveError) :
    NewDependencySelector apis keys = some (.error e) ↔
      NewDependencyResolver apis keys = some (.error e) := by
  unfold NewDependencySelector
  cases hres : NewDependencyResolver apis keys with
  | none => simp
  | some x => cases x <;> simp

theorem newDependencySelector_ok_iff (apis : List APIConfig) (keys : List String) :
    (∃ sel, NewDependencySelector apis keys = some (.ok sel)) ↔
      ∃ r, NewDependencyResolver apis keys = some (.ok r) := by
  unfold NewDependencySelector
  cases hres : NewDependencyResolver apis keys with
  | none => simp
  | some x => cases x <;> simp

/-- C5 as stated fails: the API `a` depends on `ghost`, a name that no API of
the configuration carries, yet `CreateAPISelector` returns the round-robin
selector, whose first call of `Next` returns the API `a`, and `NewExecutor`
succeeds with that selector. -/
theorem create_selector_rejects_counterexample :
    RangeOrder ghostAPIs ["a", "b"]
      ∧ ListHasMissing ghostAPIs
      ∧ NewDependencyResolver ghostAPIs ["a", "b"] = some (.error (.unknownAPI "ghost"))
      ∧ CreateAPISelector (mkConfig ghostAPIs) ["a", "b"]
          = some (.roundRobin (NewRoundRobinSelector ghostAPIs))
      ∧ (NewRoundRobinSelector ghostAPIs).Next.1 = some (mkAPI "a" ["ghost"]).toRequestConfig
      ∧ NewExecutor (mkConfig ghostAPIs) ["a", "b"] (.ok ())
          = some (.ok { config := mkConfig ghostAPIs,
                        apiSelector := some (.roundRobin (NewRoundRobinSelector ghostAPIs)),
                        hasReqBuilder := false }) :=
  ⟨by decide, ⟨mkAPI "a" ["ghost"], by decide, "ghost", by decide, by decide⟩, rfl, rfl, rfl,
    rfl⟩

/-- C5, amended: for a configuration whose registered APIs contain a cyclic or
an unresolved dependency, selector construction does not fail: the error of
the resolver is dropped and `CreateAPISelector` returns the round-robin
selector over the API list of the configuration (blank names auto-assigned),
with its counter at zero; `NewExecutor` succeeds with that selector whenever
its middleware chain is built, and the configuration it keeps is the given one
with the blank names of its APIs filled in. -/
theorem create_selector_falls_back (cfg : Config) (keys : List String)
    (hk : RangeOrder cfg.APIs keys)
    (hdef : MapHasCycle (buildAPIMap cfg.APIs) ∨ MapHasMissing (buildAPIMap cfg.APIs)) :
    CreateAPISelector cfg keys
        = some (.roundRobin { apis := assignNames cfg.APIs, counter := 0 })
      ∧ NewExecutor cfg keys (.ok ())
        = some (.ok { config := { cfg with APIs := assignNames cfg.APIs },
                      apiSelector :=
                        some (.roundRobin { apis := assignNames cfg.APIs, counter := 0 }),
                      hasReqBuilder := false }) := by
  have hd := defect_hasDeps cfg.APIs hdef
  obtain ⟨e, he⟩ := (newResolver_error_defect cfg.APIs keys hk).2 hdef
  have hsel := (newDependencySelector_error_iff cfg.APIs keys e).2 he
  have hcreate : CreateAPISelector cfg keys
      = some (.roundRobin { apis := assignNames cfg.APIs, counter := 0 }) := by
    unfold CreateAPISelector
    rw [if_neg (hasDeps_length _ hd), if_pos hd, hsel]
    rfl
  refine ⟨hcreate, ?_⟩
  unfold NewExecutor
  have hpos : cfg.APIs.length > 0 := Nat.pos_of_ne_zero (hasDeps_length _ hd)
  have hcfg : configAfterSelector cfg = { cfg with APIs := assignNames cfg.APIs } := by
    unfold configAfterSelector
    rw [if_neg (hasDeps_length _ hd), if_pos hd]
  simp only [hpos, if_true, hcreate, hcfg]

/-- C5 (amended) on two APIs that depend on each other, and on a blank API that
depends on the name it is given: the executor keeps the name `api_1`. -/
theorem create_selector_falls_back_witness :
    (RangeOrder (mkConfig cycleAPIs).APIs ["b", "a"]
      ∧ CreateAPISelector (mkConfig cycleAPIs) ["b", "a"]
          = some (.roundRobin { apis := cycleAPIs, counter := 0 }))
      ∧ (RangeOrder (mkConfig blankCycleAPIs).APIs ["api_1"]
        ∧ NewExecutor (mkConfig blankCycleAPIs) ["api_1"] (.ok ())
            = some (.ok { config := mkConfig [mkAPI "api_1" ["api_1"]],
                          apiSelector :=
                            some (.roundRobin { apis := [mkAPI "api_1" ["api_1"]],
                                                counter := 0 }),
                          hasReqBuilder := false })) := by
  have h1 : DependsEdge (buildAPIMap (mkConfig cycleAPIs).APIs) "a" "b" :=
    ⟨mkAPI "a" ["b"], rfl, by decide⟩
  have h2 : DependsEdge (buildAPIMap (mkConfig cycleAPIs).APIs) "b" "a" :=
    ⟨mkAPI "b" ["a"], rfl, by decide⟩
  have h3 : DependsEdge (buildAPIMap (mkConfig blankCycleAPIs).APIs) "api_1" "api_1" :=
    ⟨mkAPI "api_1" ["api_1"], rfl, by decide⟩
  exact ⟨⟨by decide,
    (create_selector_falls_back (mkConfig cycleAPIs) ["b", "a"] (by decide)
      (Or.inl ⟨"a", (Relation.TransGen.single h1).tail h2⟩)).1⟩,
    ⟨by decide,
    (create_selector_falls_back (mkConfig blankCycleAPIs) ["api_1"] (by decide)
      (Or.inl ⟨"api_1", Relation.TransGen.single h3⟩)).2⟩⟩

/-- C9 as stated fails: in a configuration of two APIs that declare
`depends_on` (each depends on the other), `CreateAPISelector` yields the
round-robin selector, not the dependency selector. -/
theorem create_selector_rule_counterexample :
    RangeOrder cycleAPIs ["a", "b"]
      ∧ (mkConfig cycleAPIs).APIs.length = 2
      ∧ (∃ api ∈ (mkConfig cycleAPIs).APIs, api.DependsOn ≠ [])
      ∧ ∃ sel, CreateAPISelector (mkConfig cycleAPIs) ["a", "b"] = some sel
          ∧ sel.kind = .roundRobin ∧ sel.kind ≠ .dependency :=
  ⟨by decide, rfl, ⟨mkAPI "a" ["b"], by decide, by decide⟩, _, rfl, rfl, by decide⟩

/-- C9, amended: `CreateAPISelector` always yields a selector.  It is the
Single selector exactly for a configuration without an API list; for a
non-empty list in which some API declares `depends_on` or extractors it is the
Dependency selector when the registered graph has neither a cycle nor an
unresolved dependency and the Round-robin selector otherwise; for a non-empty
list without `depends_on` and extractors it is the Weighted selector if some
weight exceeds one and the Round-robin selector if none does. -/
theorem create_selector_rule (cfg : Config) (keys : List String)
    (hk : RangeOrder cfg.APIs keys) :
    ∃ sel, CreateAPISelector cfg keys = some sel
      ∧ (cfg.APIs = [] → sel.kind = .single)
      ∧ (cfg.APIs ≠ [] → (∃ api ∈ cfg.APIs, api.DependsOn ≠ [] ∨ api.Extractors ≠ []) →
          ¬ MapHasCycle (buildAPIMap cfg.APIs) → ¬ MapHasMissing (buildAPIMap cfg.APIs) →
          sel.kind = .dependency)
      ∧ (cfg.APIs ≠ [] → (∃ api ∈ cfg.APIs, api.DependsOn ≠ [] ∨ api.Extractors ≠ []) →
          MapHasCycle (buildAPIMap cfg.APIs) ∨ MapHasMissing (buildAPIMap cfg.APIs) →
          sel.kind = .roundRobin)
      ∧ (cfg.APIs ≠ [] → (¬ ∃ api ∈ cfg.APIs, api.DependsOn ≠ [] ∨ api.Extractors ≠ []) →
          (∃ api ∈ cfg.APIs, api.Weight > 1) → sel.kind = .weighted)
      ∧ (cfg.APIs ≠ [] → (¬ ∃ api ∈ cfg.APIs, api.DependsOn ≠ [] ∨ api.Extractors ≠ []) →
          (¬ ∃ api ∈ cfg.APIs, api.Weight > 1) → sel.kind = .roundRobin) := by
  simp only [← hasDeps_iff, ← hasWeight_iff]
  unfold CreateAPISelector
  by_cases hlen : cfg.APIs.length = 0
  · have hnil : cfg.APIs = [] := List.length_eq_zero.1 hlen
    rw [if_pos hlen]
    exact ⟨_, rfl, fun _ => rfl, fun h => absurd hnil h, fun h => absurd hnil h,
      fun h => absurd hnil h, fun h => absurd hnil h⟩
  · have hnil : cfg.APIs ≠ [] := fun h => hlen (by rw [h]; rfl)
    rw [if_neg hlen]
    by_cases hd : hasDeps cfg.APIs = true
    · rw [if_pos hd]
      rcases newResolver_cases cfg.APIs keys hk with hok | ⟨e, he⟩
      · obtain ⟨sel, hsel⟩ := (newDependencySelector_ok_iff cfg.APIs keys).2 hok
        have hno := (resolver_ok_no_defect_aux cfg.APIs keys hk).1 hok
        rw [hsel]
        exact ⟨_, rfl, fun h => absurd h hnil, fun _ _ _ _ => rfl,
          fun _ _ hdef => by
            rcases hdef with h | h
            · exact absurd h hno.1
            · exact absurd h hno.2,
          fun _ h => absurd hd h, fun _ h => absurd hd h⟩
      · have hdef := (newResolver_error_defect cfg.APIs keys hk).1 ⟨e, he⟩
        rw [(newDependencySelector_error_iff cfg.APIs keys e).2 he]
        exact ⟨_, rfl, fun h => absurd h hnil,
          fun _ _ hc hm => by
            rcases hdef with h | h
            · exact absurd h hc
            · exact absurd h hm,
          fun _ _ _ => rfl, fun _ h => absurd hd h, fun _ h => absurd hd h⟩
    · rw [if_neg hd]
      by_cases hw : hasWeight cfg.APIs = true
      · rw [if_pos hw]
        exact ⟨_, rfl, fun h => absurd h hnil, fun _ h => absurd h hd,
          fun _ h => absurd h hd, fun _ _ _ => rfl, fun _ _ h => absurd hw h⟩
      · rw [if_neg hw]
        exact ⟨_, rfl, fun h => absurd h hnil, fun _ h => absurd h hd,
          fun _ h => absurd h hd, fun _ _ h => absurd h hw, fun _ _ _ => rfl⟩

/-- C9 (amended) on the flow `login`, `me`: the Dependency selector. -/
theorem create_selector_rule_witness :
    RangeOrder (mkConfig loginFlow).APIs ["login", "me"]
      ∧ ∃ sel, CreateAPISelector (mkConfig loginFlow) ["login", "me"] = some sel
          ∧ sel.kind = .dependency := by
  refine ⟨by decide, ?_⟩
  obtain ⟨sel, hsel, -⟩ := create_selector_rule (mkConfig loginFlow) ["login", "me"] (by decide)
  refine ⟨sel, hsel, ?_⟩
  have h2 : CreateAPISelector (mkConfig loginFlow) ["login", "me"]
      = some (.dependency loginSelector) := rfl
  rw [h2] at hsel
  cases hsel
  rfl

/-! ### The round-robin selector -/

theorem rrSel_position_eq (s : roundRobinSelector) (h : s.counter < uint64Size) :
    s.position = s.counter % s.apis.length := by
  unfold roundRobinSelector.position
  rw [subUint64_addUint64_one _ h]

theorem rrSel_next_snd (s : roundRobinSelector) (h : s.apis.length ≠ 0) :
    s.Next.2 = { s with counter := addUint64 s.counter 1 } := by
  unfold roundRobinSelector.Next
  rw [if_neg h]

theorem rrSel_next_fst (s : roundRobinSelector) (h : s.apis.length ≠ 0) :
    s.Next.1 = (s.apis[s.position]?).map APIConfig.toRequestConfig := by
  unfold roundRobinSelector.Next
  rw [if_neg h]

theorem rrSel_trace_positions :
    ∀ (n : Nat) (s : roundRobinSelector), s.counter < uint64Size → s.apis.length ≠ 0 →
      (s.trace n).map Prod.fst
        = (List.range n).map (fun i => ((s.counter + i) % uint64Size) % s.apis.length) := by
  intro n
  induction n with
  | zero => intro s _ _; rfl
  | succ n ih =>
    intro s hc hlen
    have hnext := rrSel_next_snd s hlen
    have hc2 : s.Next.2.counter < uint64Size := by rw [hnext]; exact addUint64_lt _ _
    have hlen2 : s.Next.2.apis.length ≠ 0 := by rw [hnext]; exact hlen
    rw [roundRobinSelector.trace, List.map_cons, ih s.Next.2 hc2 hlen2, List.range_succ_eq_map,
      List.map_cons, List.map_map, rrSel_position_eq s hc, Nat.add_zero, Nat.mod_eq_of_lt hc]
    congr 1
    apply List.map_congr_left
    intro i _
    rw [hnext]
    simp only [Function.comp, addUint64, uint64Size]
    congr 1
    omega

theorem rrSel_trace_values :
    ∀ (n : Nat) (s : roundRobinSelector), s.apis.length ≠ 0 →
      ∀ e ∈ s.trace n, e.2 = (s.apis[e.1]?).map APIConfig.toRequestConfig := by
  intro n
  induction n with
  | zero => intro s _ e he; simp [roundRobinSelector.trace] at he
  | succ n ih =>
    intro s hlen e he
    rw [roundRobinSelector.trace, List.mem_cons] at he
    rcases he with he | he
    · rw [he]
      exact rrSel_next_fst s hlen
    · have hnext := rrSel_next_snd s hlen
      have := ih s.Next.2 (by rw [hnext]; exact hlen) e he
      rw [this, hnext]

theorem count_range_mod (K : Nat) (p : Nat) (hp : p < K) (M : Nat) :
    ((List.range (M * K)).map (fun i => i % K)).count p = M := by
  induction M with
  | zero => simp
  | succ M ih =>
    have hblock : ((List.range K).map (fun j => M * K + j)).map (fun i => i % K)
        = List.range K := by
      rw [List.map_map]
      conv_rhs => rw [← List.map_id (List.range K)]
      apply List.map_congr_left
      intro j hj
      have hjK : j < K := List.mem_range.1 hj
      simp only [Function.comp, id]
      rw [Nat.add_comm, Nat.add_mul_mod_self_right, Nat.mod_eq_of_lt hjK]
    rw [Nat.succ_mul, List.range_add, List.map_append, List.count_append, ih, hblock,
      List.count_eq_one_of_mem (List.nodup_range K) (List.mem_range.2 hp)]

/-- C7 as stated fails once the `uint64` counter wraps: for three APIs and
`M = 6148914691236517206`, the first `M · 3 = 2 ^ 64 + 2` calls of `Next` read
the last list position `M - 1` times only. -/
theorem round_robin_counts_counterexample :
    6148914691236517206 * threeAPIs.length = 2 ^ 64 + 2
      ∧ (((NewRoundRobinSelector threeAPIs).trace
            (6148914691236517206 * threeAPIs.length)).map Prod.fst).count 2
          = 6148914691236517205
      ∧ (((NewRoundRobinSelector threeAPIs).trace
            (6148914691236517206 * threeAPIs.length)).map Prod.fst).count 2
          ≠ 6148914691236517206 := by
  suffices hmain : 6148914691236517206 * threeAPIs.length = 2 ^ 64 + 2
      ∧ (((NewRoundRobinSelector threeAPIs).trace
            (6148914691236517206 * threeAPIs.length)).map Prod.fst).count 2
          = 6148914691236517205 by
    refine ⟨hmain.1, hmain.2, ?_⟩
    rw [hmain.2]
    norm_num
  have hlen : threeAPIs.length = 3 := rfl
  have hsel : (NewRoundRobinSelector threeAPIs).apis.length = 3 := rfl
  have hcnt : (NewRoundRobinSelector threeAPIs).counter = 0 := rfl
  refine ⟨by rw [hlen]; norm_num, ?_⟩
  rw [rrSel_trace_positions _ _ (by rw [hcnt]; unfold uint64Size; norm_num)
    (by rw [hsel]; norm_num), hsel, hcnt, hlen]
  have hsplit : 6148914691236517206 * 3 = 6148914691236517205 * 3 + (1 + 2) := by norm_num
  have h64 : uint64Size = 6148914691236517205 * 3 + 1 := by unfold uint64Size; norm_num
  rw [hsplit, List.range_add, List.map_append, List.count_append]
  have hfirst : (List.range (6148914691236517205 * 3)).map
        (fun i => ((0 + i) % uint64Size) % 3)
      = (List.range (6148914691236517205 * 3)).map (fun i => i % 3) := by
    apply List.map_congr_left
    intro i hi
    have hi2 : i < 6148914691236517205 * 3 := List.mem_range.1 hi
    have hlt : i < uint64Size := by rw [h64]; omega
    rw [Nat.zero_add, Nat.mod_eq_of_lt hlt]
  rw [hfirst, count_range_mod 3 2 (by norm_num)]
  have hrest : ((List.range (1 + 2)).map (fun x => 6148914691236517205 * 3 + x)).map
        (fun i => ((0 + i) % uint64Size) % 3) = [0, 0, 1] := by
    unfold uint64Size
    decide
  rw [hrest]
  decide

/-- C7, amended: for every non-empty API list of length `K` and every `M` with
`M · K ≤ 2 ^ 64`, the first `M · K` calls of `Next` on a fresh round-robin
selector read every list position exactly `M` times, and every call returns
the configuration of the API at the position it read. -/
theorem round_robin_visits_each_M_times (apis : List APIConfig) (M : Nat)
    (hK : apis ≠ []) (hM : M * apis.length ≤ uint64Size) :
    (∀ p, p < apis.length →
        (((NewRoundRobinSelector apis).trace (M * apis.length)).map Prod.fst).count p = M)
      ∧ ∀ e ∈ (NewRoundRobinSelector apis).trace (M * apis.length),
          e.1 < apis.length ∧ ∃ api, apis[e.1]? = some api ∧ e.2 = some api.toRequestConfig := by
  have hlen : (NewRoundRobinSelector apis).apis.length ≠ 0 := by
    show apis.length ≠ 0
    exact fun h => hK (List.length_eq_zero.1 h)
  have hpos : 0 < apis.length := Nat.pos_of_ne_zero hlen
  have hcnt : (NewRoundRobinSelector apis).counter < uint64Size := by
    show 0 < uint64Size
    unfold uint64Size; norm_num
  have htr := rrSel_trace_positions (M * apis.length) _ hcnt hlen
  have hmap : (List.range (M * apis.length)).map
        (fun i => (((NewRoundRobinSelector apis).counter + i) % uint64Size)
          % (NewRoundRobinSelector apis).apis.length)
      = (List.range (M * apis.length)).map (fun i => i % apis.length) := by
    apply List.map_congr_left
    intro i hi
    have hi2 : i < M * apis.length := List.mem_range.1 hi
    show ((0 + i) % uint64Size) % apis.length = i % apis.length
    rw [Nat.zero_add, Nat.mod_eq_of_lt (lt_of_lt_of_le hi2 hM)]
  constructor
  · intro p hp
    rw [htr, hmap]
    exact count_range_mod apis.length p hp M
  · intro e he
    have hmem : e.1 ∈ ((NewRoundRobinSelector apis).trace (M * apis.length)).map Prod.fst :=
      List.mem_map_of_mem Prod.fst he
    rw [htr, hmap, List.mem_map] at hmem
    obtain ⟨i, -, hi⟩ := hmem
    have hlt : e.1 < apis.length := by rw [← hi]; exact Nat.mod_lt _ hpos
    refine ⟨hlt, apis[e.1], List.getElem?_eq_getElem hlt, ?_⟩
    have hv := rrSel_trace_values (M * apis.length) _ hlen e he
    rw [hv]
    show (apis[e.1]?).map APIConfig.toRequestConfig = _
    rw [List.getElem?_eq_getElem hlt]
    rfl

/-- C7 (amended) on three APIs and `M = 2`: six calls read each position twice. -/
theorem round_robin_visits_each_M_times_witness :
    ((NewRoundRobinSelector threeAPIs).trace (2 * threeAPIs.length)).map Prod.fst
        = [0, 1, 2, 0, 1, 2]
      ∧ (((NewRoundRobinSelector threeAPIs).trace (2 * threeAPIs.length)).map Prod.fst).count 1
          = 2 :=
  ⟨by decide,
    (round_robin_visits_each_M_times threeAPIs 2 (by decide) (by decide)).1 1 (by decide)⟩

/-! ### The weighted selector -/

theorem wrapInt64_eq (x : Int) (h1 : -2 ^ 63 ≤ x) (h2 : x < 2 ^ 63) : wrapInt64 x = x := by
  unfold wrapInt64
  omega

theorem intSum_nonneg (ws : List Int) (h : ∀ w ∈ ws, 0 < w) : 0 ≤ ws.sum := by
  induction ws with
  | nil => simp
  | cons w ws ih =>
    have hw := h w (List.mem_cons_self _ _)
    have := ih (fun x hx => h x (List.mem_cons_of_mem _ hx))
    rw [List.sum_cons]
    omega

theorem take_sum_nonneg (ws : List Int) (h : ∀ w ∈ ws, 0 < w) (k : Nat) :
    0 ≤ (ws.take k).sum :=
  intSum_nonneg _ (fun x hx => h x (List.mem_of_mem_take hx))

theorem take_sum_succ (ws : List Int) (i : Nat) (w : Int) (h : ws[i]? = some w) :
    (ws.take (i + 1)).sum = (ws.take i).sum + w := by
  induction ws generalizing i with
  | nil => simp at h
  | cons x ws ih =>
    cases i with
    | zero =>
      simp only [List.getElem?_cons_zero, Option.some.injEq] at h
      simp [h]
    | succ i =>
      simp only [List.getElem?_cons_succ] at h
      rw [List.take_succ_cons, List.sum_cons, List.take_succ_cons, List.sum_cons, ih i h]
      omega

theorem take_sum_le (ws : List Int) (h : ∀ w ∈ ws, 0 < w) (k : Nat) :
    (ws.take k).sum ≤ ws.sum := by
  induction ws generalizing k with
  | nil => simp
  | cons x ws ih =>
    cases k with
    | zero =>
      have := intSum_nonneg (x :: ws) h
      simpa using this
    | succ k =>
      have := ih (fun y hy => h y (List.mem_cons_of_mem _ hy)) k
      rw [List.take_succ_cons, List.sum_cons, List.sum_cons]
      omega

theorem foldl_addInt64 (ws : List Int) (a : Int) (h : ∀ w ∈ ws, 0 < w) (ha : 0 ≤ a)
    (hsum : a + ws.sum < 2 ^ 63) : ws.foldl addInt64 a = a + ws.sum := by
  induction ws generalizing a with
  | nil => simp
  | cons w ws ih =>
    have hw := h w (List.mem_cons_self _ _)
    have hrest : ∀ x ∈ ws, 0 < x := fun x hx => h x (List.mem_cons_of_mem _ hx)
    have hs := intSum_nonneg ws hrest
    rw [List.sum_cons] at hsum
    have hadd : addInt64 a w = a + w := wrapInt64_eq _ (by omega) (by omega)
    rw [List.foldl_cons, hadd, ih (a + w) hrest (by omega) (by omega), List.sum_cons]
    omega

theorem weightedPick_iff (r : Int) :
    ∀ (ws : List Int) (sum0 : Int) (i0 j : Nat), (∀ w ∈ ws, 0 < w) → 0 ≤ sum0 →
      sum0 + ws.sum < 2 ^ 63 → sum0 ≤ r →
      (weightedPick r ws sum0 i0 = some j ↔
        ∃ k, k < ws.length ∧ j = i0 + k ∧ sum0 + (ws.take k).sum ≤ r
          ∧ r < sum0 + (ws.take (k + 1)).sum) := by
  intro ws
  induction ws with
  | nil => intro sum0 i0 j _ _ _ _; simp [weightedPick]
  | cons w ws ih =>
    intro sum0 i0 j h h0 hsum hr
    have hw := h w (List.mem_cons_self _ _)
    have hrest : ∀ x ∈ ws, 0 < x := fun x hx => h x (List.mem_cons_of_mem _ hx)
    have hs := intSum_nonneg ws hrest
    rw [List.sum_cons] at hsum
    have hadd : addInt64 sum0 w = sum0 + w := wrapInt64_eq _ (by omega) (by omega)
    rw [weightedPick, hadd]
    by_cases hlt : r < sum0 + w
    · rw [if_pos hlt]
      constructor
      · intro hj
        have : i0 = j := Option.some.inj hj
        exact ⟨0, by simp, by omega, by simpa using hr, by simpa using hlt⟩
      · rintro ⟨k, -, hj, hlo, -⟩
        cases k with
        | zero => rw [hj]; rfl
        | succ k =>
          have := take_sum_nonneg ws hrest k
          rw [List.take_succ_cons, List.sum_cons] at hlo
          omega
    · rw [if_neg hlt, ih (sum0 + w) (i0 + 1) j hrest (by omega) (by omega) (by omega)]
      constructor
      · rintro ⟨k, hk, hj, hlo, hhi⟩
        refine ⟨k + 1, by simpa using hk, by omega, ?_, ?_⟩
        · rw [List.take_succ_cons, List.sum_cons]; omega
        · rw [List.take_succ_cons, List.sum_cons]; omega
      · rintro ⟨k, hk, hj, hlo, hhi⟩
        cases k with
        | zero =>
          exfalso
          simp only [List.take_succ_cons, List.take_zero, List.sum_cons, List.sum_nil] at hhi
          omega
        | succ k =>
          rw [List.take_succ_cons, List.sum_cons] at hlo hhi
          exact ⟨k, by simpa using hk, by omega, by omega, by omega⟩

theorem range_filter_interval (a b : Int) (n : Nat) (ha : 0 ≤ a) (hab : a ≤ b) :
    ((List.range n).filter (fun r : Nat => decide (a ≤ (r : Int) ∧ (r : Int) < b))).length
      = (min b n - min a n).toNat := by
  induction n with
  | zero => simp; omega
  | succ n ih =>
    rw [List.range_succ, List.filter_append, List.length_append, ih]
    by_cases hp : a ≤ (n : Int) ∧ (n : Int) < b
    · have hd : decide (a ≤ (n : Int) ∧ (n : Int) < b) = true := decide_eq_true hp
      simp only [List.filter_cons, List.filter_nil, hd, if_true, List.length_singleton]
      push_cast
      omega
    · have hd : decide (a ≤ (n : Int) ∧ (n : Int) < b) = false := decide_eq_false hp
      simp only [List.filter_cons, List.filter_nil, hd, Bool.false_eq_true, if_false,
        List.length_nil]
      push_cast
      omega

theorem effectiveWeight_pos (api : APIConfig) : 0 < effectiveWeight api := by
  unfold effectiveWeight
  split <;> omega

theorem weights_pos (apis : List APIConfig) : ∀ w ∈ apis.map effectiveWeight, 0 < w := by
  intro w hw
  obtain ⟨a, -, rfl⟩ := List.mem_map.1 hw
  exact effectiveWeight_pos a

theorem cumWeight_eq (apis : List APIConfig) (i : Nat) :
    cumWeight apis i = ((apis.map effectiveWeight).take i).sum := by
  rw [cumWeight, List.map_take]

theorem weightedPick_bracket (apis : List APIConfig)
    (hsum : (apis.map effectiveWeight).sum < 2 ^ 63) (r : Int) (hr : 0 ≤ r) (j : Nat) :
    weightedPick r (apis.map effectiveWeight) 0 0 = some j ↔
      j < apis.length ∧ cumWeight apis j ≤ r ∧ r < cumWeight apis (j + 1) := by
  rw [weightedPick_iff r _ 0 0 j (weights_pos apis) (le_refl _) (by omega) hr]
  simp only [cumWeight_eq, List.length_map, Int.zero_add, Nat.zero_add]
  constructor
  · rintro ⟨k, hk, rfl, hlo, hhi⟩
    exact ⟨hk, hlo, hhi⟩
  · rintro ⟨hk, hlo, hhi⟩
    exact ⟨j, hk, rfl, hlo, hhi⟩

theorem weightedPick_isSome (r : Int) :
    ∀ (ws : List Int) (sum0 : Int) (i0 : Nat), (∀ w ∈ ws, 0 < w) → 0 ≤ sum0 →
      sum0 + ws.sum < 2 ^ 63 → sum0 ≤ r → r < sum0 + ws.sum →
      ∃ j, weightedPick r ws sum0 i0 = some j := by
  intro ws
  induction ws with
  | nil =>
    intro sum0 i0 _ _ _ hlo hr
    rw [List.sum_nil] at hr
    omega
  | cons w ws ih =>
    intro sum0 i0 h h0 hsum hlo hr
    have hw := h w (List.mem_cons_self _ _)
    have hrest : ∀ x ∈ ws, 0 < x := fun x hx => h x (List.mem_cons_of_mem _ hx)
    have hs := intSum_nonneg ws hrest
    rw [List.sum_cons] at hsum hr
    have hadd : addInt64 sum0 w = sum0 + w := wrapInt64_eq _ (by omega) (by omega)
    rw [weightedPick, hadd]
    by_cases hlt : r < sum0 + w
    · exact ⟨i0, by rw [if_pos hlt]⟩
    · rw [if_neg hlt]
      exact ih (sum0 + w) (i0 + 1) hrest (by omega) (by omega) (by omega) (by omega)

/-- C8 as stated fails when the weights overflow Go's `int`: for two APIs of
weight `2 ^ 62` the total kept by the selector is `-2 ^ 63`, so `rand.Intn`
panics and `Next` returns no API, for the draw `0` as for every other. -/
theorem weighted_next_counterexample :
    (0 : Int) < (hugeAPIs.map effectiveWeight).sum
      ∧ (NewWeightedSelector hugeAPIs).total = -9223372036854775808
      ∧ (NewWeightedSelector hugeAPIs).Next 0 = .error "invalid argument to Intn" :=
  ⟨by decide, by decide, rfl⟩

/-- C8, amended: for every API list whose effective weights `w_i` (the weight,
or 1 when the weight is not positive) sum to less than `2 ^ 63`, the selector
keeps the total `Σw`, and for every draw `r` with `0 ≤ r < Σw` the loop of
`Next` stops at the unique index `i` with `w_0+…+w_(i-1) ≤ r < w_0+…+w_i`
(it never falls through to the fallback) and `Next` returns the API at `i`;
hence exactly `w_i` of the `Σw` draws select the API at `i`. -/
theorem weighted_next_selects_by_cumulative (apis : List APIConfig)
    (hsum : (apis.map effectiveWeight).sum < 2 ^ 63) :
    (NewWeightedSelector apis).total = (apis.map effectiveWeight).sum
      ∧ (∀ r : Int, 0 ≤ r → r < (apis.map effectiveWeight).sum →
          ∃ (i : Nat) (api : APIConfig), apis[i]? = some api
            ∧ cumWeight apis i ≤ r ∧ r < cumWeight apis (i + 1)
            ∧ (∀ j, j < apis.length → cumWeight apis j ≤ r → r < cumWeight apis (j + 1) → j = i)
            ∧ weightedPick r (NewWeightedSelector apis).weights 0 0 = some i
            ∧ (NewWeightedSelector apis).Next r = .ok (some api.toRequestConfig))
      ∧ (∀ (i : Nat) (api : APIConfig), apis[i]? = some api →
          ((List.range (apis.map effectiveWeight).sum.toNat).filter
              (fun r : Nat =>
                decide (weightedPick (r : Int) (NewWeightedSelector apis).weights 0 0 = some i))
            ).length = (effectiveWeight api).toNat) := by
  have hpos := weights_pos apis
  have htotal : (NewWeightedSelector apis).total = (apis.map effectiveWeight).sum := by
    show (apis.map effectiveWeight).foldl addInt64 0 = _
    rw [foldl_addInt64 _ 0 hpos (le_refl _) (by omega)]
    omega
  refine ⟨htotal, ?_, ?_⟩
  · intro r hr0 hrS
    obtain ⟨i, hi⟩ :=
      weightedPick_isSome r _ 0 0 hpos (le_refl _) (by omega) hr0 (by omega)
    obtain ⟨hil, hlo, hhi⟩ := (weightedPick_bracket apis hsum r hr0 i).1 hi
    refine ⟨i, apis[i], List.getElem?_eq_getElem hil, hlo, hhi, ?_, hi, ?_⟩
    · intro j hj hjlo hjhi
      have hpj := (weightedPick_bracket apis hsum r hr0 j).2 ⟨hj, hjlo, hjhi⟩
      rw [hi] at hpj
      exact (Option.some.inj hpj).symm
    · unfold weightedSelector.Next
      have hlen : ¬ (NewWeightedSelector apis).apis.length = 0 := by
        show ¬ apis.length = 0
        omega
      have htot : ¬ (NewWeightedSelector apis).total ≤ 0 := by
        rw [htotal]; omega
      rw [if_neg hlen, if_neg htot]
      have hi2 : weightedPick r (NewWeightedSelector apis).weights 0 0 = some i := hi
      rw [hi2]
      show Except.ok ((apis[i]?).map APIConfig.toRequestConfig) = _
      rw [List.getElem?_eq_getElem hil]
      rfl
  · intro i api hapi
    have hil : i < apis.length := (List.getElem?_eq_some.1 hapi).1
    have hw : (apis.map effectiveWeight)[i]? = some (effectiveWeight api) := by
      rw [List.getElem?_map, hapi]; rfl
    have hsucc : cumWeight apis (i + 1) = cumWeight apis i + effectiveWeight api := by
      rw [cumWeight_eq, cumWeight_eq, take_sum_succ _ i _ hw]
    have ha0 : 0 ≤ cumWeight apis i := by
      rw [cumWeight_eq]; exact take_sum_nonneg _ hpos i
    have hbS : cumWeight apis (i + 1) ≤ (apis.map effectiveWeight).sum := by
      rw [cumWeight_eq]; exact take_sum_le _ hpos (i + 1)
    have hwpos := effectiveWeight_pos api
    have hcongr : (List.range (apis.map effectiveWeight).sum.toNat).filter
          (fun r : Nat =>
            decide (weightedPick (r : Int) (NewWeightedSelector apis).weights 0 0 = some i))
        = (List.range (apis.map effectiveWeight).sum.toNat).filter
          (fun r : Nat =>
            decide (cumWeight apis i ≤ (r : Int) ∧ (r : Int) < cumWeight apis (i + 1))) := by
      apply List.filter_congr
      intro r _
      have hb := weightedPick_bracket apis hsum (r : Int) (Int.natCast_nonneg r) i
      have hb2 : weightedPick (r : Int) (NewWeightedSelector apis).weights 0 0 = some i ↔
          cumWeight apis i ≤ (r : Int) ∧ (r : Int) < cumWeight apis (i + 1) :=
        hb.trans ⟨fun h => h.2, fun h => ⟨hil, h⟩⟩
      exact decide_eq_decide.2 hb2
    rw [hcongr, range_filter_interval _ _ _ ha0 (by omega)]
    omega

/-- C8 (amended) on the weights 1 and 3: the total is 4, the draw 2 selects the
second API, and three of the four draws select it. -/
theorem weighted_next_selects_by_cumulative_witness :
    (oneThreeAPIs.map effectiveWeight).sum = 4
      ∧ (NewWeightedSelector oneThreeAPIs).total = (oneThreeAPIs.map effectiveWeight).sum
      ∧ (NewWeightedSelector oneThreeAPIs).Next 2 = .ok (some (mkWeighted "b" 3).toRequestConfig)
      ∧ ((List.range (oneThreeAPIs.map effectiveWeight).sum.toNat).filter
            (fun r : Nat =>
              decide (weightedPick (r : Int) (NewWeightedSelector oneThreeAPIs).weights 0 0
                = some 1))).length = (effectiveWeight (mkWeighted "b" 3)).toNat :=
  ⟨by decide,
    (weighted_next_selects_by_cumulative oneThreeAPIs (by decide)).1,
    rfl,
    (weighted_next_selects_by_cumulative oneThreeAPIs (by decide)).2.2 1 (mkWeighted "b" 3) rfl⟩

/-! ### Substitution of placeholders -/

theorem replaceAllAux_of_not_contains (old new : List Char) :
    ∀ s : List Char, (s.tails.any (fun t => old.isPrefixOf t)) = false →
      replaceAllAux old new 0 s = s := by
  intro s
  induction s with
  | nil => intro _; rfl
  | cons c cs ih =>
    intro h
    rw [List.tails, List.any_cons, Bool.or_eq_false_iff] at h
    rw [replaceAllAux, h.1, if_neg Bool.false_ne_true, ih h.2]

theorem stringsReplaceAll_of_not_contains (s old new : String)
    (h : stringsContains s old = false) : stringsReplaceAll s old new = s := by
  unfold stringsContains at h
  unfold stringsReplaceAll
  have hne : old.data ≠ [] := by
    intro hnil
    rw [hnil] at h
    cases hs : s.data with
    | nil => rw [hs] at h; simp [List.tails] at h
    | cons c cs => rw [hs] at h; simp [List.tails] at h
  rw [if_neg hne, replaceAllAux_of_not_contains _ _ _ h]

theorem replaceVars_of_not_contains (s : String) (vars : List (String × String))
    (h : ∀ kv ∈ vars, stringsContains s (placeholder kv.1) = false) :
    replaceVars s vars = s := by
  induction vars with
  | nil => rfl
  | cons kv vars ih =>
    unfold replaceVars at ih ⊢
    rw [List.foldl_cons,
      stringsReplaceAll_of_not_contains _ _ _ (h kv (List.mem_cons_self _ _))]
    exact ih (fun x hx => h x (List.mem_cons_of_mem _ hx))

/-- C10 as stated fails: with the single binding of `a.v` to a value that
contains the placeholder of `a.v`, a second substitution changes the text
again. -/
theorem replaceVars_idempotent_counterexample :
    replaceVars (placeholder "a.v") selfVars = "<" ++ placeholder "a.v" ++ ">"
      ∧ replaceVars (replaceVars (placeholder "a.v") selfVars) selfVars
          = "<<" ++ placeholder "a.v" ++ ">>"
      ∧ replaceVars (replaceVars (placeholder "a.v") selfVars) selfVars
          ≠ replaceVars (placeholder "a.v") selfVars :=
  ⟨by decide, by decide, by decide⟩

/-- C10, amended: substitution is idempotent on every text whose substitution
leaves no placeholder of a bound key: if `replaceVars t v` contains no
placeholder of a key of `v`, a second substitution with the same bindings, in
whatever order the map is walked, returns `replaceVars t v` unchanged. -/
theorem replaceVars_idempotent_of_no_placeholder (t : String)
    (vars vars2 : List (String × String)) (hperm : vars2.Perm vars)
    (h : ∀ kv ∈ vars, stringsContains (replaceVars t vars) (placeholder kv.1) = false) :
    replaceVars (replaceVars t vars) vars2 = replaceVars t vars :=
  replaceVars_of_not_contains _ _ (fun kv hkv => h kv (hperm.mem_iff.1 hkv))

/-- C10 (amended) on the header of the dependent flow of the specification. -/
theorem replaceVars_idempotent_of_no_placeholder_witness :
    replaceVars ("Bearer " ++ placeholder "login.token") tokenVars = "Bearer T"
      ∧ replaceVars (replaceVars ("Bearer " ++ placeholder "login.token") tokenVars) tokenVars
          = replaceVars ("Bearer " ++ placeholder "login.token") tokenVars :=
  ⟨by decide,
    replaceVars_idempotent_of_no_placeholder ("Bearer " ++ placeholder "login.token")
      tokenVars tokenVars (List.Perm.refl _) (by decide)⟩

/-! ### The status-code histogram -/

theorem histogramTotal_cons (kv : Int × Nat) (m : List (Int × Nat)) :
    histogramTotal (kv :: m) = kv.2 + histogramTotal m := by
  simp [histogramTotal]

theorem histogramTotal_mapIncr_mod (m : List (Int × Nat)) (k : Int) :
    histogramTotal (mapIncr m k) % uint64Size = (histogramTotal m + 1) % uint64Size := by
  induction m with
  | nil => simp [mapIncr, histogramTotal]
  | cons kv m ih =>
    obtain ⟨k0, v⟩ := kv
    rw [mapIncr]
    by_cases hk : k0 = k
    · rw [if_pos hk, histogramTotal_cons, histogramTotal_cons]
      simp only [addUint64, uint64Size]
      omega
    · rw [if_neg hk, histogramTotal_cons, histogramTotal_cons]
      simp only [uint64Size] at ih ⊢
      omega

theorem histogramTotal_mapIncr (m : List (Int × Nat)) (k : Int)
    (h : histogramTotal m + 1 < uint64Size) :
    histogramTotal (mapIncr m k) = histogramTotal m + 1 := by
  induction m with
  | nil => simp [mapIncr, histogramTotal]
  | cons kv m ih =>
    obtain ⟨k0, v⟩ := kv
    rw [histogramTotal_cons] at h
    rw [mapIncr]
    by_cases hk : k0 = k
    · rw [if_pos hk, histogramTotal_cons, histogramTotal_cons]
      simp only [addUint64, uint64Size] at h ⊢
      omega
    · rw [if_neg hk, histogramTotal_cons, histogramTotal_cons, ih (by simp only at h ⊢; omega)]
      simp only
      omega

theorem collect_statusCodes (c : Collector) (r : RequestResult) :
    (c.Collect r).statusCodes
      = if r.StatusCode > 0 then mapIncr c.statusCodes r.StatusCode else c.statusCodes :=
  rfl

theorem length_filter_snoc_pos (rs : List RequestResult) (r : RequestResult) :
    ((rs ++ [r]).filter (fun x => decide (x.StatusCode > 0))).length
      = (rs.filter (fun x => decide (x.StatusCode > 0))).length
        + (if r.StatusCode > 0 then 1 else 0) := by
  rw [List.filter_append, List.length_append]
  by_cases h : r.StatusCode > 0 <;> simp [List.filter_cons, h]

theorem collectAll_statusCodes_mod (rs : List RequestResult) :
    histogramTotal (collectAll rs).statusCodes % uint64Size
      = (rs.filter (fun x => decide (x.StatusCode > 0))).length % uint64Size := by
  induction rs using List.reverseRecOn with
  | nil => rfl
  | append_singleton rs r ih =>
    rw [collectAll_snoc, collect_statusCodes, length_filter_snoc_pos]
    by_cases h : r.StatusCode > 0
    · rw [if_pos h, if_pos h, histogramTotal_mapIncr_mod]
      simp only [uint64Size] at ih ⊢
      omega
    · rw [if_neg h, if_neg h, ih]
      rfl

theorem collectAll_statusCodes_exact (rs : List RequestResult) (hlen : rs.length < uint64Size) :
    histogramTotal (collectAll rs).statusCodes
      = (rs.filter (fun x => decide (x.StatusCode > 0))).length := by
  induction rs using List.reverseRecOn with
  | nil => rfl
  | append_singleton rs r ih =>
    have hlen2 : rs.length + 1 < uint64Size := by simpa using hlen
    have ih2 := ih (by omega)
    have hle := List.length_filter_le (fun x : RequestResult => decide (x.StatusCode > 0)) rs
    rw [collectAll_snoc, collect_statusCodes, length_filter_snoc_pos]
    by_cases h : r.StatusCode > 0
    · rw [if_pos h, if_pos h, histogramTotal_mapIncr _ _ (by omega), ih2]
    · rw [if_neg h, if_neg h, ih2]
      rfl

theorem filter_nonzero_eq_pos (rs : List RequestResult) (hcodes : ∀ r ∈ rs, 0 ≤ r.StatusCode) :
    rs.filter (fun x => decide (x.StatusCode ≠ 0))
      = rs.filter (fun x => decide (x.StatusCode > 0)) := by
  apply List.filter_congr
  intro r hr
  have := hcodes r hr
  by_cases h : r.StatusCode > 0
  · have h2 : r.StatusCode ≠ 0 := by omega
    simp [h, h2]
  · have h2 : r.StatusCode = 0 := by omega
    simp [h2]

/-- C11: for every sequence of results collected on a fresh collector, the
counts of the status-code histogram (`GetStatusCodes`, `Report.StatusCodes`) sum
to the number of collected results whose status code is non-zero: as `uint64`
counts (modulo `2 ^ 64`) for every sequence, and exactly while fewer than
`2 ^ 64` results were collected.  The status code of a result is the HTTP
status code of the response or 0, never a negative number: `BuildRequestResult`,
which builds every result that is collected, copies it from the response or
leaves it 0. -/
theorem status_codes_sum_nonzero (rs : List RequestResult) (totalTime : Int)
    (hcodes : ∀ r ∈ rs, 0 ≤ r.StatusCode) :
    (histogramTotal (collectAll rs).GetStatusCodes % uint64Size
        = (rs.filter (fun x => decide (x.StatusCode ≠ 0))).length % uint64Size
      ∧ histogramTotal ((collectAll rs).GenerateReport totalTime).1.StatusCodes % uint64Size
        = (rs.filter (fun x => decide (x.StatusCode ≠ 0))).length % uint64Size)
    ∧ (rs.length < uint64Size →
        histogramTotal (collectAll rs).GetStatusCodes
          = (rs.filter (fun x => decide (x.StatusCode ≠ 0))).length
        ∧ histogramTotal ((collectAll rs).GenerateReport totalTime).1.StatusCodes
          = (rs.filter (fun x => decide (x.StatusCode ≠ 0))).length)
    ∧ (∀ (resp : Option Response) (err : Option String),
        (∀ r, resp = some r → 0 ≤ r.StatusCode) →
        0 ≤ (BuildRequestResult resp err).StatusCode) := by
  have hmod := collectAll_statusCodes_mod rs
  rw [← filter_nonzero_eq_pos rs hcodes] at hmod
  refine ⟨⟨hmod, hmod⟩, fun hlen => ?_, fun resp err hresp => ?_⟩
  · have hex := collectAll_statusCodes_exact rs hlen
    rw [← filter_nonzero_eq_pos rs hcodes] at hex
    exact ⟨hex, hex⟩
  · cases resp with
    | none => exact Int.le_refl 0
    | some r => exact hresp r rfl

/-- C11 on three results with the status codes 200, 500 and 200. -/
theorem status_codes_sum_nonzero_witness :
    (collectAll threeResults).GetStatusCodes = [(200, 2), (500, 1)]
      ∧ histogramTotal (collectAll threeResults).GetStatusCodes
          = (threeResults.filter (fun x => decide (x.StatusCode ≠ 0))).length :=
  ⟨by decide, ((status_codes_sum_nonzero threeResults 0 (by decide)).2.1 (by decide)).1⟩

/-! ### Percentiles of the report -/

theorem collectAll_durations (rs : List RequestResult) :
    (collectAll rs).durations = rs.map (fun r => r.Duration) := by
  induction rs using List.reverseRecOn with
  | nil => rfl
  | append_singleton rs r ih =>
    rw [collectAll_snoc]
    show (collectAll rs).durations ++ [r.Duration] = _
    rw [ih, List.map_append]
    rfl

theorem collectAll_min_max (rs : List RequestResult) :
    ∀ d ∈ (collectAll rs).durations,
      (collectAll rs).minDuration ≤ d ∧ d ≤ (collectAll rs).maxDuration := by
  induction rs using List.reverseRecOn with
  | nil => intro d hd; simp [collectAll, NewCollector] at hd
  | append_singleton rs r ih =>
    rw [collectAll_snoc]
    intro d hd
    have hd2 : d ∈ (collectAll rs).durations ++ [r.Duration] := hd
    show (if r.Duration < (collectAll rs).minDuration then r.Duration
        else (collectAll rs).minDuration) ≤ d
      ∧ d ≤ (if r.Duration > (collectAll rs).maxDuration then r.Duration
        else (collectAll rs).maxDuration)
    rcases List.mem_append.1 hd2 with h | h
    · have := ih d h
      constructor <;> split <;> omega
    · have hdr : d = r.Duration := by simpa using h
      subst hdr
      constructor <;> split <;> omega

theorem sorted_getD_le (l : List Int) (hs : l.Sorted (fun a b => a ≤ b)) (i j : Nat)
    (hij : i ≤ j) (hj : j < l.length) : l.getD i 0 ≤ l.getD j 0 := by
  have hi : i < l.length := lt_of_le_of_lt hij hj
  rw [List.getD_eq_getElem _ _ hi, List.getD_eq_getElem _ _ hj]
  rcases Nat.lt_or_eq_of_le hij with h | h
  · exact (List.pairwise_iff_getElem.1 hs) i j hi hj h
  · subst h
    exact le_refl _

theorem percentile_index_lt (n h : Nat) (hn : 0 < n) (hh : h ≤ 100) :
    (n - 1) * h / 100 < n := by
  have h1 : (n - 1) * h ≤ (n - 1) * 100 := Nat.mul_le_mul_left _ hh
  have h2 : (n - 1) * h / 100 ≤ n - 1 := by
    calc (n - 1) * h / 100 ≤ (n - 1) * 100 / 100 := Nat.div_le_div_right h1
      _ = n - 1 := Nat.mul_div_cancel _ (by norm_num)
  omega

theorem percentile_index_mono (n h1 h2 : Nat) (h : h1 ≤ h2) :
    (n - 1) * h1 / 100 ≤ (n - 1) * h2 / 100 :=
  Nat.div_le_div_right (Nat.mul_le_mul_left _ h)

/-- C12: for every non-empty sequence of collected results and every
`totalTime`, the report of `GenerateReport` satisfies
`MinDuration ≤ P50 ≤ P90 ≤ P95 ≤ P99 ≤ MaxDuration`, each percentile being the
element at index `⌊(n-1)·p⌋` of the `n` recorded durations sorted ascending. -/
theorem report_percentiles_ordered (rs : List RequestResult) (totalTime : Int)
    (hne : rs ≠ []) :
    (((collectAll rs).GenerateReport totalTime).1.P50
        = ((rs.map (fun r => r.Duration)).insertionSort (fun a b => a ≤ b)).getD
            ((rs.length - 1) * 50 / 100) 0
      ∧ ((collectAll rs).GenerateReport totalTime).1.P90
        = ((rs.map (fun r => r.Duration)).insertionSort (fun a b => a ≤ b)).getD
            ((rs.length - 1) * 90 / 100) 0
      ∧ ((collectAll rs).GenerateReport totalTime).1.P95
        = ((rs.map (fun r => r.Duration)).insertionSort (fun a b => a ≤ b)).getD
            ((rs.length - 1) * 95 / 100) 0
      ∧ ((collectAll rs).GenerateReport totalTime).1.P99
        = ((rs.map (fun r => r.Duration)).insertionSort (fun a b => a ≤ b)).getD
            ((rs.length - 1) * 99 / 100) 0)
    ∧ ((rs.map (fun r => r.Duration)).insertionSort (fun a b => a ≤ b)).Sorted
        (fun a b => a ≤ b)
    ∧ ((rs.map (fun r => r.Duration)).insertionSort (fun a b => a ≤ b)).Perm
        (rs.map (fun r => r.Duration))
    ∧ ((collectAll rs).GenerateReport totalTime).1.MinDuration
        ≤ ((collectAll rs).GenerateReport totalTime).1.P50
    ∧ ((collectAll rs).GenerateReport totalTime).1.P50
        ≤ ((collectAll rs).GenerateReport totalTime).1.P90
    ∧ ((collectAll rs).GenerateReport totalTime).1.P90
        ≤ ((collectAll rs).GenerateReport totalTime).1.P95
    ∧ ((collectAll rs).GenerateReport totalTime).1.P95
        ≤ ((collectAll rs).GenerateReport totalTime).1.P99
    ∧ ((collectAll rs).GenerateReport totalTime).1.P99
        ≤ ((collectAll rs).GenerateReport totalTime).1.MaxDuration := by
  have hsorted := List.sorted_insertionSort (fun a b : Int => a ≤ b)
    (rs.map (fun r => r.Duration))
  have hperm := List.perm_insertionSort (fun a b : Int => a ≤ b)
    (rs.map (fun r => r.Duration))
  have hlen : ((rs.map (fun r => r.Duration)).insertionSort (fun a b => a ≤ b)).length
      = rs.length := by rw [hperm.length_eq, List.length_map]
  have hpos : 0 < rs.length := List.length_pos.2 hne
  -- the value of a percentile field
  have hP : ∀ h : Nat,
      (if ((collectAll rs).durations.insertionSort (fun a b => a ≤ b)).length > 0 then
        Collector.percentile
          { collectAll rs with
            durations := (collectAll rs).durations.insertionSort (fun a b => a ≤ b) } h
        else 0)
      = ((rs.map (fun r => r.Duration)).insertionSort (fun a b => a ≤ b)).getD
          ((rs.length - 1) * h / 100) 0 := by
    intro h
    rw [collectAll_durations, hlen, if_pos hpos]
    unfold Collector.percentile
    simp only [hlen]
    rw [if_neg (by omega)]
  have h50 := hP 50
  have h90 := hP 90
  have h95 := hP 95
  have h99 := hP 99
  have hidx : ∀ h : Nat, h ≤ 100 → (rs.length - 1) * h / 100
      < ((rs.map (fun r => r.Duration)).insertionSort (fun a b => a ≤ b)).length := by
    intro h hh
    rw [hlen]
    exact percentile_index_lt _ _ hpos hh
  have hmem : ∀ h : Nat, h ≤ 100 →
      ((rs.map (fun r => r.Duration)).insertionSort (fun a b => a ≤ b)).getD
          ((rs.length - 1) * h / 100) 0 ∈ (collectAll rs).durations := by
    intro h hh
    rw [collectAll_durations, ← hperm.mem_iff, List.getD_eq_getElem _ _ (hidx h hh)]
    exact List.getElem_mem _
  have hmm := collectAll_min_max rs
  refine ⟨⟨h50, h90, h95, h99⟩, hsorted, hperm, ?_, ?_, ?_, ?_, ?_⟩
  · show (collectAll rs).minDuration ≤ _
    rw [show ((collectAll rs).GenerateReport totalTime).1.P50 = _ from h50]
    exact (hmm _ (hmem 50 (by norm_num))).1
  · rw [show ((collectAll rs).GenerateReport totalTime).1.P50 = _ from h50,
      show ((collectAll rs).GenerateReport totalTime).1.P90 = _ from h90]
    exact sorted_getD_le _ hsorted _ _ (percentile_index_mono _ _ _ (by norm_num))
      (hidx 90 (by norm_num))
  · rw [show ((collectAll rs).GenerateReport totalTime).1.P90 = _ from h90,
      show ((collectAll rs).GenerateReport totalTime).1.P95 = _ from h95]
    exact sorted_getD_le _ hsorted _ _ (percentile_index_mono _ _ _ (by norm_num))
      (hidx 95 (by norm_num))
  · rw [show ((collectAll rs).GenerateReport totalTime).1.P95 = _ from h95,
      show ((collectAll rs).GenerateReport totalTime).1.P99 = _ from h99]
    exact sorted_getD_le _ hsorted _ _ (percentile_index_mono _ _ _ (by norm_num))
      (hidx 99 (by norm_num))
  · show _ ≤ (collectAll rs).maxDuration
    rw [show ((collectAll rs).GenerateReport totalTime).1.P99 = _ from h99]
    exact (hmm _ (hmem 99 (by norm_num))).2

/-- C12 on three results with durations of 9, 5 and 2 milliseconds. -/
theorem report_percentiles_ordered_witness :
    ((collectAll threeResults).GenerateReport 0).1.MinDuration = 2000000
      ∧ ((collectAll threeResults).GenerateReport 0).1.P50 = 5000000
      ∧ ((collectAll threeResults).GenerateReport 0).1.P99 = 5000000
      ∧ ((collectAll threeResults).GenerateReport 0).1.MaxDuration = 9000000
      ∧ ((collectAll threeResults).GenerateReport 0).1.MinDuration
          ≤ ((collectAll threeResults).GenerateReport 0).1.P50 :=
  ⟨by decide, by decide, by decide, by decide,
    (report_percentiles_ordered threeResults 0 (by decide)).2.2.2.1⟩

/-! ### The retained detail log -/

theorem collect_requestDetails (c : Collector) (r : RequestResult) :
    (c.Collect r).requestDetails
      = (if c.requestDetails.length ≥ c.maxDetails then c.requestDetails.drop 1000
          else c.requestDetails) ++ [detailOf (addUint64 c.totalRequests 1) r] :=
  rfl

theorem collectAll_maxDetails (rs : List RequestResult) : (collectAll rs).maxDetails = 10000 := by
  induction rs using List.reverseRecOn with
  | nil => rfl
  | append_singleton rs r ih =>
    rw [collectAll_snoc]
    exact ih

theorem collectAll_details_le (rs : List RequestResult) :
    (collectAll rs).requestDetails.length ≤ 10000 := by
  induction rs using List.reverseRecOn with
  | nil => simp [collectAll, NewCollector]
  | append_singleton rs r ih =>
    rw [collectAll_snoc, collect_requestDetails, collectAll_maxDetails, List.length_append,
      List.length_singleton]
    split
    · rw [List.length_drop]
      omega
    · omega

theorem detailsFrom_snoc (i : Nat) (rs : List RequestResult) (r : RequestResult) :
    detailsFrom i (rs ++ [r])
      = detailsFrom i rs ++ [detailOf ((i + rs.length + 1) % uint64Size) r] := by
  induction rs generalizing i with
  | nil => rfl
  | cons x rs ih =>
    rw [List.cons_append, detailsFrom, detailsFrom, ih (i + 1), List.cons_append,
      List.length_cons]
    have : i + 1 + rs.length + 1 = i + (rs.length + 1) + 1 := by omega
    rw [this]

theorem detailsFrom_length (i : Nat) (rs : List RequestResult) :
    (detailsFrom i rs).length = rs.length := by
  induction rs generalizing i with
  | nil => rfl
  | cons x rs ih => simp [detailsFrom, ih]

theorem collectAll_details_suffix (rs : List RequestResult) :
    ∃ k, k ≤ rs.length ∧ (collectAll rs).requestDetails = (detailsFrom 0 rs).drop k := by
  induction rs using List.reverseRecOn with
  | nil => exact ⟨0, le_refl _, rfl⟩
  | append_singleton rs r ih =>
    obtain ⟨k, hk, hdet⟩ := ih
    have hlen : (collectAll rs).requestDetails.length = rs.length - k := by
      rw [hdet, List.length_drop, detailsFrom_length]
    have hid : addUint64 (collectAll rs).totalRequests 1 = (0 + rs.length + 1) % uint64Size := by
      rw [collectAll_total]
      simp only [addUint64, uint64Size]
      omega
    rw [collectAll_snoc, collect_requestDetails, collectAll_maxDetails, detailsFrom_snoc, hid]
    by_cases hfull : (collectAll rs).requestDetails.length ≥ 10000
    · rw [if_pos hfull, hdet, List.drop_drop]
      have hk2 : 1000 + k ≤ (detailsFrom 0 rs).length := by
        rw [detailsFrom_length]; omega
      refine ⟨1000 + k, by rw [List.length_append, List.length_singleton]; omega, ?_⟩
      rw [List.drop_append_of_le_length hk2, Nat.add_comm k 1000]
    · rw [if_neg hfull, hdet]
      have hk2 : k ≤ (detailsFrom 0 rs).length := by
        rw [detailsFrom_length]; exact hk
      refine ⟨k, by rw [List.length_append, List.length_singleton]; omega, ?_⟩
      rw [List.drop_append_of_le_length hk2]

/-- C13: for every sequence of `Collect` calls on a fresh collector the retained
detail log never holds more than 10 000 entries; when it holds 10 000, the next
`Collect` drops the oldest 1 000 and appends the new entry; and the log is
always a final segment of the details of all results in arrival order. -/
theorem detail_log_bounded (rs : List RequestResult) (r : RequestResult) :
    (collectAll rs).requestDetails.length ≤ 10000
      ∧ ((collectAll rs).requestDetails.length = 10000 →
          ((collectAll rs).Collect r).requestDetails
              = (collectAll rs).requestDetails.drop 1000
                ++ [detailOf ((rs.length + 1) % uint64Size) r]
            ∧ ((collectAll rs).Collect r).requestDetails.length = 9001)
      ∧ ((collectAll rs).requestDetails.length < 10000 →
          ((collectAll rs).Collect r).requestDetails
              = (collectAll rs).requestDetails ++ [detailOf ((rs.length + 1) % uint64Size) r])
      ∧ ∃ k, k ≤ rs.length ∧ (collectAll rs).requestDetails = (detailsFrom 0 rs).drop k := by
  have hid : addUint64 (collectAll rs).totalRequests 1 = (rs.length + 1) % uint64Size := by
    rw [collectAll_total]
    simp only [addUint64, uint64Size]
    omega
  refine ⟨collectAll_details_le rs, fun hfull => ?_, fun hlt => ?_,
    collectAll_details_suffix rs⟩
  · have heq : ((collectAll rs).Collect r).requestDetails
        = (collectAll rs).requestDetails.drop 1000
          ++ [detailOf ((rs.length + 1) % uint64Size) r] := by
      rw [collect_requestDetails, collectAll_maxDetails, if_pos (by omega), hid]
    refine ⟨heq, ?_⟩
    rw [heq, List.length_append, List.length_drop, hfull]
    rfl
  · rw [collect_requestDetails, collectAll_maxDetails, if_neg (by omega), hid]

/-- C13 on three results: the log holds their three details in arrival order. -/
theorem detail_log_bounded_witness :
    (collectAll threeResults).requestDetails = detailsFrom 0 threeResults
      ∧ ((collectAll threeResults).Collect (mkResult true 200 1)).requestDetails
          = (collectAll threeResults).requestDetails
            ++ [detailOf ((threeResults.length + 1) % uint64Size) (mkResult true 200 1)] :=
  ⟨by decide,
    (detail_log_bounded threeResults (mkResult true 200 1)).2.2.1 (by decide)⟩

/-! ### `GenerateReport` and the recorded durations -/

/-- C14 fails on the code: `GenerateReport` sorts `c.durations` itself, not a
copy.  After three results with durations of 9, 5 and 2 milliseconds the
collector holds the durations in ascending order, and the recent durations
read by the realtime server are no longer in arrival order. -/
theorem generate_report_sorts_in_place :
    (collectAll threeResults).durations = [9000000, 5000000, 2000000]
      ∧ ((collectAll threeResults).GenerateReport 0).2.durations
          = [2000000, 5000000, 9000000]
      ∧ ((collectAll threeResults).GenerateReport 0).2.durations
          ≠ (collectAll threeResults).durations
      ∧ recentDurations (collectAll threeResults) = [9, 5, 2]
      ∧ recentDurations ((collectAll threeResults).GenerateReport 0).2 = [2, 5, 9] :=
  ⟨by decide, by decide, by decide, by decide, by decide⟩

/-! ### Paging through the detail log -/

theorem filteredDetails_length (c : Collector) (onlyErrors : Bool) :
    (c.filteredDetails onlyErrors).length = c.GetRequestDetailsCount onlyErrors := by
  unfold Collector.filteredDetails Collector.GetRequestDetailsCount
  cases onlyErrors
  · simp
  · simp only [if_true, Bool.not_true, Bool.false_eq_true, if_false]
    rw [List.filter_reverse, List.length_reverse]

/-- C15 as stated fails when `offset + limit` overflows Go's `int`: with three
retained details, `offset = 1` and `limit = 2 ^ 63 - 1` the upper bound `end`
is negative and the slice expression panics. -/
theorem get_request_details_counterexample :
    (collectAll threeResults).GetRequestDetailsCount false = 3
      ∧ (collectAll threeResults).GetRequestDetails 1 9223372036854775807 false = none :=
  ⟨by decide, by decide⟩

/-- C15, amended: for every collector state, either value of `onlyErrors` and
all `offset ≥ 0` and `limit ≥ 0` with `offset + limit < 2 ^ 63`,
`GetRequestDetails` returns the entries at the positions
`offset … min(offset+limit, m) - 1` of the list `L` of the retained details
from the newest to the oldest (the failed ones only when `onlyErrors` is set),
where `m` is the length of `L`; it returns the empty list when `offset ≥ m`,
and `m` is the value of `GetRequestDetailsCount(onlyErrors)`. -/
theorem get_request_details_page (c : Collector) (offset limit : Int) (onlyErrors : Bool)
    (ho : 0 ≤ offset) (hl : 0 ≤ limit) (hsum : offset + limit < 2 ^ 63) :
    c.GetRequestDetails offset limit onlyErrors
        = some (((c.filteredDetails onlyErrors).take
            (min (offset + limit) (c.filteredDetails onlyErrors).length).toNat).drop
              offset.toNat)
      ∧ (offset ≥ (c.filteredDetails onlyErrors).length →
          c.GetRequestDetails offset limit onlyErrors = some [])
      ∧ (c.filteredDetails onlyErrors).length = c.GetRequestDetailsCount onlyErrors
      ∧ c.filteredDetails onlyErrors
          = (if onlyErrors then c.requestDetails.reverse.filter (fun d => !d.Success)
              else c.requestDetails.reverse) := by
  refine ⟨?_, ?_, filteredDetails_length c onlyErrors, rfl⟩
  · unfold Collector.GetRequestDetails
    simp only
    by_cases hge : offset ≥ (c.filteredDetails onlyErrors).length
    · rw [if_pos hge]
      congr 1
      symm
      apply List.drop_eq_nil_of_le
      rw [List.length_take]
      omega
    · rw [if_neg hge]
      have hadd : addInt64 offset limit = offset + limit := wrapInt64_eq _ (by omega) hsum
      rw [hadd]
      unfold goSlice
      by_cases hgt : offset + limit > (c.filteredDetails onlyErrors).length
      · rw [if_pos hgt, if_pos ⟨ho, by omega, le_refl _⟩]
        congr 3
        omega
      · rw [if_neg hgt, if_pos ⟨ho, by omega, by omega⟩]
        congr 3
        omega
  · intro hge
    unfold Collector.GetRequestDetails
    simp only
    rw [if_pos hge]

/-- C15 (amended) on three results, the second of which failed. -/
theorem get_request_details_page_witness :
    (collectAll threeResults).GetRequestDetails 1 5 false
        = some [detailOf 2 (mkResult false 500 5000000), detailOf 1 (mkResult true 200 9000000)]
      ∧ (collectAll threeResults).GetRequestDetails 0 5 true
        = some [detailOf 2 (mkResult false 500 5000000)]
      ∧ (collectAll threeResults).GetRequestDetails 1 5 false
        = some ((((collectAll threeResults).filteredDetails false).take
            (min ((1 : Int) + 5)
              ((collectAll threeResults).filteredDetails false).length).toNat).drop
                (1 : Int).toNat) :=
  ⟨by decide, by decide,
    (get_request_details_page (collectAll threeResults) 1 5 false (by decide) (by decide)
      (by decide)).1⟩

/-! ### Verifiers -/

theorem verifyStatusCode_resp {J : Type} (env : VerifyEnv J) (v : HTTPVerifier)
    (resp : Response) :
    ∃ result : VerificationResult,
      (v.verifyStatusCode env resp).resp
          = { resp with Verifications := resp.Verifications ++ [result] }
        ∧ result.Success = (v.verifyStatusCode env resp).ok
        ∧ (v.verifyStatusCode env resp).ok
          = decide (ExpectValue.int resp.StatusCode
              = (if v.config.Expect = ExpectValue.int 0 then ExpectValue.int 200
                  else v.config.Expect)) := by
  unfold HTTPVerifier.verifyStatusCode
  simp only
  cases hd : decide (ExpectValue.int resp.StatusCode
      = (if v.config.Expect = ExpectValue.int 0 then ExpectValue.int 200
          else v.config.Expect))
  · simp only [Bool.not_false, if_true]
    exact ⟨_, rfl, rfl, trivial⟩
  · simp only [Bool.not_true, Bool.false_eq_true, if_false]
    exact ⟨_, rfl, rfl, trivial⟩

theorem verifyStatusCode_length {J : Type} (env : VerifyEnv J) (v : HTTPVerifier)
    (resp : Response) :
    (v.verifyStatusCode env resp).resp.Verifications.length
      = resp.Verifications.length + 1 := by
  obtain ⟨result, hresp, -, -⟩ := verifyStatusCode_resp env v resp
  rw [hresp]
  simp

theorem verifyJSONPath_length {J : Type} (env : VerifyEnv J) (v : HTTPVerifier)
    (resp : Response) :
    (v.verifyJSONPath env resp).resp.Verifications.length
      = resp.Verifications.length
        + (if (v.verifyStatusCode env resp).ok then 2 else 1) := by
  have hst := verifyStatusCode_length env v resp
  unfold HTTPVerifier.verifyJSONPath
  simp only
  cases hok : (v.verifyStatusCode env resp).ok
  · simp only [Bool.not_false, if_true, Bool.false_eq_true, if_false]
    exact hst
  · simp only [Bool.not_true, Bool.false_eq_true, if_false, if_true]
    cases env.unmarshal (v.verifyStatusCode env resp).resp.Body with
    | error e => simp only [List.length_append, List.length_singleton, hst]
    | ok data =>
      simp only
      cases env.lookup data v.config.JSONPath with
      | error e => simp only [List.length_append, List.length_singleton, hst]
      | ok value => simp only [List.length_append, List.length_singleton, hst]

theorem verifyContains_length {J : Type} (env : VerifyEnv J) (v : HTTPVerifier)
    (resp : Response) :
    (v.verifyContains env resp).resp.Verifications.length
      = resp.Verifications.length
        + (if (v.verifyStatusCode env resp).ok then 2 else 1) := by
  have hst := verifyStatusCode_length env v resp
  unfold HTTPVerifier.verifyContains
  simp only
  cases hok : (v.verifyStatusCode env resp).ok
  · simp only [Bool.not_false, if_true, Bool.false_eq_true, if_false]
    exact hst
  · simp only [Bool.not_true, Bool.false_eq_true, if_false, if_true]
    cases v.config.Expect with
    | str s =>
      simp only
      split <;> simp only [List.length_append, List.length_singleton, hst]
    | null => simp only [List.length_append, List.length_singleton, hst]
    | int n => simp only [List.length_append, List.length_singleton, hst]
    | float64 x => simp only [List.length_append, List.length_singleton, hst]
    | bool b => simp only [List.length_append, List.length_singleton, hst]
    | other => simp only [List.length_append, List.length_singleton, hst]

/-- C19 as stated fails: on a response with the status code 200 the json-path
verifier appends two results (one for the status code, one of its own), the
regex kind appends none, and the status-code verifier of the registry appends
none. -/
theorem verify_appends_one_counterexample :
    ((NewHTTPVerifier (some (mkVerify VerifyTypeJSONPath (.int 200)))).Verify sampleEnv
        (mkResponse 200 "body")).resp.Verifications.length = 2
      ∧ ((NewHTTPVerifier (some (mkVerify VerifyTypeRegex (.str "b.*")))).Verify sampleEnv
        (mkResponse 200 "body")).resp.Verifications.length = 0
      ∧ ((StatusCodeVerifier.Verify { ExpectedCode := 200 }
        (mkResponse 200 "body")).1.resp.Verifications.length = 0) :=
  ⟨by decide, by decide, by decide⟩

/-- C19, amended: `HTTPVerifier.Verify` leaves a response that carries an error
untouched; otherwise the status-code kind appends exactly one result, the
json-path and contains kinds append the result of the status-code check and,
when that check passes, one result of their own (two in all), and every other
kind (regex, custom) appends nothing and passes.  The status-code verifier of
the registry never writes to the response. -/
theorem verify_appended_results {J : Type} (env : VerifyEnv J) (v : HTTPVerifier)
    (resp : Response) (sv : StatusCodeVerifier) :
    (resp.Error ≠ none → (v.Verify env resp).resp = resp ∧ (v.Verify env resp).ok = false)
      ∧ (resp.Error = none →
          (v.config.Kind = VerifyTypeStatusCode →
            (v.Verify env resp).resp.Verifications.length = resp.Verifications.length + 1)
          ∧ (v.config.Kind = VerifyTypeJSONPath ∨ v.config.Kind = VerifyTypeContains →
            (v.Verify env resp).resp.Verifications.length
              = resp.Verifications.length
                + (if (v.verifyStatusCode env resp).ok then 2 else 1))
          ∧ (v.config.Kind ≠ VerifyTypeStatusCode → v.config.Kind ≠ VerifyTypeJSONPath →
              v.config.Kind ≠ VerifyTypeContains →
            (v.Verify env resp).resp = resp ∧ (v.Verify env resp).ok = true))
      ∧ (sv.Verify resp).1.resp = resp := by
  refine ⟨fun herr => ?_, fun herr => ⟨fun hk => ?_, fun hk => ?_, fun h1 h2 h3 => ?_⟩, rfl⟩
  · unfold HTTPVerifier.Verify
    cases he : resp.Error with
    | none => exact absurd he herr
    | some e => exact ⟨rfl, rfl⟩
  · unfold HTTPVerifier.Verify
    rw [herr]
    simp only [hk, if_true]
    exact verifyStatusCode_length env v resp
  · unfold HTTPVerifier.Verify
    rw [herr]
    rcases hk with hk | hk
    · have hne : ¬ VerifyTypeJSONPath = VerifyTypeStatusCode := by decide
      simp only [hk, hne, if_false, if_true]
      exact verifyJSONPath_length env v resp
    · have hne : ¬ VerifyTypeContains = VerifyTypeStatusCode := by decide
      have hne2 : ¬ VerifyTypeContains = VerifyTypeJSONPath := by decide
      simp only [hk, hne, hne2, if_false, if_true]
      exact verifyContains_length env v resp
  · unfold HTTPVerifier.Verify
    rw [herr]
    simp only [h1, h2, h3, if_false]
    exact ⟨trivial, trivial⟩

/-- C19 (amended) on a contains rule and a response with the status code 200. -/
theorem verify_appended_results_witness :
    ((NewHTTPVerifier (some (mkVerify VerifyTypeContains (.str "od")))).Verify sampleEnv
        (mkResponse 200 "body")).resp.Verifications.length
      = (mkResponse 200 "body").Verifications.length
        + (if ((NewHTTPVerifier (some (mkVerify VerifyTypeContains (.str "od")))).verifyStatusCode
            sampleEnv (mkResponse 200 "body")).ok then 2 else 1) :=
  ((verify_appended_results sampleEnv
      (NewHTTPVerifier (some (mkVerify VerifyTypeContains (.str "od"))))
      (mkResponse 200 "body") { ExpectedCode := 0 }).2.1 rfl).2.1 (Or.inr rfl)

/-- C20 fails on the code: `verifyStatusCode` compares the `int` status code
with the `interface{}` value of `expect`, so an expected value decoded from
JSON (a `float64`) never passes, whatever the status code, and an `expect` that
is not configured (`nil`) is not replaced by 200 and never passes either; only
for an `int` (YAML) the verifier passes exactly when the status code is the
expected one, 200 standing for 0.  On a response with the status code 200 the
rule `expect: 200` of a JSON file and the rule without `expect` fail, the rule
`expect: 200` of a YAML file passes. -/
theorem status_verifier_expect_representation {J : Type} (env : VerifyEnv J)
    (kind path custom : String) (x : Rat) (n : Int) (resp : Response) :
    (HTTPVerifier.verifyStatusCode env
        { config := { Kind := kind, JSONPath := path, Custom := custom, Expect := .float64 x } }
        resp).ok = false
      ∧ (HTTPVerifier.verifyStatusCode env
        { config := { Kind := kind, JSONPath := path, Custom := custom, Expect := .null } }
        resp).ok = false
      ∧ (HTTPVerifier.verifyStatusCode env
        { config := { Kind := kind, JSONPath := path, Custom := custom, Expect := .int n } }
        resp).ok = decide (resp.StatusCode = if n = 0 then 200 else n)
      ∧ ((NewHTTPVerifier (some (mkVerify VerifyTypeStatusCode (.float64 200)))).Verify sampleEnv
        (mkResponse 200 "body")).ok = false
      ∧ ((NewHTTPVerifier (some (mkVerify VerifyTypeStatusCode .null))).Verify sampleEnv
        (mkResponse 200 "body")).ok = false
      ∧ ((NewHTTPVerifier (some (mkVerify VerifyTypeStatusCode (.int 200)))).Verify sampleEnv
        (mkResponse 200 "body")).ok = true := by
  refine ⟨?_, ?_, ?_, by decide, by decide, by decide⟩
  · obtain ⟨-, -, -, hok⟩ := verifyStatusCode_resp env
      { config := { Kind := kind, JSONPath := path, Custom := custom, Expect := .float64 x } }
      resp
    rw [hok]
    simp
  · obtain ⟨-, -, -, hok⟩ := verifyStatusCode_resp env
      { config := { Kind := kind, JSONPath := path, Custom := custom, Expect := .null } } resp
    rw [hok]
    simp
  · obtain ⟨-, -, -, hok⟩ := verifyStatusCode_resp env
      { config := { Kind := kind, JSONPath := path, Custom := custom, Expect := .int n } } resp
    rw [hok]
    by_cases hn : n = 0
    · subst hn
      simp
    · simp [hn]

/-! ### Verifications of a worker -/

theorem executeVerifications_append_error {J : Type} (env : VerifyEnv J)
    (pre post : List VerifyConfig) :
    ∀ (resp : Response) (e : String), (executeVerifications env pre resp).1 = some e →
      executeVerifications env (pre ++ post) resp = executeVerifications env pre resp := by
  induction pre with
  | nil => intro resp e h; simp [executeVerifications] at h
  | cons cfg pre ih =>
    intro resp e h
    rw [List.cons_append]
    unfold executeVerifications at h ⊢
    simp only at h ⊢
    cases hok : ((NewHTTPVerifier (some cfg)).Verify env resp).ok
    · simp only [hok, Bool.not_false, if_true]
    · simp only [hok, Bool.not_true, Bool.false_eq_true, if_false] at h ⊢
      exact ih _ e h

/-- C18 as stated fails: of two status-code rules, the first expecting 201, only
the first is run on a response with the status code 200: the outcome is failed
and the response holds one verification result, not two. -/
theorem all_verifications_recorded_counterexample :
    twoRules.length = 2
      ∧ (executeVerifications sampleEnv twoRules (mkResponse 200 "body")).1.isSome = true
      ∧ (executeVerifications sampleEnv twoRules (mkResponse 200 "body")).2.Verifications.length
          = 1
      ∧ (BuildRequestResult
          (some (executeVerifications sampleEnv twoRules (mkResponse 200 "body")).2)
          (executeVerifications sampleEnv twoRules (mkResponse 200 "body")).1).Success = false :=
  ⟨rfl, by decide, by decide, by decide⟩

theorem executeVerifications_passed {J : Type} (env : VerifyEnv J) (pre : List VerifyConfig) :
    ∀ resp : Response, (executeVerifications env pre resp).1 = none →
      (executeVerifications env pre resp).2 = verifyAll env pre resp
        ∧ ∀ rest, executeVerifications env (pre ++ rest) resp
            = executeVerifications env rest (verifyAll env pre resp) := by
  induction pre with
  | nil => intro resp _; exact ⟨rfl, fun _ => rfl⟩
  | cons cfg pre ih =>
    intro resp h
    unfold executeVerifications at h
    simp only at h
    cases hok : ((NewHTTPVerifier (some cfg)).Verify env resp).ok
    · simp only [hok, Bool.not_false, if_true] at h
      split at h <;> cases h
    · simp only [hok, Bool.not_true, Bool.false_eq_true, if_false] at h
      obtain ⟨h1, h2⟩ := ih _ h
      refine ⟨?_, fun rest => ?_⟩
      · rw [executeVerifications]
        simp only [hok, Bool.not_true, Bool.false_eq_true, if_false]
        rw [h1]
        rfl
      · rw [List.cons_append, executeVerifications]
        simp only [hok, Bool.not_true, Bool.false_eq_true, if_false]
        rw [h2]
        rfl

theorem verifyAll_snoc {J : Type} (env : VerifyEnv J) (pre : List VerifyConfig)
    (cfg : VerifyConfig) (resp : Response) :
    verifyAll env (pre ++ [cfg]) resp
      = ((NewHTTPVerifier (some cfg)).Verify env (verifyAll env pre resp)).resp := by
  simp [verifyAll, List.foldl_append]

theorem verify_statusCode_step {J : Type} (env : VerifyEnv J) (cfg : VerifyConfig)
    (resp : Response) (hkind : cfg.Kind = VerifyTypeStatusCode) (herr : resp.Error = none) :
    ((NewHTTPVerifier (some cfg)).Verify env resp).resp.Error = none
      ∧ ((NewHTTPVerifier (some cfg)).Verify env resp).resp.Verifications.length
          = resp.Verifications.length + 1 := by
  have hk : (NewHTTPVerifier (some cfg)).config.Kind = VerifyTypeStatusCode := hkind
  have hv : (NewHTTPVerifier (some cfg)).Verify env resp
      = (NewHTTPVerifier (some cfg)).verifyStatusCode env resp := by
    unfold HTTPVerifier.Verify
    rw [herr]
    simp only [hk, if_true]
  obtain ⟨result, hresp, -, -⟩ := verifyStatusCode_resp env (NewHTTPVerifier (some cfg)) resp
  rw [hv, hresp]
  exact ⟨herr, by simp⟩

theorem verifyAll_statusCode_length {J : Type} (env : VerifyEnv J) (cfgs : List VerifyConfig) :
    ∀ resp : Response, (∀ cfg ∈ cfgs, cfg.Kind = VerifyTypeStatusCode) → resp.Error = none →
      (verifyAll env cfgs resp).Error = none
        ∧ (verifyAll env cfgs resp).Verifications.length
            = resp.Verifications.length + cfgs.length := by
  induction cfgs with
  | nil => intro resp _ herr; exact ⟨herr, rfl⟩
  | cons cfg cfgs ih =>
    intro resp hk herr
    obtain ⟨h1, h2⟩ := verify_statusCode_step env cfg resp (hk cfg (List.mem_cons_self _ _)) herr
    obtain ⟨h3, h4⟩ := ih _ (fun c hc => hk c (List.mem_cons_of_mem _ hc)) h1
    have hstep : verifyAll env (cfg :: cfgs) resp
        = verifyAll env cfgs ((NewHTTPVerifier (some cfg)).Verify env resp).resp := rfl
    rw [hstep]
    refine ⟨h3, ?_⟩
    rw [h4, h2, List.length_cons]
    omega

/-- C18, amended: when the per-endpoint verifiers `pre` of an API pass one after
the other and the next verifier `bad` fails, the outcome is marked failed with
the error of `bad`, and the response (and the result built from it) holds the
verifications of the verifiers up to and including `bad`, as if exactly these
had been run on the response in turn; the verifiers `post` configured after
`bad` are not run and leave no result.  For status-code rules that is one
verification for each verifier of `pre` and one for `bad`. -/
theorem verifications_stop_at_first_failure {J : Type} (env : VerifyEnv J)
    (pre post : List VerifyConfig) (bad : VerifyConfig) (resp : Response)
    (hpre : (executeVerifications env pre resp).1 = none)
    (hbad : ((NewHTTPVerifier (some bad)).Verify env (verifyAll env pre resp)).ok = false) :
    (executeVerifications env (pre ++ bad :: post) resp).2 = verifyAll env (pre ++ [bad]) resp
      ∧ (executeVerifications env (pre ++ bad :: post) resp).1
          = some (match ((NewHTTPVerifier (some bad)).Verify env (verifyAll env pre resp)).err with
              | some verifyErr => "响应验证失败: " ++ verifyErr
              | none => "响应验证失败")
      ∧ (BuildRequestResult (some (executeVerifications env (pre ++ bad :: post) resp).2)
          (executeVerifications env (pre ++ bad :: post) resp).1).Success = false
      ∧ (BuildRequestResult (some (executeVerifications env (pre ++ bad :: post) resp).2)
          (executeVerifications env (pre ++ bad :: post) resp).1).Verifications
        = (verifyAll env (pre ++ [bad]) resp).Verifications
      ∧ ((∀ cfg ∈ pre ++ [bad], cfg.Kind = VerifyTypeStatusCode) → resp.Error = none →
          (BuildRequestResult (some (executeVerifications env (pre ++ bad :: post) resp).2)
            (executeVerifications env (pre ++ bad :: post) resp).1).Verifications.length
          = resp.Verifications.length + pre.length + 1) := by
  have hrun : executeVerifications env (pre ++ bad :: post) resp
      = (some (match ((NewHTTPVerifier (some bad)).Verify env (verifyAll env pre resp)).err with
              | some verifyErr => "响应验证失败: " ++ verifyErr
              | none => "响应验证失败"),
          verifyAll env (pre ++ [bad]) resp) := by
    rw [(executeVerifications_passed env pre resp hpre).2, executeVerifications, verifyAll_snoc]
    simp only [hbad, Bool.not_false, if_true]
    split <;> rfl
  rw [hrun]
  refine ⟨rfl, rfl, rfl, rfl, fun hk herr => ?_⟩
  have hlen := (verifyAll_statusCode_length env (pre ++ [bad]) resp hk herr).2
  rw [List.length_append, List.length_singleton, ← Nat.add_assoc] at hlen
  exact hlen

/-- C18 (amended) on three status-code rules, the second of which fails: the
response holds the result of the first and of the second rule. -/
theorem verifications_stop_at_first_failure_witness :
    (executeVerifications sampleEnv
        ([mkVerify VerifyTypeStatusCode (.int 200)]
          ++ mkVerify VerifyTypeStatusCode (.int 201)
            :: [mkVerify VerifyTypeStatusCode (.int 200)])
        (mkResponse 200 "body")).2
      = verifyAll sampleEnv
          ([mkVerify VerifyTypeStatusCode (.int 200)] ++ [mkVerify VerifyTypeStatusCode (.int 201)])
          (mkResponse 200 "body")
    ∧ (verifyAll sampleEnv
          ([mkVerify VerifyTypeStatusCode (.int 200)] ++ [mkVerify VerifyTypeStatusCode (.int 201)])
          (mkResponse 200 "body")).Verifications
      = [{ Kind := VerifyTypeStatusCode, Success := true, Message := "状态码验证通过",
           Expect := "200", Actual := "200" },
         { Kind := VerifyTypeStatusCode, Success := false,
           Message := "状态码不匹配: 期望 201, 实际 200", Expect := "201", Actual := "200" }] :=
  ⟨(verifications_stop_at_first_failure sampleEnv [mkVerify VerifyTypeStatusCode (.int 200)]
      [mkVerify VerifyTypeStatusCode (.int 200)] (mkVerify VerifyTypeStatusCode (.int 201))
      (mkResponse 200 "body") (by decide) (by decide)).1,
    by decide⟩

/-! ### The loop of a worker -/

theorem map_eq_map_some_filterMap {α β : Type} (f : α → Option β) :
    ∀ l : List α, (∀ x ∈ l, (f x).isSome = true) → l.map f = (l.filterMap f).map some := by
  intro l
  induction l with
  | nil => intro _; rfl
  | cons a l ih =>
    intro h
    have ha := h a (List.mem_cons_self a l)
    cases hfa : f a with
    | none => rw [hfa] at ha; cases ha
    | some b =>
      rw [List.filterMap_cons_some hfa, List.map_cons, List.map_cons, hfa,
        ih (fun x hx => h x (List.mem_cons_of_mem a hx))]

theorem worker_loop_eq {J : Type} (w : Worker) (env : WorkerEnv J) :
    ∀ (remaining i : Nat) (c : Collector),
      (∀ j, i ≤ j → j < i + remaining → env.done j = false) →
      (∀ j, i ≤ j → j < i + remaining → w.executeRequest env j ≠ .panicked) →
      w.loop env remaining i c
        = some (none,
            ((List.range' i remaining).filterMap
              (fun j => (w.executeRequest env j).result?)).foldl Collector.Collect c) := by
  intro remaining
  induction remaining with
  | zero => intro i c _ _; rfl
  | succ remaining ih =>
    intro i c h hp
    have hd : env.done i = false := h i (Nat.le_refl i) (by omega)
    have hrest : ∀ j, i + 1 ≤ j → j < i + 1 + remaining → env.done j = false :=
      fun j h1 h2 => h j (by omega) (by omega)
    have hprest : ∀ j, i + 1 ≤ j → j < i + 1 + remaining →
        w.executeRequest env j ≠ .panicked :=
      fun j h1 h2 => hp j (by omega) (by omega)
    have hpi := hp i (Nat.le_refl i) (by omega)
    rw [Worker.loop, hd, List.range'_succ]
    simp only [Bool.false_eq_true, if_false]
    cases hreq : w.executeRequest env i with
    | collected result =>
      simp only [List.filterMap_cons, hreq, RequestOutcome.result?, List.foldl_cons]
      exact ih (i + 1) (c.Collect result) hrest hprest
    | skipped =>
      simp only [List.filterMap_cons, hreq, RequestOutcome.result?]
      exact ih (i + 1) c hrest hprest
    | panicked => exact absurd hreq hpi

theorem map_collected_filterMap {α : Type} (f : α → RequestOutcome) :
    ∀ l : List α, (∀ x ∈ l, ∃ result, f x = .collected result) →
      l.map f = (l.filterMap (fun x => (f x).result?)).map RequestOutcome.collected := by
  intro l
  induction l with
  | nil => intro _; rfl
  | cons a l ih =>
    intro h
    obtain ⟨result, hres⟩ := h a (List.mem_cons_self a l)
    simp only [List.map_cons, List.filterMap_cons, hres, RequestOutcome.result?]
    rw [ih (fun x hx => h x (List.mem_cons_of_mem a hx))]
    rfl

theorem executeRequest_collected {J : Type} (w : Worker) (env : WorkerEnv J) (i : Nat)
    (hyield : (w.hasSelector = true ∧ (env.next i).isSome = true)
      ∨ (w.hasSelector = false ∧ w.reqBuilder.isSome = true))
    (hret : ∀ req, (env.handler i req).isSome = true) :
    ∃ result, w.executeRequest env i = .collected result := by
  have hwith : ∀ apiCfg req, ∃ result, executeRequestWith env i apiCfg req = some result := by
    intro apiCfg req
    unfold executeRequestWith
    cases hh : env.handler i req with
    | none =>
      have := hret req
      rw [hh] at this
      cases this
    | some out =>
      simp only
      split
      · split
        · exact ⟨_, rfl⟩
        · exact ⟨_, rfl⟩
      · exact ⟨_, rfl⟩
  unfold Worker.executeRequest
  rcases hyield with ⟨hs, hn⟩ | ⟨hs, hb⟩
  · rw [hs]
    cases hnext : env.next i with
    | none => rw [hnext] at hn; cases hn
    | some apiCfg =>
      simp only [if_true]
      obtain ⟨result, hres⟩ := hwith
        (some (match env.resolverVars i with
          | some extractedVars => replaceExtractedVars apiCfg extractedVars
          | none => apiCfg))
        (BuildRequest (match env.resolverVars i with
          | some extractedVars => replaceExtractedVars apiCfg extractedVars
          | none => apiCfg))
      rw [hres]
      exact ⟨result, rfl⟩
  · rw [hs]
    cases hrb : w.reqBuilder with
    | none => rw [hrb] at hb; cases hb
    | some rb =>
      simp only [Bool.false_eq_true, if_false]
      obtain ⟨result, hres⟩ := hwith none rb.Build
      rw [hres]
      exact ⟨result, rfl⟩

/-- C16 as stated fails: a worker with the budget 1 whose context is never
cancelled and whose request builder yields a request submits no outcome when
the `Connect` of its client returns an error (`Run` returns that error), and
none when its client connects and the handler panics on the request, as the
handler of a gRPC configuration with reflection does. -/
theorem worker_budget_counterexample :
    ((schedulerWorker badTargetConfig 0).reqCount = 1
      ∧ (schedulerWorker badTargetConfig 0).hasSelector = false
      ∧ (schedulerWorker badTargetConfig 0).reqBuilder.isSome = true
      ∧ (∀ i, refusedEnv.done i = false)
      ∧ (schedulerWorker badTargetConfig 0).Run refusedEnv NewCollector
          = some (some "gRPC连接失败", NewCollector))
    ∧ ((schedulerWorker reflectionConfig 0).reqCount = 1
      ∧ (schedulerWorker reflectionConfig 0).hasSelector = false
      ∧ (schedulerWorker reflectionConfig 0).reqBuilder.isSome = true
      ∧ panicEnv.connect = none
      ∧ (∀ i, panicEnv.done i = false)
      ∧ (schedulerWorker reflectionConfig 0).Run panicEnv NewCollector = none) :=
  ⟨⟨rfl, rfl, rfl, fun _ => rfl, rfl⟩, ⟨rfl, rfl, rfl, rfl, fun _ => rfl, rfl⟩⟩

/-- C16, amended: a worker with request budget n whose client connects, whose
context is never cancelled, whose selector (or, without a selector, request
builder) always yields a request and whose handler returns for every request
(it does not panic) returns no error and submits exactly n outcomes to the
collector, the outcome of iteration i being the i-th of them. -/
theorem worker_submits_budget {J : Type} (w : Worker) (env : WorkerEnv J) (c : Collector)
    (hconn : env.connect = none)
    (hctx : ∀ i, i < w.reqCount → env.done i = false)
    (hyield : (w.hasSelector = true ∧ ∀ i, i < w.reqCount → (env.next i).isSome = true)
      ∨ (w.hasSelector = false ∧ w.reqBuilder.isSome = true))
    (hret : ∀ i, i < w.reqCount → ∀ req, (env.handler i req).isSome = true) :
    ∃ rs : List RequestResult, rs.length = w.reqCount
      ∧ (List.range w.reqCount).map (fun i => w.executeRequest env i)
          = rs.map RequestOutcome.collected
      ∧ w.Run env c = some (none, rs.foldl Collector.Collect c) := by
  have hcol : ∀ i, i < w.reqCount → ∃ result, w.executeRequest env i = .collected result := by
    intro i hlt
    apply executeRequest_collected
    · rcases hyield with ⟨hs, hn⟩ | ⟨hs, hb⟩
      · exact Or.inl ⟨hs, hn i hlt⟩
      · exact Or.inr ⟨hs, hb⟩
    · exact hret i hlt
  have hmap := map_collected_filterMap (fun j => w.executeRequest env j)
    (List.range w.reqCount) (fun i hi => hcol i (List.mem_range.mp hi))
  refine ⟨(List.range w.reqCount).filterMap (fun j => (w.executeRequest env j).result?),
    ?_, hmap, ?_⟩
  · have hlen := congrArg List.length hmap
    rw [List.length_map, List.length_map, List.length_range] at hlen
    exact hlen.symm
  · unfold Worker.Run
    rw [hconn]
    simp only
    rw [worker_loop_eq w env w.reqCount 0 c (fun j _ h2 => hctx j (by omega))
        (fun j _ h2 => by
          obtain ⟨result, hres⟩ := hcol j (by omega)
          rw [hres]
          exact fun h => RequestOutcome.noConfusion h),
      List.range_eq_range']

/-- C16 (amended) on `concurrency = 1`, `requests = 1`: one outcome. -/
theorem worker_submits_budget_witness :
    ∃ rs : List RequestResult, rs.length = (schedulerWorker oneShotConfig 0).reqCount
      ∧ (List.range (schedulerWorker oneShotConfig 0).reqCount).map
          (fun i => (schedulerWorker oneShotConfig 0).executeRequest calmEnv i)
          = rs.map RequestOutcome.collected
      ∧ (schedulerWorker oneShotConfig 0).Run calmEnv NewCollector
          = some (none, rs.foldl Collector.Collect NewCollector) :=
  worker_submits_budget (schedulerWorker oneShotConfig 0) calmEnv NewCollector rfl
    (fun _ _ => rfl) (Or.inr ⟨rfl, rfl⟩) (fun _ _ _ => rfl)

/-- C17 as stated fails: for `requests = 0` with a duration of ten seconds,
which `Loader.validate` accepts, `validateConfig` of the command line returns
the error that the number of requests must not be 0, and the worker that the
scheduler would build from the configuration has the budget 0: with a client
that connects and a context that is never cancelled its `Run` returns at once
and no outcome is submitted. -/
theorem duration_only_counterexample :
    durationOnlyConfig.Requests = 0 ∧ 0 < durationOnlyConfig.Duration
      ∧ Loader.validate durationOnlyConfig = none
      ∧ validateConfig durationOnlyConfig = some "请求数不能为0"
      ∧ calmEnv.connect = none ∧ (∀ i, calmEnv.done i = false)
      ∧ (schedulerWorker durationOnlyConfig 0).reqCount = 0
      ∧ (schedulerWorker durationOnlyConfig 0).Run calmEnv NewCollector
          = some (none, NewCollector) :=
  ⟨rfl, by decide, by decide, by decide, rfl, fun _ => rfl, rfl, rfl⟩

/-- C17, amended: a configuration with `requests = 0` is rejected by
`validateConfig` of the command line whatever its duration, although
`Loader.validate` accepts it when the duration is not 0 (and a URL and a
concurrency are set); the duration is not handed to the executor: the budget of
a worker is `cfg.Requests`, and a worker built from `requests = 0` returns from
`Run` at once, whatever the context and the handler do, without submitting an
outcome. -/
theorem zero_requests_worker_sends_nothing {J : Type} (cfg : Config) (d : Int)
    (env : WorkerEnv J) (c : Collector) (workerID : Nat) :
    (validateConfig { cfg with Requests := 0, Duration := d }).isSome = true
      ∧ (cfg.URL ≠ "" → cfg.Concurrency ≠ 0 →
          validateConfig { cfg with Requests := 0, Duration := d } = some "请求数不能为0")
      ∧ (cfg.URL ≠ "" → cfg.Concurrency ≠ 0 → cfg.Protocol ≠ "grpc" → d ≠ 0 →
          Loader.validate { cfg with Requests := 0, Duration := d } = none)
      ∧ (schedulerWorker { cfg with Requests := 0, Duration := d } workerID).reqCount = 0
      ∧ (schedulerWorker { cfg with Requests := 0, Duration := d } workerID).Run env c
          = some (env.connect, c) := by
  refine ⟨?_, fun hu hc => ?_, fun hu hc hp hd => ?_, rfl, ?_⟩
  · unfold validateConfig
    simp only
    split
    · rfl
    · split
      · rfl
      · rfl
  · unfold validateConfig
    simp only [hu, hc, and_false, if_false, if_true]
  · unfold Loader.validate
    simp only [hu, hc, hp, hd, and_false, if_false]
  · unfold Worker.Run
    cases hconn : env.connect with
    | some err => rfl
    | none => rfl

/-- C17 (amended) on `requests = 0` with a duration of ten seconds. -/
theorem zero_requests_worker_sends_nothing_witness :
    validateConfig { oneShotConfig with Requests := 0, Duration := 10000000000 }
        = some "请求数不能为0"
      ∧ Loader.validate { oneShotConfig with Requests := 0, Duration := 10000000000 } = none :=
  ⟨(zero_requests_worker_sends_nothing oneShotConfig 10000000000 calmEnv NewCollector 0).2.1
      (by decide) (by decide),
    (zero_requests_worker_sends_nothing oneShotConfig 10000000000 calmEnv NewCollector 0).2.2.1
      (by decide) (by decide) (by decide) (by decide)⟩

/-! ### The contains and json-path verifiers -/

theorem verifyStatusCode_ok_int {J : Type} (env : VerifyEnv J) (v : HTTPVerifier)
    (resp : Response) (h : (v.verifyStatusCode env resp).ok = true) :
    ∃ n : Int, v.config.Expect = ExpectValue.int n := by
  obtain ⟨-, -, -, hok⟩ := verifyStatusCode_resp env v resp
  rw [hok] at h
  have heq := of_decide_eq_true h
  by_cases h0 : v.config.Expect = ExpectValue.int 0
  · exact ⟨0, h0⟩
  · rw [if_neg h0] at heq
    exact ⟨resp.StatusCode, heq.symm⟩

theorem verifyContains_ok_false {J : Type} (env : VerifyEnv J) (v : HTTPVerifier)
    (resp : Response) : (v.verifyContains env resp).ok = false := by
  unfold HTTPVerifier.verifyContains
  simp only
  cases hst : (v.verifyStatusCode env resp).ok
  · rfl
  · obtain ⟨n, hn⟩ := verifyStatusCode_ok_int env v resp hst
    simp only [Bool.not_true, Bool.false_eq_true, if_false]
    rw [hn]

/-- C21 fails on the code: `verifyContains` first calls `verifyStatusCode`,
which compares the status code with the same field `expect`; with a string in
`expect` that check fails, and with anything else the type assertion fails, so
the contains verifier passes for no response at all.  A response with the
status code 200 and the body `hello world`, which contains the expected
`hello`, fails with the error of the status check. -/
theorem contains_verifier_never_passes {J : Type} (env : VerifyEnv J)
    (path custom : String) (expect : ExpectValue) (resp : Response) :
    (HTTPVerifier.Verify env
        { config := { Kind := VerifyTypeContains, JSONPath := path, Custom := custom,
                      Expect := expect } } resp).ok = false
      ∧ stringsContains "hello world" "hello" = true
      ∧ (NewHTTPVerifier (some (mkVerify VerifyTypeContains (.str "hello")))).Verify sampleEnv
          (mkResponse 200 "hello world")
        = { ok := false, err := some "状态码验证失败",
            resp := { mkResponse 200 "hello world" with
              Verifications :=
                [{ Kind := VerifyTypeContains, Success := false,
                   Message := "状态码不匹配: 期望 ?, 实际 200", Expect := "hello",
                   Actual := "200" }] } } := by
  refine ⟨?_, by decide, by decide⟩
  unfold HTTPVerifier.Verify
  cases resp.Error with
  | some e => rfl
  | none =>
    have hne : ¬ VerifyTypeContains = VerifyTypeStatusCode := by decide
    have hne2 : ¬ VerifyTypeContains = VerifyTypeJSONPath := by decide
    simp only [hne, hne2, if_false, if_true]
    exact verifyContains_ok_false env _ resp

/-- C22 fails on the code: `verifyJSONPath` never compares the value found with
`expect`.  It passes exactly when the status check against `expect` passes, the
body is JSON and the path is found.  So a rule whose `expect` is the string
`ok` fails on a response whose value at the path is `ok` (the status check
compares 200 with `ok`), and a rule with `expect: 200` passes on a response
whose value at the path is `500`. -/
theorem jsonpath_verifier_ignores_expect {J : Type} (env : VerifyEnv J) (v : HTTPVerifier)
    (resp : Response) :
    ((v.verifyJSONPath env resp).ok = true ↔
        (v.verifyStatusCode env resp).ok = true
          ∧ ∃ data value, env.unmarshal resp.Body = .ok data
              ∧ env.lookup data v.config.JSONPath = .ok value)
      ∧ (sampleEnv.unmarshal "ok" = .ok "ok" ∧ sampleEnv.lookup "ok" "$" = .ok "ok"
          ∧ ((NewHTTPVerifier (some (mkVerify VerifyTypeJSONPath (.str "ok")))).Verify sampleEnv
              (mkResponse 200 "ok")).ok = false)
      ∧ (sampleEnv.unmarshal "500" = .ok "500" ∧ sampleEnv.lookup "500" "$" = .ok "500"
          ∧ ((NewHTTPVerifier (some (mkVerify VerifyTypeJSONPath (.int 200)))).Verify sampleEnv
              (mkResponse 200 "500")).ok = true) := by
  refine ⟨?_, ⟨rfl, rfl, by decide⟩, ⟨rfl, rfl, by decide⟩⟩
  obtain ⟨result, hresp, -, -⟩ := verifyStatusCode_resp env v resp
  have hbody : (v.verifyStatusCode env resp).resp.Body = resp.Body := by rw [hresp]
  unfold HTTPVerifier.verifyJSONPath
  simp only
  cases hst : (v.verifyStatusCode env resp).ok
  · simp
  · simp only [Bool.not_true, Bool.false_eq_true, if_false, true_and]
    rw [hbody]
    cases hu : env.unmarshal resp.Body with
    | error e => simp
    | ok data =>
      simp only
      cases hl : env.lookup data v.config.JSONPath with
      | error e => simp [hl]
      | ok value => simp [hl]

/-! ### Paging with negative parameters -/

/-- C30 fails on the code: `GetRequestDetails` checks neither `offset` nor
`limit` for a negative value.  With a negative `offset` the slice expression
`filtered[offset:end]` panics for every collector state and every `limit`;
`handleDetails` passes the parsed values on, so the query `offset=-1` panics,
and so does `offset=2&limit=-1` on three details, where `end` is below
`offset`. -/
theorem get_request_details_negative_panics (c : Collector) (n : Nat) (limit : Int)
    (onlyErrors : Bool) :
    c.GetRequestDetails (Int.negSucc n) limit onlyErrors = none
      ∧ handleDetails c (Int.negSucc n) limit onlyErrors = none
      ∧ handleDetails (collectAll threeResults) (-1) 100 false = none
      ∧ handleDetails NewCollector (-1) 100 false = none
      ∧ (collectAll threeResults).GetRequestDetailsCount false = 3
      ∧ handleDetails (collectAll threeResults) 2 (-1) false = none := by
  have hneg : Int.negSucc n < 0 := Int.negSucc_lt_zero n
  have key : ∀ l : Int, c.GetRequestDetails (Int.negSucc n) l onlyErrors = none := by
    intro l
    unfold Collector.GetRequestDetails goSlice
    simp only
    rw [if_neg (by omega), if_neg (by omega)]
  exact ⟨key limit, key _, by decide, by decide, by decide, by decide⟩

/-! ### The middleware chain -/

theorem use_foldl_middlewares {W : Type} (ms : List (Middleware W)) :
    ∀ mc : MiddlewareChain W,
      (ms.foldl MiddlewareChain.Use mc).middlewares = mc.middlewares ++ ms := by
  induction ms with
  | nil => intro mc; simp
  | cons m ms ih =>
    intro mc
    rw [List.foldl_cons, ih]
    simp [MiddlewareChain.Use]

theorem buildLoop_eq_foldr {W : Type} (mc : MiddlewareChain W) :
    ∀ (j : Nat), j ≤ mc.middlewares.length → ∀ handler : RequestHandler W,
      mc.buildLoop j handler = (mc.middlewares.take j).foldr (fun m acc => m acc) handler := by
  intro j
  induction j with
  | zero => intro _ handler; simp [MiddlewareChain.buildLoop]
  | succ j ih =>
    intro hj handler
    have hlt : j < mc.middlewares.length := hj
    rw [MiddlewareChain.buildLoop, List.get?_eq_get hlt]
    simp only
    rw [ih (Nat.le_of_lt hlt), List.take_succ, List.getElem?_eq_getElem hlt,
      List.foldr_append]
    rfl

theorem build_eq_foldr {W : Type} (mc : MiddlewareChain W) (handler : RequestHandler W) :
    mc.Build handler = mc.middlewares.foldr (fun m acc => m acc) handler := by
  unfold MiddlewareChain.Build
  rw [buildLoop_eq_foldr mc _ (Nat.le_refl _), List.take_length]

/-- C23: for every list of middlewares `m1, …, mk` added with `Use` in that
order and every terminal handler `h`, `Build(h) = m1(m2(…mk(h)…))`; with no
middleware `Build(h) = h`; and the chain that `buildMiddlewareChain` builds
with the breaker, the retry and a verifier enabled is
breaker(retry(verify(transport))). -/
theorem build_composes_in_declared_order {W : Type} (ms : List (Middleware W))
    (h : RequestHandler W) (m1 m2 m3 : Middleware W)
    (libs : MiddlewareLibs W) (cfg : Config) (adv : AdvancedConfig) (v : VerifyConfig)
    (verifier : Verifier) (hkind : v.Kind ≠ "") (hreg : libs.registry v.Kind = some verifier) :
    (ms.foldl MiddlewareChain.Use (NewMiddlewareChain W)).Build h
        = ms.foldr (fun m acc => m acc) h
      ∧ (NewMiddlewareChain W).Build h = h
      ∧ ((((NewMiddlewareChain W).Use m1).Use m2).Use m3).Build h = m1 (m2 (m3 h))
      ∧ buildMiddlewareChain libs
          { cfg with
            Advanced := some { adv with EnableBreaker := true, EnableRetry := true },
            Verify := some v } (.ok h)
        = .ok (BreakerMiddleware (libs.breakerNew "stress-test"
                { MaxFailures := adv.MaxFailures, ResetTimeout := adv.ResetTimeout,
                  HalfOpenSuccesses := 2 })
              (RetryMiddleware libs.retryNewRunner
                (VerifyMiddleware verifier (ClientMiddleware h)))) := by
  refine ⟨?_, rfl, rfl, ?_⟩
  · rw [build_eq_foldr, use_foldl_middlewares]
    rfl
  · unfold buildMiddlewareChain
    simp only [hkind, hreg, verify.Get, ne_eq, not_false_eq_true, if_true]
    rfl

/-- C23 on the libraries of the examples and the verifier of `STATUS_CODE`. -/
theorem build_composes_in_declared_order_witness :
    buildMiddlewareChain sampleLibs
        { oneShotConfig with
          Advanced := some { EnableBreaker := true, MaxFailures := 5, ResetTimeout := 30,
                             EnableRetry := true, MaxRetries := 3, RetryInterval := 1,
                             RampUp := 0 },
          Verify := some (mkVerify VerifyTypeStatusCode (.int 200)) } (.ok okSend)
      = .ok (BreakerMiddleware (sampleLibs.breakerNew "stress-test"
              { MaxFailures := 5, ResetTimeout := 30, HalfOpenSuccesses := 2 })
            (RetryMiddleware sampleLibs.retryNewRunner
              (VerifyMiddleware registeredStatusCode (ClientMiddleware okSend)))) :=
  (build_composes_in_declared_order [] okSend id id id sampleLibs oneShotConfig
    { EnableBreaker := false, MaxFailures := 5, ResetTimeout := 30, EnableRetry := false,
      MaxRetries := 3, RetryInterval := 1, RampUp := 0 }
    (mkVerify VerifyTypeStatusCode (.int 200)) registeredStatusCode (by decide) rfl).2.2.2

/-! ### The circuit breaker -/

theorem breaker_refused {W : Type} (circuit : Circuit W) (w : W) (e : String) (w1 : W)
    (hopen : CircuitRefuses circuit w e w1) (next : RequestHandler W) (req : Request) :
    BreakerMiddleware circuit next req w = some ((none, some ("熔断器拦截: " ++ e)), w1) := by
  unfold BreakerMiddleware
  rw [hopen]

theorem specCircuit_refuses {S : Type} (cfg : BreakerConfig) (w : BreakerWorld S)
    (since : Int) (hopen : w.circuit = .opened since)
    (hsoon : w.now - since < cfg.ResetTimeout) :
    CircuitRefuses (specCircuit cfg) w "BreakerOpenError" w := by
  intro L fn l
  have hn : ¬ (w.now - since ≥ cfg.ResetTimeout) := by omega
  simp only [specCircuit, hopen, CircuitState.atTime, if_neg hn]

/-- C24: with the circuit breaker of the specification, while the circuit is
open (it was tripped and `reset_timeout` has not elapsed since) the handler of
`BreakerMiddleware` returns the error of the breaker at once, whatever `next`
is, and leaves the state as it is: `next` is not invoked.  With the breaker
enabled and `max_failures = 1`, a first call on the new (closed) circuit whose
transport fails returns that failure and trips the circuit, and a second call
made on the circuit so left, at any time before `reset_timeout` has elapsed,
returns `BreakerOpenError` without reaching the transport. -/
theorem breaker_open_skips_next {S : Type} (runner : Runner (BreakerWorld S))
    (registry : String → Option Verifier) (cfg : Config) (adv : AdvancedConfig)
    (send : RequestHandler (BreakerWorld S)) (req req2 : Request) (start : Int) (s0 : S)
    (w1 : BreakerWorld S) (resp1 : Option Response) (e1 : String)
    (hfail : send req { circuit := .closed 0, now := start, inner := s0 }
      = some ((resp1, some e1), w1)) :
    (∀ (bcfg : BreakerConfig) (w : BreakerWorld S) (since : Int), w.circuit = .opened since →
        w.now - since < bcfg.ResetTimeout →
        ∀ (next : RequestHandler (BreakerWorld S)) (r : Request),
          BreakerMiddleware (specCircuit bcfg) next r w
            = some ((none, some ("熔断器拦截: " ++ "BreakerOpenError")), w))
      ∧ ∃ handler : RequestHandler (BreakerWorld S),
          buildMiddlewareChain (specLibs runner registry)
              { cfg with
                Advanced := some { adv with EnableBreaker := true, EnableRetry := false,
                                            MaxFailures := 1 },
                Verify := none } (.ok send)
            = .ok handler
          ∧ handler req { circuit := .closed 0, now := start, inner := s0 }
            = some ((none, some ("熔断器拦截: " ++ e1)),
                { w1 with circuit := .opened w1.now })
          ∧ ∀ (later : Int) (s : S), later - w1.now < adv.ResetTimeout →
              handler req2 { circuit := .opened w1.now, now := later, inner := s }
                = some ((none, some ("熔断器拦截: " ++ "BreakerOpenError")),
                    { circuit := .opened w1.now, now := later, inner := s }) := by
  have hgen : ∀ (bcfg : BreakerConfig) (w : BreakerWorld S) (since : Int),
      w.circuit = .opened since → w.now - since < bcfg.ResetTimeout →
      ∀ (next : RequestHandler (BreakerWorld S)) (r : Request),
        BreakerMiddleware (specCircuit bcfg) next r w
          = some ((none, some ("熔断器拦截: " ++ "BreakerOpenError")), w) :=
    fun bcfg w since ho hs next r =>
      breaker_refused _ w _ w (specCircuit_refuses bcfg w since ho hs) next r
  refine ⟨hgen, BreakerMiddleware (specCircuit
      { MaxFailures := 1, ResetTimeout := adv.ResetTimeout, HalfOpenSuccesses := 2 })
      (ClientMiddleware send), rfl, ?_, fun later s hsoon => ?_⟩
  · unfold BreakerMiddleware
    simp only [specCircuit, CircuitState.atTime, ClientMiddleware, hfail,
      CircuitState.record]
    rfl
  · exact hgen _ _ w1.now rfl hsoon _ req2

/-- C24 on a transport that always fails and takes five nanoseconds, with a
reset timeout of thirty seconds: the first call, at time 0, trips the circuit
at time 5, and the second call, at time 7, leaves the count of transport calls
at 1. -/
theorem breaker_open_skips_next_witness :
    ∃ handler : RequestHandler (BreakerWorld Nat),
      buildMiddlewareChain (specLibs onceRunner sampleRegistry)
          { oneShotConfig with
            Advanced := some { EnableBreaker := true, MaxFailures := 1,
                               ResetTimeout := 30000000000, EnableRetry := false,
                               MaxRetries := 3, RetryInterval := 1, RampUp := 0 },
            Verify := none } (.ok slowFailingSend)
        = .ok handler
      ∧ handler pingRequest { circuit := .closed 0, now := 0, inner := 0 }
        = some ((none, some ("熔断器拦截: " ++ "connection refused")),
            { circuit := .opened 5, now := 5, inner := 1 })
      ∧ handler pingRequest { circuit := .opened 5, now := 7, inner := 1 }
        = some ((none, some ("熔断器拦截: " ++ "BreakerOpenError")),
            { circuit := .opened 5, now := 7, inner := 1 }) := by
  obtain ⟨handler, hbuild, hfirst, hsecond⟩ :=
    (breaker_open_skips_next onceRunner sampleRegistry oneShotConfig
      { EnableBreaker := false, MaxFailures := 5, ResetTimeout := 30000000000,
        EnableRetry := true, MaxRetries := 3, RetryInterval := 1, RampUp := 0 }
      slowFailingSend pingRequest pingRequest 0 0 { circuit := .closed 0, now := 5, inner := 1 }
      none "connection refused" rfl).2
  exact ⟨handler, hbuild, hfirst, hsecond 7 1 (by decide)⟩

/-! ### The retry -/

/-- C25 fails on the code: `buildMiddlewareChain` creates the runner with
`retry.NewRunner[error]()` and hands it neither `MaxRetries` nor
`RetryInterval`, which nothing in the repository reads.  The handler built is
the same for all values of the two settings, so for no runner of the library
does a transport that always fails receive `max_retries + 1` calls both for
`max_retries = 1` and for `max_retries = 2`; with the runner of the examples,
which tries three times, it receives three calls for `max_retries = 1`. -/
theorem retry_ignores_max_retries {W : Type} (libs : MiddlewareLibs W) (cfg : Config)
    (adv : AdvancedConfig) (m1 m2 i1 i2 : Int) (factory : Except String (RequestHandler W))
    (libs2 : MiddlewareLibs SampleWorld) :
    buildMiddlewareChain libs
        { cfg with Advanced := some { adv with MaxRetries := m1, RetryInterval := i1 } } factory
      = buildMiddlewareChain libs
        { cfg with Advanced := some { adv with MaxRetries := m2, RetryInterval := i2 } } factory
    ∧ transportCalls libs2 (retryConfig 1 10000000) = transportCalls libs2 (retryConfig 2 10000000)
    ∧ ¬ (transportCalls libs2 (retryConfig 1 10000000) = some 2
          ∧ transportCalls libs2 (retryConfig 2 10000000) = some 3)
    ∧ transportCalls sampleLibs (retryConfig 1 10000000) = some 3 := by
  have heq : transportCalls libs2 (retryConfig 1 10000000)
      = transportCalls libs2 (retryConfig 2 10000000) := rfl
  refine ⟨rfl, heq, ?_, by decide⟩
  rintro ⟨h1, h2⟩
  rw [heq, h2] at h1
  cases h1

/-! ### The ramp-up of the scheduler -/

theorem rampDelay_of_mul (W c i : Nat) (hW : 0 < W) :
    rampDelay ((W : Int) * c) W i = (c : Int) * i := by
  unfold rampDelay floatToDuration
  have hWq : (W : Rat) ≠ 0 := by exact_mod_cast (Nat.pos_iff_ne_zero.mp hW)
  have hq : (((W : Int) * (c : Int) : Int) : Rat) / (W : Rat) * (i : Rat)
      = (((c * i : Nat) : Int) : Rat) := by
    push_cast
    field_simp
  rw [hq]
  have hnn : ¬ ((((c * i : Nat) : Int) : Rat) < 0) := by
    push_neg
    exact_mod_cast Nat.zero_le _
  rw [if_neg hnn, Int.floor_intCast]
  push_cast
  rfl

theorem triangle_step (i : Nat) : i * (i - 1) / 2 + i = (i + 1) * i / 2 := by
  have h : (i + 1) * i = i * (i - 1) + i * 2 := by
    cases i with
    | zero => rfl
    | succ k => simp only [Nat.add_sub_cancel]; ring
  rw [h, Nat.add_mul_div_right _ _ (by decide : 0 < 2)]

theorem launchLoop_of_linear (T : Int) (W : Nat) (c : Int) (hT : 0 < T) (hc : 0 ≤ c)
    (hd : ∀ j : Nat, rampDelay T W j = c * j) :
    ∀ remaining i : Nat,
      Scheduler.launchLoop T W remaining i (c * ((i * (i - 1) / 2 : Nat) : Int))
        = (List.range' i remaining).map (fun k => c * (((k + 1) * k / 2 : Nat) : Int)) := by
  intro remaining
  induction remaining with
  | zero => intro i; rfl
  | succ n ih =>
    intro i
    have hstep : c * ((i * (i - 1) / 2 : Nat) : Int) + max (rampDelay T W i) 0
        = c * (((i + 1) * i / 2 : Nat) : Int) := by
      have hnn : (0 : Int) ≤ c * i := Int.mul_nonneg hc (Int.ofNat_nonneg i)
      rw [hd, max_eq_left hnn, ← triangle_step i]
      push_cast
      ring
    rw [Scheduler.launchLoop, if_pos hT]
    simp only [hstep]
    have := ih (i + 1)
    simp only [Nat.add_sub_cancel] at this
    rw [this]
    rfl

theorem launchLoop_zero (W : Nat) :
    ∀ n i : Nat, Scheduler.launchLoop 0 W n i 0 = List.replicate n 0 := by
  intro n
  induction n with
  | zero => intro i; rfl
  | succ n ih => intro i; simp [Scheduler.launchLoop, ih, List.replicate_succ]

/-- C26 fails on the code: `Scheduler.Run` computes for the worker `i` the
delay `i·T/W` and sleeps it in the loop that starts the workers, after the
sleeps of the workers before it.  With `W + 1` workers and a ramp-up of
`(W + 1)·d` the delay computed for the worker `i` is `i·d`, and the time slept
before it is started is `d·i·(i+1)/2`, not `i·d`.  With three workers and a
ramp-up of three seconds the third worker is started after three seconds, not
two.  With a ramp-up of zero nothing is slept. -/
theorem ramp_up_delays_accumulate (W c : Nat) :
    (∀ i : Nat, rampDelay (((W + 1 : Nat) : Int) * ((c + 1 : Nat) : Int)) (W + 1) i
        = ((c + 1 : Nat) : Int) * i)
      ∧ Scheduler.launchTimes (((W + 1 : Nat) : Int) * ((c + 1 : Nat) : Int)) (W + 1)
        = (List.range (W + 1)).map
            (fun i => ((c + 1 : Nat) : Int) * (((i + 1) * i / 2 : Nat) : Int))
      ∧ Scheduler.launchTimes 0 W = List.replicate W 0
      ∧ rampDelay 3000000000 3 2 = 2000000000
      ∧ Scheduler.launchTimes 3000000000 3 = [0, 1000000000, 3000000000] := by
  have hd : ∀ i : Nat, rampDelay (((W + 1 : Nat) : Int) * ((c + 1 : Nat) : Int)) (W + 1) i
      = ((c + 1 : Nat) : Int) * i := fun i => rampDelay_of_mul (W + 1) (c + 1) i (Nat.succ_pos W)
  refine ⟨hd, ?_, launchLoop_zero W W 0, ?_, ?_⟩
  · have hT : (0 : Int) < ((W + 1 : Nat) : Int) * ((c + 1 : Nat) : Int) := by positivity
    have h := launchLoop_of_linear _ (W + 1) ((c + 1 : Nat) : Int) hT (Int.ofNat_nonneg _) hd
      (W + 1) 0
    rw [List.range_eq_range']
    exact h
  · norm_num [rampDelay, floatToDuration]
  · norm_num [Scheduler.launchTimes, Scheduler.launchLoop, rampDelay, floatToDuration]

/-! ### The effective URL of an API -/

theorem append_ne_empty_left (a b : String) (h : a ≠ "") : a ++ b ≠ "" := by
  intro hab
  apply h
  have hd : (a ++ b).data = [] := by rw [hab]
  have ha : a.data = [] := (List.append_eq_nil.mp hd).1
  exact String.ext ha

theorem mergeURL_eq_empty_iff (config : Config) (api : APIConfig) :
    mergeURL config api = "" ↔
      api.URL = "" ∧ api.Host = "" ∧ config.Host = "" ∧ api.Path = "" ∧ config.URL = "" := by
  unfold mergeURL
  by_cases hu : api.URL = ""
  · by_cases hh : api.Host = "" <;> by_cases hc : config.Host = "" <;>
      by_cases hp : api.Path = "" <;> by_cases hcu : config.URL = "" <;>
      simp [hu, hh, hc, hp, hcu, append_ne_empty_left]
  · simp [hu]

/-- C27 as stated fails: an API with a host and no path gets its host as URL,
not `config.url`; and an API with a path only gets the path as URL and is
accepted, although none of the four rules of the claim yields a URL. -/
theorem merge_url_counterexample :
    mergeURL (mkCommon "" "http://common.test/x") (mkEndpoint "http://a.test" "" "") = "http://a.test"
      ∧ specEffectiveURL (mkCommon "" "http://common.test/x") (mkEndpoint "http://a.test" "" "")
          = some "http://common.test/x"
      ∧ specEffectiveURL (mkCommon "" "") (mkEndpoint "" "/users" "") = none
      ∧ ((mergeAPI (fun s => .ok s) (mkCommon "" "") 0 (mkEndpoint "" "/users" "")).bind
            (fun r => r.toOption)).map (fun a => a.URL) = some "/users" :=
  ⟨by decide, by decide, by decide, by decide⟩

theorem mergeAPI_ok_url (resolve : String → Except String String) (config : Config) (i : Nat)
    (api merged : APIConfig) (h : mergeAPI resolve config i api = some (.ok merged)) :
    resolve (mergeURL config api) = .ok merged.URL := by
  unfold mergeAPI at h
  simp only at h
  split at h
  · cases h
  · split at h
    · cases h
    · split at h
      · cases h
      · split at h
        · cases h
        · split at h
          · cases h
          · injection h with h
            injection h with h
            subst h
            assumption

/-- C27, amended: `mergeAPIsWithCommon` builds the URL of an API by the
precedence `api.url` > host + `api.path` > host > `api.path` > `config.url`,
where host is `api.host` if set and `config.host` otherwise: an API with a host
(its own or the common one) and no path gets the host as URL, and an API with
a path and no host gets the path.  The result is empty, and the merge fails
for want of a URL, exactly when `api.url`, both hosts, `api.path` and
`config.url` are all empty.  When the host and the path are both set or both
missing, this is the precedence of the specification.  The URL stored is the
result of the variable resolver on the URL built. -/
theorem merge_url_precedence (resolve : String → Except String String) (config : Config)
    (i : Nat) (api : APIConfig) :
    (api.URL ≠ "" → mergeURL config api = api.URL)
      ∧ (api.URL = "" →
          (api.Host ≠ "" → api.Path ≠ "" → mergeURL config api = api.Host ++ api.Path)
          ∧ (api.Host = "" → config.Host ≠ "" → api.Path ≠ "" →
              mergeURL config api = config.Host ++ api.Path)
          ∧ (api.Host ≠ "" → api.Path = "" → mergeURL config api = api.Host)
          ∧ (api.Host = "" → config.Host ≠ "" → api.Path = "" →
              mergeURL config api = config.Host)
          ∧ (api.Host = "" → config.Host = "" → api.Path ≠ "" →
              mergeURL config api = api.Path)
          ∧ (api.Host = "" → config.Host = "" → api.Path = "" →
              mergeURL config api = config.URL))
      ∧ (mergeURL config api = "" ↔
          api.URL = "" ∧ api.Host = "" ∧ config.Host = "" ∧ api.Path = "" ∧ config.URL = "")
      ∧ (mergeURL config api = "" →
          mergeAPI resolve config i api
            = some (.error ("第" ++ toString (i + 1) ++ "个API [" ++ api.Name
                ++ "] 的URL不能为空（需要URL或Host+Path）")))
      ∧ ((api.URL ≠ "" ∨ ((api.Host ≠ "" ∨ config.Host ≠ "") ↔ api.Path ≠ "")) →
          specEffectiveURL config api
            = (if mergeURL config api = "" then none else some (mergeURL config api)))
      ∧ (∀ merged, mergeAPI resolve config i api = some (.ok merged) →
          resolve (mergeURL config api) = .ok merged.URL) := by
  refine ⟨fun hu => ?_, fun hu => ⟨fun hh hp => ?_, fun hh hc hp => ?_, fun hh hp => ?_,
    fun hh hc hp => ?_, fun hh hc hp => ?_, fun hh hc hp => ?_⟩,
    mergeURL_eq_empty_iff config api, fun he => ?_, fun hagree => ?_,
    fun merged h => mergeAPI_ok_url resolve config i api merged h⟩
  · simp [mergeURL, hu]
  · simp [mergeURL, hu, hh, hp]
  · simp [mergeURL, hu, hh, hc, hp]
  · simp [mergeURL, hu, hh, hp]
  · simp [mergeURL, hu, hh, hc, hp]
  · simp [mergeURL, hu, hh, hc, hp]
  · by_cases hcu : config.URL = "" <;> simp [mergeURL, hu, hh, hc, hp, hcu]
  · unfold mergeAPI
    simp only [he, if_true]
  · unfold specEffectiveURL mergeURL
    by_cases hu : api.URL = ""
    · by_cases hh : api.Host = "" <;> by_cases hc : config.Host = "" <;>
        by_cases hp : api.Path = "" <;> by_cases hcu : config.URL = "" <;>
        simp [hu, hh, hc, hp, hcu, append_ne_empty_left] at hagree ⊢
    · simp [hu]

/-- C27 (amended) on an API with a path and the common host. -/
theorem merge_url_precedence_witness :
    mergeURL (mkCommon "http://common.test" "http://common.test/x")
        (mkEndpoint "" "/users" "")
      = "http://common.test" ++ "/users" :=
  ((merge_url_precedence (fun s => .ok s) (mkCommon "http://common.test" "http://common.test/x")
    0 (mkEndpoint "" "/users" "")).2.1 rfl).2.1 rfl (by decide) (by decide)

/-! ### Extraction of variables -/

theorem extractAll_apply {J C : Type} (env : ExtractEnv J C) (m : ExtractorManager)
    (resp : Option Response) (defaultValues : String → Option String) (name : String) :
    ∀ keys : List String,
      m.ExtractAll env keys resp defaultValues name
        = if name ∈ keys then m.bindingOf env resp defaultValues name else none := by
  intro keys
  induction keys using List.reverseRecOn with
  | nil => rfl
  | append_singleton keys k ih =>
    unfold ExtractorManager.ExtractAll at ih ⊢
    rw [List.foldl_append, List.foldl_cons, List.foldl_nil]
    by_cases hk : name = k
    · subst hk
      have hmem : name ∈ keys ++ [name] := by simp
      rw [if_pos hmem]
      unfold ExtractorManager.bindingOf
      cases hex : m.extractors name with
      | none =>
        simp only
        rw [ih]
        split
        · unfold ExtractorManager.bindingOf
          rw [hex]
        · rfl
      | some extractor =>
        simp only
        cases hres : extractor.Extract env resp with
        | ok value => simp only [mapSet_same]
        | error err =>
          simp only
          cases hd : defaultValues name with
          | some d => simp only [mapSet_same]
          | none =>
            simp only
            rw [ih]
            split
            · unfold ExtractorManager.bindingOf
              rw [hex]
              simp only [hres, hd]
            · rfl
    · have hmem : name ∈ keys ++ [k] ↔ name ∈ keys := by simp [hk]
      have hstep : ∀ results : String → Option String,
          (match m.extractors k with
            | none => results
            | some extractor =>
              match extractor.Extract env resp with
              | .error _ =>
                match defaultValues k with
                | some defaultVal => mapSet results k (some defaultVal)
                | none => results
              | .ok value => mapSet results k (some value)) name = results name := by
        intro results
        cases m.extractors k with
        | none => rfl
        | some extractor =>
          simp only
          cases extractor.Extract env resp with
          | ok value => exact mapSet_other results (some value) hk
          | error err =>
            simp only
            cases defaultValues k with
            | some d => exact mapSet_other results (some d) hk
            | none => rfl
      rw [hstep, ih]
      by_cases hin : name ∈ keys
      · rw [if_pos hin, if_pos (hmem.mpr hin)]
      · rw [if_neg hin, if_neg (fun h => hin (hmem.mp h))]

theorem newExtractorManagerLoop_ok {J C : Type} (env : ExtractEnv J C) :
    ∀ (configs : List ExtractorConfig) (m0 m : ExtractorManager),
      (configs.map (fun cfg => cfg.Name)).Nodup →
      newExtractorManagerLoop env configs m0 = .ok m →
      (∀ cfg ∈ configs, ∃ extractor, createExtractor env cfg = .ok extractor
          ∧ m.extractors cfg.Name = some extractor)
        ∧ (∀ name, name ∉ configs.map (fun cfg => cfg.Name) →
            m.extractors name = m0.extractors name) := by
  intro configs
  induction configs with
  | nil =>
    intro m0 m _ h
    simp only [newExtractorManagerLoop] at h
    injection h with h
    subst h
    exact ⟨fun cfg hcfg => absurd hcfg (List.not_mem_nil cfg), fun _ _ => rfl⟩
  | cons c rest ih =>
    intro m0 m hnodup h
    rw [List.map_cons, List.nodup_cons] at hnodup
    unfold newExtractorManagerLoop at h
    cases hc : createExtractor env c with
    | error err => rw [hc] at h; cases h
    | ok extractor =>
      rw [hc] at h
      obtain ⟨hin, hout⟩ := ih _ m hnodup.2 h
      refine ⟨fun cfg hcfg => ?_, fun name hname => ?_⟩
      · rcases List.mem_cons.mp hcfg with rfl | hrest
        · exact ⟨extractor, hc, by rw [hout _ hnodup.1]; exact mapSet_same _ _ _⟩
        · exact hin cfg hrest
      · rw [List.map_cons, List.mem_cons, not_or] at hname
        rw [hout name hname.2]
        exact mapSet_other _ _ hname.1

theorem defaultValues_foldl (configs : List ExtractorConfig) :
    ∀ d0 : String → Option String,
      (configs.map (fun cfg => cfg.Name)).Nodup →
      (∀ cfg ∈ configs,
          configs.foldl
              (fun defaultValues extCfg =>
                if extCfg.Default ≠ "" then
                  mapSet defaultValues extCfg.Name (some extCfg.Default)
                else defaultValues) d0 cfg.Name
            = if cfg.Default ≠ "" then some cfg.Default else d0 cfg.Name)
        ∧ (∀ name, name ∉ configs.map (fun cfg => cfg.Name) →
            configs.foldl
              (fun defaultValues extCfg =>
                if extCfg.Default ≠ "" then
                  mapSet defaultValues extCfg.Name (some extCfg.Default)
                else defaultValues) d0 name
            = d0 name) := by
  induction configs with
  | nil => intro d0 _; exact ⟨fun cfg hcfg => absurd hcfg (List.not_mem_nil cfg), fun _ _ => rfl⟩
  | cons c rest ih =>
    intro d0 hnodup
    rw [List.map_cons, List.nodup_cons] at hnodup
    obtain ⟨hin, hout⟩ := ih
      (if c.Default ≠ "" then mapSet d0 c.Name (some c.Default) else d0) hnodup.2
    refine ⟨fun cfg hcfg => ?_, fun name hname => ?_⟩
    · rw [List.foldl_cons]
      rcases List.mem_cons.mp hcfg with rfl | hrest
      · rw [hout _ hnodup.1]
        by_cases hd : cfg.Default ≠ ""
        · rw [if_pos hd, if_pos hd]
          exact mapSet_same _ _ _
        · rw [if_neg hd, if_neg hd]
      · rw [hin cfg hrest]
        have hne : cfg.Name ≠ c.Name := by
          intro heq
          apply hnodup.1
          rw [← heq]
          exact List.mem_map_of_mem _ hrest
        by_cases hd : cfg.Default ≠ ""
        · simp only [if_pos hd]
        · simp only [if_neg hd]
          by_cases hcd : c.Default ≠ ""
          · simp only [if_pos hcd]
            exact mapSet_other _ _ hne
          · simp only [if_neg hcd]
    · rw [List.map_cons, List.mem_cons, not_or] at hname
      rw [List.foldl_cons, hout name hname.2]
      by_cases hcd : c.Default ≠ ""
      · rw [if_pos hcd]
        exact mapSet_other _ _ hname.1
      · rw [if_neg hcd]

theorem newExtractorManagerLoop_last {J C : Type} (env : ExtractEnv J C) :
    ∀ (configs : List ExtractorConfig) (m0 m : ExtractorManager),
      newExtractorManagerLoop env configs m0 = .ok m →
      ∀ name, m.extractors name
        = match lastRule configs name with
          | none => m0.extractors name
          | some cfg => (createExtractor env cfg).toOption := by
  intro configs
  induction configs with
  | nil =>
    intro m0 m h name
    simp only [newExtractorManagerLoop] at h
    injection h with h
    subst h
    rfl
  | cons c rest ih =>
    intro m0 m h name
    unfold newExtractorManagerLoop at h
    cases hc : createExtractor env c with
    | error err => rw [hc] at h; cases h
    | ok extractor =>
      rw [hc] at h
      have hrest := ih _ m h name
      rw [hrest]
      unfold lastRule
      rw [List.reverse_cons, List.find?_append]
      cases hfind : rest.reverse.find? (fun cfg => decide (cfg.Name = name)) with
      | some cfg => rfl
      | none =>
        simp only [Option.none_or, List.find?_cons, List.find?_nil]
        by_cases hn : c.Name = name
        · simp only [hn, decide_True, hc, Except.toOption]
          rw [← hn]
          exact mapSet_same _ _ _
        · simp only [hn, decide_False]
          exact mapSet_other _ _ (fun h => hn h.symm)

theorem defaultValuesOf_last (configs : List ExtractorConfig) (name : String) :
    defaultValuesOf configs name = lastDefault configs name := by
  induction configs using List.reverseRecOn with
  | nil => rfl
  | append_singleton l c ih =>
    unfold defaultValuesOf lastDefault at ih ⊢
    rw [List.foldl_append, List.foldl_cons, List.foldl_nil, List.reverse_append,
      List.reverse_singleton, List.singleton_append, List.find?_cons]
    by_cases hd : c.Default ≠ ""
    · rw [if_pos hd]
      by_cases hn : c.Name = name
      · have hp : decide (c.Name = name ∧ c.Default ≠ "") = true := by simp [hn, hd]
        rw [hp, ← hn]
        exact mapSet_same _ _ _
      · have hp : decide (c.Name = name ∧ c.Default ≠ "") = false := by simp [hn]
        rw [hp, mapSet_other _ _ (fun h => hn h.symm)]
        exact ih
    · rw [if_neg hd]
      have hp : decide (c.Name = name ∧ c.Default ≠ "") = false := by simp [hd]
      rw [hp]
      exact ih

/-- C28 as stated fails: of two rules named `v`, the manager keeps the second,
which reads the header `X-B` and carries no default, while the map of the
defaults keeps the default `d1` of the first.  On a response without headers
the extractor in force fails without a default of its own, and `ExtractAll`
binds `v` to `d1`. -/
theorem extract_all_counterexample :
    ∃ m, NewExtractorManager sampleExtractEnv dupRules = .ok m
      ∧ m.extractors "v" = some (.header (NewHeaderExtractor "X-B"))
      ∧ lastRule dupRules "v"
          = some { Name := "v", Kind := ExtractorTypeHeader, JSONPath := "", Regex := "",
                   Header := "X-B", Default := "" }
      ∧ (Extractor.header (NewHeaderExtractor "X-B")).Extract sampleExtractEnv
            (some (mkResponse 200 "body")) = .error "响应头为空"
      ∧ m.ExtractAll sampleExtractEnv ["v"] (some (mkResponse 200 "body"))
            (defaultValuesOf dupRules) "v" = some "d1" :=
  ⟨_, rfl, by decide, by decide, rfl, by decide⟩

/-- C28, amended: for every response and every manager, `ExtractAll` binds the
name of an extractor to the value extracted when the extraction succeeds and to
the default recorded for the name when it fails and the name has one; a name
whose extractor fails and which has no default, and a name without extractor,
get no binding, whatever the other extractors do.  The extractor of a name is
that of the last rule of the name, and the default of a name is the last
non-empty `Default` among the rules of the name: for rules with pairwise
distinct names a rule has a default exactly when its field `Default` is not
empty. -/
theorem extract_all_bindings {J C : Type} (env : ExtractEnv J C) (m : ExtractorManager)
    (keys : List String) (resp : Option Response) (defaultValues : String → Option String)
    (configs : List ExtractorConfig)
    (hkeys : ∀ name, name ∈ keys ↔ (m.extractors name).isSome = true) :
    (∀ name extractor value, m.extractors name = some extractor →
        extractor.Extract env resp = .ok value →
        m.ExtractAll env keys resp defaultValues name = some value)
      ∧ (∀ name extractor err, m.extractors name = some extractor →
          extractor.Extract env resp = .error err →
          m.ExtractAll env keys resp defaultValues name = defaultValues name)
      ∧ (∀ name, m.extractors name = none →
          m.ExtractAll env keys resp defaultValues name = none)
      ∧ ((configs.map (fun cfg => cfg.Name)).Nodup → NewExtractorManager env configs = .ok m →
          ∀ cfg ∈ configs, ∃ extractor, createExtractor env cfg = .ok extractor
            ∧ m.ExtractAll env keys resp (defaultValuesOf configs) cfg.Name
              = match extractor.Extract env resp with
                | .ok value => some value
                | .error _ => if cfg.Default ≠ "" then some cfg.Default else none)
      ∧ (NewExtractorManager env configs = .ok m →
          ∀ name, m.ExtractAll env keys resp (defaultValuesOf configs) name
            = match (lastRule configs name).bind (fun cfg => (createExtractor env cfg).toOption)
                with
              | none => none
              | some extractor =>
                match extractor.Extract env resp with
                | .ok value => some value
                | .error _ => lastDefault configs name) := by
  have happly := fun dv name => extractAll_apply env m resp dv name keys
  refine ⟨fun name extractor value hex hval => ?_, fun name extractor err hex herr => ?_,
    fun name hex => ?_, fun hnodup hm cfg hcfg => ?_, fun hm name => ?_⟩
  · have hmem : name ∈ keys := (hkeys name).mpr (by rw [hex]; rfl)
    rw [happly, if_pos hmem]
    unfold ExtractorManager.bindingOf
    rw [hex]
    simp only [hval]
  · have hmem : name ∈ keys := (hkeys name).mpr (by rw [hex]; rfl)
    rw [happly, if_pos hmem]
    unfold ExtractorManager.bindingOf
    rw [hex]
    simp only [herr]
  · have hmem : name ∉ keys := fun h => by
      have := (hkeys name).mp h
      rw [hex] at this
      cases this
    rw [happly, if_neg hmem]
  · obtain ⟨hin, -⟩ := newExtractorManagerLoop_ok env configs _ m hnodup hm
    obtain ⟨extractor, hcreate, hex⟩ := hin cfg hcfg
    refine ⟨extractor, hcreate, ?_⟩
    have hmem : cfg.Name ∈ keys := (hkeys cfg.Name).mpr (by rw [hex]; rfl)
    have hdv : defaultValuesOf configs cfg.Name
        = if cfg.Default ≠ "" then some cfg.Default else none :=
      (defaultValues_foldl configs (fun _ => none) hnodup).1 cfg hcfg
    rw [happly, if_pos hmem]
    unfold ExtractorManager.bindingOf
    rw [hex]
    simp only
    cases extractor.Extract env resp with
    | ok value => rfl
    | error err => exact hdv
  · have hlast := newExtractorManagerLoop_last env configs _ m hm name
    have hreg : m.extractors name
        = (lastRule configs name).bind (fun cfg => (createExtractor env cfg).toOption) := by
      rw [hlast]
      cases lastRule configs name <;> rfl
    rw [← hreg, happly]
    cases hex : m.extractors name with
    | none =>
      have hmem : name ∉ keys := fun h => by
        have := (hkeys name).mp h
        rw [hex] at this
        cases this
      rw [if_neg hmem]
    | some extractor =>
      have hmem : name ∈ keys := (hkeys name).mpr (by rw [hex]; rfl)
      rw [if_pos hmem]
      unfold ExtractorManager.bindingOf
      rw [hex]
      simp only
      cases extractor.Extract env resp with
      | ok value => rfl
      | error err => exact defaultValuesOf_last configs name

theorem sampleManager_keys (name : String) :
    name ∈ ["trace", "token", "id"] ↔ (sampleManager.extractors name).isSome = true := by
  unfold sampleManager
  by_cases h1 : name = "trace" <;> by_cases h2 : name = "token" <;>
    by_cases h3 : name = "id" <;> simp [mapSet, h1, h2, h3]

/-- C28 (amended) on three rules and a response without headers whose body is
the JSON string `abc`: `token` is extracted, `id` fails and gets its default,
`trace` fails and has none. -/
theorem extract_all_bindings_witness :
    sampleManager.ExtractAll jsonExtractEnv ["trace", "token", "id"]
        (some (mkResponse 200 "\"abc\"")) (defaultValuesOf sampleRules) "token" = some "abc"
      ∧ (∃ extractor, createExtractor jsonExtractEnv idRule = .ok extractor
          ∧ sampleManager.ExtractAll jsonExtractEnv ["trace", "token", "id"]
              (some (mkResponse 200 "\"abc\"")) (defaultValuesOf sampleRules) idRule.Name
            = match extractor.Extract jsonExtractEnv (some (mkResponse 200 "\"abc\"")) with
              | .ok value => some value
              | .error _ => if idRule.Default ≠ "" then some idRule.Default else none)
      ∧ sampleManager.ExtractAll jsonExtractEnv ["trace", "token", "id"]
        (some (mkResponse 200 "\"abc\"")) (defaultValuesOf sampleRules) "id" = some "0"
      ∧ sampleManager.ExtractAll jsonExtractEnv ["trace", "token", "id"]
        (some (mkResponse 200 "\"abc\"")) (defaultValuesOf sampleRules) "trace" = none :=
  ⟨(extract_all_bindings jsonExtractEnv sampleManager ["trace", "token", "id"]
      (some (mkResponse 200 "\"abc\"")) (defaultValuesOf sampleRules) sampleRules
      sampleManager_keys).1 "token" (.jsonPath (NewJSONPathExtractor "$")) "abc" rfl rfl,
    (extract_all_bindings jsonExtractEnv sampleManager ["trace", "token", "id"]
      (some (mkResponse 200 "\"abc\"")) (defaultValuesOf sampleRules) sampleRules
      sampleManager_keys).2.2.2.1 (by decide) rfl idRule (by decide),
    by decide, by decide⟩

/-! ### The text of an extracted value -/

theorem roundHalfEven_natCast (n : Nat) : roundHalfEven (n : Rat) = n := by
  unfold roundHalfEven
  have hf : ⌊(n : Rat)⌋ = (n : Int) := Int.floor_natCast n
  rw [hf]
  norm_num

theorem floor_add_half (n : Nat) : ⌊(n : Rat) + 1 / 2⌋ = (n : Int) := by
  rw [Int.floor_eq_iff]
  constructor
  · push_cast; linarith
  · push_cast; linarith

theorem roundHalfEven_add_half (n : Nat) :
    roundHalfEven ((n : Rat) + 1 / 2) = ((if n % 2 = 0 then n else n + 1 : Nat) : Int) := by
  unfold roundHalfEven
  rw [floor_add_half]
  have h1 : ¬ ((n : Rat) + 1 / 2 - ((n : Int) : Rat) < 1 / 2) := by push_cast; linarith
  have h2 : ¬ ((n : Rat) + 1 / 2 - ((n : Int) : Rat) > 1 / 2) := by push_cast; linarith
  rw [if_neg h1, if_neg h2]
  by_cases hn : n % 2 = 0
  · have : (n : Int) % 2 = 0 := by omega
    rw [if_pos this, if_pos hn]
  · have : ¬ (n : Int) % 2 = 0 := by omega
    rw [if_neg this, if_neg hn]
    push_cast
    rfl

theorem sprintf0f_natCast (n : Nat) : sprintf0f (n : Rat) = toString n := by
  unfold sprintf0f
  have hnn : ¬ ((n : Rat) < 0) := by push_neg; exact_mod_cast Nat.zero_le n
  rw [if_neg hnn, roundHalfEven_natCast]
  rfl

theorem sprintf0f_add_half (n : Nat) :
    sprintf0f ((n : Rat) + 1 / 2) = toString (if n % 2 = 0 then n else n + 1) := by
  unfold sprintf0f
  have hnn : ¬ ((n : Rat) + 1 / 2 < 0) := by
    push_neg
    have : (0 : Rat) ≤ n := by exact_mod_cast Nat.zero_le n
    linarith
  rw [if_neg hnn, roundHalfEven_add_half]
  rfl

/-- C29 fails on the code: `JSONPathExtractor.Extract` formats a number with
`%.0f`, which rounds it to an integer.  A whole number `n` is returned as its
digits (200 as `200`), but `n + 0.5` is returned as the even one of `n` and
`n + 1`: 1.5 becomes `2`, not `1.5`.  A string is returned as itself, a boolean
as `true` or `false`, and any other value as the text of `json.Marshal`. -/
theorem jsonpath_extractor_rounds_numbers (n : Nat) :
    sprintf0f (n : Rat) = toString n
      ∧ sprintf0f ((n : Rat) + 1 / 2) = toString (if n % 2 = 0 then n else n + 1)
      ∧ (NewJSONPathExtractor "$").Extract sampleExtractEnv (some (mkResponse 200 "1.5"))
          = .ok "2"
      ∧ (NewJSONPathExtractor "$").Extract sampleExtractEnv (some (mkResponse 200 "200"))
          = .ok "200"
      ∧ (NewJSONPathExtractor "$").Extract sampleExtractEnv (some (mkResponse 200 "true"))
          = .ok "true"
      ∧ (NewJSONPathExtractor "$").Extract sampleExtractEnv (some (mkResponse 200 "abc"))
          = .ok "abc"
      ∧ (NewJSONPathExtractor "$").Extract sampleExtractEnv (some (mkResponse 200 "[1,2]"))
          = .ok "[1,2]" := by
  refine ⟨sprintf0f_natCast n, sprintf0f_add_half n, ?_, ?_, rfl, rfl, rfl⟩
  · have h : (NewJSONPathExtractor "$").Extract sampleExtractEnv (some (mkResponse 200 "1.5"))
        = .ok (sprintf0f (3 / 2)) := rfl
    have h2 := sprintf0f_add_half 1
    norm_num at h2
    rw [h, h2]
    rfl
  · have h : (NewJSONPathExtractor "$").Extract sampleExtractEnv (some (mkResponse 200 "200"))
        = .ok (sprintf0f 200) := rfl
    have h2 := sprintf0f_natCast 200
    norm_num at h2
    rw [h, h2]
    rfl
